import Mathlib

/-!
# WebhookerGo: a shallow embedding of `embed.go` and `webhook.go`

The Go package builds Discord webhook messages (`Webhook`, `Embed`, `Field`)
through fluent setters and posts them as JSON.  This file embeds the value
utilities (`hexToColorInt`, `rgbToInt`), the builders and the response
handling of `Send`, and proves properties of them.

Conventions of the embedding

* A Go `string` is a sequence of bytes: `GoString := List UInt8`.
* A Go `int` is a 64-bit two's complement integer.  It is represented by a
  mathematical `Int`; every operation that can leave the 64-bit range
  (`<<`, `*`, unary minus) reduces its result with `wrapInt`, and `|` is taken
  on the 64-bit words.
* A Go `error` is `Option Error`; `none` is `nil`.
* A method with a pointer receiver that returns the receiver is a function
  from the old value of the receiver to the new one.  The section "Pointers and
  slices" keeps the objects in a store, with slice headers and backing arrays,
  and relates the methods on pointers to these functions on values.
-/

namespace WebhookerGo

set_option maxRecDepth 100000

set_option maxHeartbeats 4000000

/-! ## Machine integers -/

/-- The 64-bit word (an unsigned number below `2^64`) that stores a Go `int`. -/
def toWord (x : Int) : Nat := (x % 2 ^ 64).toNat

/-- The Go `int` stored in a 64-bit word: words from `2^63` on are negative. -/
def ofWord (n : Nat) : Int :=
  if n % 2 ^ 64 < 2 ^ 63 then ((n % 2 ^ 64 : Nat) : Int) else ((n % 2 ^ 64 : Nat) : Int) - 2 ^ 64

/-- Reduction of a mathematical integer to the Go `int` with the same low 64 bits. -/
def wrapInt (x : Int) : Int := ofWord (toWord x)

/-- Go `x << k` on `int`. -/
def shl (x : Int) (k : Nat) : Int := wrapInt (x * 2 ^ k)

/-- Go `x | y` on `int`. -/
def bor (x y : Int) : Int := ofWord (Nat.lor (toWord x) (toWord y))

/-- Smallest Go `int`. -/
def minInt : Int := -(2 ^ 63)

/-- Largest Go `int`. -/
def maxInt : Int := 2 ^ 63 - 1

/-- Membership in the range of the Go type `int`. -/
def IsGoInt (x : Int) : Prop := minInt ≤ x ∧ x ≤ maxInt

/-! ## Strings -/

/-- A Go string: a sequence of bytes. -/
abbrev GoString := List UInt8

/-- The bytes (UTF-8) of a string literal. -/
def lit (s : String) : GoString := s.toUTF8.data.toList

/-! ## Constants of `embed.go` -/

def minDecimalRGBValue : Int := 0

def maxDecimalRGBValue : Int := 16777215

def minRGBValue : Int := 0

def maxRGBValue : Int := 255

/-- Go `type RGB struct { R, G, B int }`. -/
structure RGB where
  R : Int
  G : Int
  B : Int
  deriving DecidableEq, Repr

/-- Go `rgbToInt`: the `switch` runs the first case whose condition holds and no other;
the receiver copy `rgb` is then packed. -/
def rgbToInt (rgb : RGB) : Int :=
  let rgb : RGB :=
    if rgb.R > maxRGBValue then { rgb with R := maxRGBValue }
    else if rgb.G > maxRGBValue then { rgb with G := maxRGBValue }
    else if rgb.B > maxRGBValue then { rgb with B := maxRGBValue }
    else if rgb.R < minRGBValue then { rgb with R := minRGBValue }
    else if rgb.G < minRGBValue then { rgb with G := minRGBValue }
    else if rgb.B < minRGBValue then { rgb with B := minRGBValue }
    else rgb
  bor (bor (shl rgb.R 16) (shl rgb.G 8)) rgb.B

/-! ## `strconv` (Go standard library), as far as `embed.go` and `webhook.go` call it

`hexToColorInt` calls `strconv.ParseInt(hex, 16, 0)` and `Send` calls
`strconv.Atoi(ra)`, which the library documents as `ParseInt(s, 10, 0)` converted
to `int`.  Bit size `0` means the size of `int`, 64 bits.  Only the bases 16 and
10 are passed, so the prefix and underscore handling of base `0` does not arise.
-/

/-- The two sentinel errors `strconv.ErrSyntax` and `strconv.ErrRange`. -/
inductive NumErrKind where
  | invalidSyntax
  | outOfRange
  deriving DecidableEq, Repr

/-- Go `strconv.NumError`: the failing function, the input and the cause. -/
structure NumError where
  Func : String
  Num : GoString
  Err : NumErrKind
  deriving DecidableEq, Repr

/-- Go `strconv.lower`: `c | ('x' - 'X')`. -/
def lower (c : UInt8) : UInt8 := c ||| 0x20

/-- The digit a byte stands for in `ParseUint`, before the comparison with the base:
`'0'..'9'` give `c - '0'`, a byte whose `lower` is in `'a'..'z'` gives
`lower(c) - 'a' + 10`, any other byte is a syntax error (`none`). -/
def digitOf (c : UInt8) : Option Nat :=
  if 0x30 ≤ c.toNat ∧ c.toNat ≤ 0x39 then some (c.toNat - 0x30)
  else if 0x61 ≤ (lower c).toNat ∧ (lower c).toNat ≤ 0x7a then some ((lower c).toNat - 0x61 + 10)
  else none

/-- Largest `uint64`. -/
def maxUint64 : Nat := 2 ^ 64 - 1

/-- The digit loop of `strconv.ParseUint` with accumulator `n` (a `uint64`), for bit
size 64: result value and, on failure, the kind of error. -/
def parseUintLoop (base : Nat) : List UInt8 → Nat → Nat × Option NumErrKind
  | [], n => (n, none)
  | c :: cs, n =>
    match digitOf c with
    | none => (0, some .invalidSyntax)
    | some d =>
      if d ≥ base then (0, some .invalidSyntax)
      else if n ≥ maxUint64 / base + 1 then (maxUint64, some .outOfRange)
      else
        let m := (n * base) % 2 ^ 64
        let n1 := (m + d) % 2 ^ 64
        if n1 < m ∨ n1 > maxUint64 then (maxUint64, some .outOfRange)
        else parseUintLoop base cs n1

/-- Go `strconv.ParseUint(s, base, 0)` for `2 ≤ base ≤ 36`. -/
def ParseUint (s : GoString) (base : Nat) : Nat × Option NumError :=
  if s = [] then (0, some ⟨"ParseUint", s, .invalidSyntax⟩)
  else
    match parseUintLoop base s 0 with
    | (n, none) => (n, none)
    | (n, some k) => (n, some ⟨"ParseUint", s, k⟩)

/-- The end of `strconv.ParseInt` for bit size 64: the range check of the unsigned
value `un` against `cutoff = 1 << 63`, then the conversion to `int64` and the sign. -/
def parseIntRange (neg : Bool) (un : Nat) (s0 : GoString) : Int × Option NumError :=
  let cutoff : Nat := 2 ^ 63
  if neg = false ∧ un ≥ cutoff then (((cutoff - 1 : Nat) : Int), some ⟨"ParseInt", s0, .outOfRange⟩)
  else if neg = true ∧ un > cutoff then (-((cutoff : Nat) : Int), some ⟨"ParseInt", s0, .outOfRange⟩)
  else
    let n := ofWord un
    (if neg then wrapInt (-n) else n, none)

/-- Go `strconv.ParseInt(s, base, 0)` for `2 ≤ base ≤ 36`: an optional sign, then
`ParseUint` on the rest; an error of `ParseUint` other than `ErrRange` is returned
with `Func` and `Num` replaced, and otherwise the range check follows. -/
def ParseInt (s : GoString) (base : Nat) : Int × Option NumError :=
  match s with
  | [] => (0, some ⟨"ParseInt", s, .invalidSyntax⟩)
  | c :: rest =>
    let neg : Bool := c == 0x2d
    let body : GoString := if c = 0x2b then rest else if c = 0x2d then rest else s
    let r := ParseUint body base
    match r.2 with
    | some err =>
      if err.Err ≠ .outOfRange then (0, some { err with Func := "ParseInt", Num := s })
      else parseIntRange neg r.1 s
    | none => parseIntRange neg r.1 s

/-- Go `strconv.Atoi(s)`: `ParseInt(s, 10, 0)` with the error's `Func` renamed. -/
def Atoi (s : GoString) : Int × Option NumError :=
  match ParseInt s 10 with
  | (i, none) => (i, none)
  | (i, some e) => (i, some { e with Func := "Atoi" })

/-! ## Errors of the package -/

/-- The error values `embed.go` creates with `fmt.Errorf`. -/
inductive Error where
  /-- The value of `fmt.Errorf("invalid hex color format")`. -/
  | invalidHexFormat
  /-- The value of `fmt.Errorf("error parsing hex to int: %v", err)`. -/
  | hexParse (cause : NumError)
  deriving DecidableEq, Repr

/-- Go `hexToColorInt`. -/
def hexToColorInt (hex : GoString) : Int × Option Error :=
  let stripped : Option GoString :=
    if hex.length = 7 ∧ hex.head? = some 0x23 then some hex.tail
    else if hex.length ≠ 6 then none
    else some hex
  match stripped with
  | none => (0, some .invalidHexFormat)
  | some hex =>
    match ParseInt hex 16 with
    | (_, some err) => (0, some (.hexParse err))
    | (decimalValue, none) => (decimalValue, none)

/-! ## `time` (Go standard library), as far as `SetTimestamp` uses it

An instant is a count of seconds since 1970-01-01T00:00:00Z with a nanosecond part;
a `time.Time` also carries a location, of which only the offset that is in force
at the instant matters for `Format`.
-/

/-- Go `time.Time`: the instant (`sec`, `nsec`) and the offset of its location, in
seconds east of UTC. -/
structure Time where
  sec : Int
  nsec : Nat
  offset : Int
  deriving DecidableEq, Repr

/-- Go `Time.UTC`: the same instant with the location set to UTC. -/
def Time.UTC (t : Time) : Time := { t with offset := 0 }

/-- Year, month and day of the proleptic Gregorian calendar for a count of days
since 1970-01-01. -/
def civilFromDays (days : Int) : Int × Int × Int :=
  let z := days + 719468
  let era := z / 146097
  let doe := z - era * 146097
  let yoe := (doe - doe / 1460 + doe / 36524 - doe / 146096) / 365
  let doy := doe - (365 * yoe + yoe / 4 - yoe / 100)
  let mp := (5 * doy + 2) / 153
  let d := doy - (153 * mp + 2) / 5 + 1
  let m := if mp < 10 then mp + 3 else mp - 9
  let y := yoe + era * 400 + (if m ≤ 2 then 1 else 0)
  (y, m, d)

/-- The ASCII decimal digits of a natural number. -/
def decimalDigits (n : Nat) : GoString := (Nat.toDigits 10 n).map (fun c => c.toNat.toUInt8)

/-- Go `time.appendInt`: a minus sign for a negative number, then the decimal digits
padded with zeros on the left to `width`. -/
def appendInt (x : Int) (width : Nat) : GoString :=
  let ds := decimalDigits x.natAbs
  (if x < 0 then [0x2d] else []) ++ List.replicate (width - ds.length) 0x30 ++ ds

/-- Go `t.Format(time.RFC3339)`, layout `2006-01-02T15:04:05Z07:00`: the date and
clock in the location of `t`, then `Z` for offset zero and `±hh:mm` otherwise.
The nanosecond part is not printed. -/
def Time.formatRFC3339 (t : Time) : GoString :=
  let abs := t.sec + t.offset
  let date := civilFromDays (abs / 86400)
  let secOfDay := abs % 86400
  let zone := t.offset / 60
  let zoneAbs := if zone < 0 then -zone else zone
  appendInt date.1 4 ++ [0x2d] ++ appendInt date.2.1 2 ++ [0x2d] ++ appendInt date.2.2 2 ++ [0x54]
    ++ appendInt (secOfDay / 3600) 2 ++ [0x3a] ++ appendInt (secOfDay % 3600 / 60) 2 ++ [0x3a]
    ++ appendInt (secOfDay % 60) 2
    ++ (if t.offset = 0 then [0x5a]
        else (if zone < 0 then [0x2d] else [0x2b]) ++ appendInt (zoneAbs / 60) 2 ++ [0x3a]
          ++ appendInt (zoneAbs % 60) 2)

/-! ## The embed and its builders (`embed.go`)

A slice is a list: the builders only append to a slice or replace it, and neither
`len` nor the JSON encoding under `omitempty` tells a `nil` slice from an empty one.
-/

/-- Go `Footer`. -/
structure Footer where
  Text : GoString
  IconURL : GoString
  deriving DecidableEq, Repr

/-- Go `Image`. -/
structure Image where
  URL : GoString
  deriving DecidableEq, Repr

/-- Go `Thumbnail`. -/
structure Thumbnail where
  URL : GoString
  deriving DecidableEq, Repr

/-- Go `Author`. -/
structure Author where
  Name : GoString
  URL : GoString
  IconURL : GoString
  deriving DecidableEq, Repr

/-- Go `Field`. -/
structure Field where
  Name : GoString
  Value : GoString
  Inline : Bool
  deriving DecidableEq, Repr

/-- Go `Embed`; `err` is the unexported field holding the deferred error. -/
structure Embed where
  Title : GoString
  Description : GoString
  URL : GoString
  Timestamp : GoString
  Color : Int
  Footer : WebhookerGo.Footer
  Image : WebhookerGo.Image
  Thumbnail : WebhookerGo.Thumbnail
  Author : WebhookerGo.Author
  Fields : List Field
  err : Option Error
  deriving DecidableEq, Repr

/-- Go `NewEmbed`: the zero value of `Embed`. -/
def NewEmbed : Embed :=
  { Title := [], Description := [], URL := [], Timestamp := [], Color := 0,
    Footer := ⟨[], []⟩, Image := ⟨[]⟩, Thumbnail := ⟨[]⟩, Author := ⟨[], [], []⟩,
    Fields := [], err := none }

/-- Go `(*Embed).Error`. -/
def Embed.Error (e : Embed) : Option WebhookerGo.Error := e.err

/-- Go `(*Embed).SetTitle`. -/
def Embed.SetTitle (e : Embed) (title : GoString) : Embed := { e with Title := title }

/-- Go `(*Embed).SetDescription`. -/
def Embed.SetDescription (e : Embed) (description : GoString) : Embed :=
  { e with Description := description }

/-- Go `(*Embed).SetURL`. -/
def Embed.SetURL (e : Embed) (url : GoString) : Embed := { e with URL := url }

/-- Go `(*Embed).SetColorInt`. -/
def Embed.SetColorInt (e : Embed) (color : Int) : Embed :=
  if color > maxDecimalRGBValue then { e with Color := maxDecimalRGBValue }
  else if color < minDecimalRGBValue then { e with Color := minDecimalRGBValue }
  else { e with Color := color }

/-- Go `(*Embed).SetColorHex`: the error slot is written only when the parser
fails, the color always. -/
def Embed.SetColorHex (e : Embed) (hex : GoString) : Embed :=
  let r := hexToColorInt hex
  let e1 : Embed := match r.2 with
    | some err => { e with err := some err }
    | none => e
  { e1 with Color := r.1 }

/-- Go `(*Embed).SetColorRGB`. -/
def Embed.SetColorRGB (e : Embed) (rgb : RGB) : Embed := { e with Color := rgbToInt rgb }

/-- Go `(*Embed).SetFooter`. -/
def Embed.SetFooter (e : Embed) (text iconURL : GoString) : Embed :=
  { e with Footer := { Text := text, IconURL := iconURL } }

/-- Go `(*Embed).SetTimestamp`. -/
def Embed.SetTimestamp (e : Embed) (t : Time) : Embed :=
  { e with Timestamp := t.UTC.formatRFC3339 }

/-- Go `(*Embed).SetTimestampNow`; `now` is the value `time.Now()` returns. -/
def Embed.SetTimestampNow (e : Embed) (now : Time) : Embed := e.SetTimestamp now

/-- Go `(*Embed).SetAuthorName`. -/
def Embed.SetAuthorName (e : Embed) (name : GoString) : Embed :=
  { e with Author := { e.Author with Name := name } }

/-- Go `(*Embed).SetAuthorURL`. -/
def Embed.SetAuthorURL (e : Embed) (url : GoString) : Embed :=
  { e with Author := { e.Author with URL := url } }

/-- Go `(*Embed).SetAuthorIcon`. -/
def Embed.SetAuthorIcon (e : Embed) (iconURL : GoString) : Embed :=
  { e with Author := { e.Author with IconURL := iconURL } }

/-- Go `(*Embed).SetImage`. -/
def Embed.SetImage (e : Embed) (url : GoString) : Embed := { e with Image := { URL := url } }

/-- Go `(*Embed).AddField`; `field` is the value the pointer argument points to. -/
def Embed.AddField (e : Embed) (field : Field) : Embed := { e with Fields := e.Fields ++ [field] }

/-- Go `NewEmptyField`. -/
def NewEmptyField : Field := { Name := [], Value := [], Inline := false }

/-- Go `NewField`. -/
def NewField (name value : GoString) (inline : Bool) : Field :=
  { Name := name, Value := value, Inline := inline }

/-- Go `(*Field).SetName`. -/
def Field.SetName (f : Field) (name : GoString) : Field := { f with Name := name }

/-- Go `(*Field).SetValue`. -/
def Field.SetValue (f : Field) (value : GoString) : Field := { f with Value := value }

/-- Go `(*Field).SetInline`. -/
def Field.SetInline (f : Field) (inline : Bool) : Field := { f with Inline := inline }

/-- Go `(*Embed).ClearFields`. -/
def Embed.ClearFields (e : Embed) : Embed := { e with Fields := [] }

/-- Go `(*Embed).SetThumbnail`. -/
def Embed.SetThumbnail (e : Embed) (url : GoString) : Embed :=
  { e with Thumbnail := { URL := url } }

/-- One call of a builder method of `Embed`, with its arguments. -/
inductive EmbedCall where
  | setTitle (title : GoString)
  | setDescription (description : GoString)
  | setURL (url : GoString)
  | setColorInt (color : Int)
  | setColorHex (hex : GoString)
  | setColorRGB (rgb : RGB)
  | setFooter (text iconURL : GoString)
  | setTimestamp (t : Time)
  | setTimestampNow (now : Time)
  | setAuthorName (name : GoString)
  | setAuthorURL (url : GoString)
  | setAuthorIcon (iconURL : GoString)
  | setImage (url : GoString)
  | addField (field : Field)
  | clearFields
  | setThumbnail (url : GoString)
  | error
  deriving DecidableEq, Repr

/-- The embed after one builder call (`error` is a call of `Error()`, which only reads). -/
def Embed.call (e : Embed) : EmbedCall → Embed
  | .setTitle title => e.SetTitle title
  | .setDescription description => e.SetDescription description
  | .setURL url => e.SetURL url
  | .setColorInt color => e.SetColorInt color
  | .setColorHex hex => e.SetColorHex hex
  | .setColorRGB rgb => e.SetColorRGB rgb
  | .setFooter text iconURL => e.SetFooter text iconURL
  | .setTimestamp t => e.SetTimestamp t
  | .setTimestampNow now => e.SetTimestampNow now
  | .setAuthorName name => e.SetAuthorName name
  | .setAuthorURL url => e.SetAuthorURL url
  | .setAuthorIcon iconURL => e.SetAuthorIcon iconURL
  | .setImage url => e.SetImage url
  | .addField field => e.AddField field
  | .clearFields => e.ClearFields
  | .setThumbnail url => e.SetThumbnail url
  | .error => e

/-- The embed after a sequence of builder calls, in program order. -/
def Embed.run (e : Embed) (calls : List EmbedCall) : Embed := calls.foldl Embed.call e

/-! ## `encoding/json` (Go standard library), as far as `Send` uses it

`json.Marshal` writes a struct as `{`, the members separated by `,`, `}`.  A field
tagged `omitempty` is left out when `isEmptyValue` holds for it: a string or slice
of length 0, the integer 0, `false`.  `isEmptyValue` is false for every value of
struct type, so the tag has no effect on such a field.  Strings are written by
`appendString` with HTML escaping on; the short escapes for backspace and form feed
are those of Go 1.22 and later.  A byte that is not part of a well-formed UTF-8
sequence is written as U+FFFD: as the three bytes `EF BF BD` by the encoder built
on `encoding/json/v2`, which the model follows; the encoder before it wrote the six
characters of the escape for U+FFFD, which denote the same string.  An encoded
object is kept as its list of members (key, encoded value) until it is written.
-/

/-- The byte `"0123456789abcdef"[n]`. -/
def hexChar (n : Nat) : UInt8 :=
  if n < 10 then (0x30 + n).toUInt8 else (0x61 + (n - 10)).toUInt8

/-- Go `utf8.RuneError`, U+FFFD. -/
def RuneError : Nat := 0xFFFD

/-- Go `utf8.DecodeRuneInString` on a string whose first byte is `b0 ≥ 0x80`:
the rune and the number of bytes it takes; `(RuneError, 1)` for an invalid encoding. -/
def decodeRune (b0 : UInt8) (rest : GoString) : Nat × Nat :=
  let x := b0.toNat
  -- size of the sequence and the range accepted for the second byte
  let info : Option (Nat × Nat × Nat) :=
    if 0xC2 ≤ x ∧ x ≤ 0xDF then some (2, 0x80, 0xBF)
    else if x = 0xE0 then some (3, 0xA0, 0xBF)
    else if x = 0xED then some (3, 0x80, 0x9F)
    else if 0xE1 ≤ x ∧ x ≤ 0xEF then some (3, 0x80, 0xBF)
    else if x = 0xF0 then some (4, 0x90, 0xBF)
    else if 0xF1 ≤ x ∧ x ≤ 0xF3 then some (4, 0x80, 0xBF)
    else if x = 0xF4 then some (4, 0x80, 0x8F)
    else none
  match info with
  | none => (RuneError, 1)
  | some (sz, lo, hi) =>
    if rest.length + 1 < sz then (RuneError, 1)
    else
      let s1 := (rest.getD 0 0).toNat
      let s2 := (rest.getD 1 0).toNat
      let s3 := (rest.getD 2 0).toNat
      if s1 < lo ∨ hi < s1 then (RuneError, 1)
      else if sz ≤ 2 then ((x % 32) * 64 + s1 % 64, 2)
      else if s2 < 0x80 ∨ 0xBF < s2 then (RuneError, 1)
      else if sz ≤ 3 then ((x % 16) * 4096 + (s1 % 64) * 64 + s2 % 64, 3)
      else if s3 < 0x80 ∨ 0xBF < s3 then (RuneError, 1)
      else ((x % 8) * 262144 + (s1 % 64) * 4096 + (s2 % 64) * 64 + s3 % 64, 4)

/-- What `appendString` writes for one byte below `0x80`: the byte itself when it is
in `htmlSafeSet`, a short escape for `\`, `"`, backspace, form feed, newline, carriage
return and tab, and `\u00XX` for the other control bytes and for `<`, `>`, `&`. -/
def escapeByte (b : UInt8) : GoString :=
  let x := b.toNat
  if 0x20 ≤ x ∧ x ≠ 0x22 ∧ x ≠ 0x26 ∧ x ≠ 0x3c ∧ x ≠ 0x3e ∧ x ≠ 0x5c then [b]
  else if x = 0x5c ∨ x = 0x22 then [0x5c, b]
  else if x = 0x08 then [0x5c, 0x62]
  else if x = 0x0c then [0x5c, 0x66]
  else if x = 0x0a then [0x5c, 0x6e]
  else if x = 0x0d then [0x5c, 0x72]
  else if x = 0x09 then [0x5c, 0x74]
  else [0x5c, 0x75, 0x30, 0x30, hexChar (x / 16), hexChar (x % 16)]

/-- The loop of `appendString` between the quotes; every step consumes at least one
byte, so `fuel = len(s)` steps reach the end of the string.  A byte below `0x80` is
written by `escapeByte`, an invalid byte as U+FFFD, the line and paragraph
separators U+2028 and U+2029 as escapes, every other character as it is. -/
def appendStringLoop : Nat → GoString → GoString
  | 0, _ => []
  | _ + 1, [] => []
  | fuel + 1, b :: rest =>
    if b.toNat < 0x80 then escapeByte b ++ appendStringLoop fuel rest
    else
      let r := decodeRune b rest
      if r.1 = RuneError ∧ r.2 = 1 then
        [0xEF, 0xBF, 0xBD] ++ appendStringLoop fuel rest
      else if r.1 = 0x2028 ∨ r.1 = 0x2029 then
        [0x5c, 0x75, 0x32, 0x30, 0x32, hexChar (r.1 % 16)]
          ++ appendStringLoop fuel (rest.drop (r.2 - 1))
      else (b :: rest).take r.2 ++ appendStringLoop fuel (rest.drop (r.2 - 1))

/-- The JSON text of a Go string. -/
def encodeString (s : GoString) : GoString :=
  [0x22] ++ appendStringLoop s.length s ++ [0x22]

/-- The JSON text of a Go `int` (`strconv.AppendInt(b, v, 10)`). -/
def encodeInt (n : Int) : GoString :=
  (if n < 0 then [0x2d] else []) ++ decimalDigits n.natAbs

/-- The JSON text of a Go `bool`. -/
def encodeBool (b : Bool) : GoString := if b then lit "true" else lit "false"

/-- A member of an encoded JSON object: the key and the JSON text of the value. -/
abbrev Member := GoString × GoString

/-- The texts joined by commas. -/
def joinComma : List GoString → GoString
  | [] => []
  | [x] => x
  | x :: y :: rest => x ++ [0x2c] ++ joinComma (y :: rest)

/-- The JSON text of an object with the given members. -/
def encodeObject (members : List Member) : GoString :=
  [0x7b] ++ joinComma (members.map (fun m => [0x22] ++ m.1 ++ [0x22, 0x3a] ++ m.2)) ++ [0x7d]

/-- The JSON text of a non-empty slice whose elements have the given texts. -/
def encodeArray (elems : List GoString) : GoString := [0x5b] ++ joinComma elems ++ [0x5d]

/-- A string field without `omitempty`. -/
def stringMember (key : String) (v : GoString) : List Member := [(lit key, encodeString v)]

/-- A string field tagged `omitempty`. -/
def stringMemberOmitEmpty (key : String) (v : GoString) : List Member :=
  if v.length = 0 then [] else [(lit key, encodeString v)]

/-- An `int` field tagged `omitempty`. -/
def intMemberOmitEmpty (key : String) (v : Int) : List Member :=
  if v = 0 then [] else [(lit key, encodeInt v)]

/-- A `bool` field tagged `omitempty`. -/
def boolMemberOmitEmpty (key : String) (v : Bool) : List Member :=
  if v = false then [] else [(lit key, encodeBool v)]

/-- A field of struct type tagged `omitempty`: always written, since no struct value
is empty for `isEmptyValue`. -/
def structMemberOmitEmpty (key : String) (members : List Member) : List Member :=
  [(lit key, encodeObject members)]

/-- A slice field tagged `omitempty`, given the texts of its elements. -/
def sliceMemberOmitEmpty (key : String) (elems : List GoString) : List Member :=
  if elems.length = 0 then [] else [(lit key, encodeArray elems)]

/-- Members of an encoded `Footer`. -/
def Footer.members (f : Footer) : List Member :=
  stringMemberOmitEmpty "text" f.Text ++ stringMemberOmitEmpty "icon_url" f.IconURL

/-- Members of an encoded `Image`. -/
def Image.members (i : Image) : List Member := stringMemberOmitEmpty "url" i.URL

/-- Members of an encoded `Thumbnail`. -/
def Thumbnail.members (t : Thumbnail) : List Member := stringMemberOmitEmpty "url" t.URL

/-- Members of an encoded `Author`. -/
def Author.members (a : Author) : List Member :=
  stringMemberOmitEmpty "name" a.Name ++ stringMemberOmitEmpty "url" a.URL
    ++ stringMemberOmitEmpty "icon_url" a.IconURL

/-- Members of an encoded `Field`. -/
def Field.members (f : Field) : List Member :=
  stringMember "name" f.Name ++ stringMember "value" f.Value
    ++ boolMemberOmitEmpty "inline" f.Inline

/-- Members of an encoded `Embed`, in the order of the struct's fields; the
unexported `err` is not encoded. -/
def Embed.members (e : Embed) : List Member :=
  stringMemberOmitEmpty "title" e.Title
    ++ stringMemberOmitEmpty "description" e.Description
    ++ stringMemberOmitEmpty "url" e.URL
    ++ stringMemberOmitEmpty "timestamp" e.Timestamp
    ++ intMemberOmitEmpty "color" e.Color
    ++ structMemberOmitEmpty "footer" e.Footer.members
    ++ structMemberOmitEmpty "image" e.Image.members
    ++ structMemberOmitEmpty "thumbnail" e.Thumbnail.members
    ++ structMemberOmitEmpty "author" e.Author.members
    ++ sliceMemberOmitEmpty "fields" (e.Fields.map (fun f => encodeObject f.members))

/-- The keys of an encoded object. -/
def keys (members : List Member) : List GoString := members.map Prod.fst

/-! ## The message and its transport (`webhook.go`) -/

/-- Go `Webhook`. -/
structure Webhook where
  Content : GoString
  Username : GoString
  AvatarURL : GoString
  TTS : Bool
  Embeds : List Embed
  deriving DecidableEq, Repr

/-- Go `DiscordError`; `RetryAfter` is a `time.Duration`, an `int64` count of
nanoseconds. -/
structure DiscordError where
  StatusCode : Int
  Body : GoString
  RetryAfter : Int
  deriving DecidableEq, Repr

/-- Go `NewWebhook`. -/
def NewWebhook : Webhook :=
  { Content := [], Username := [], AvatarURL := [], TTS := false, Embeds := [] }

/-- Go `(*Webhook).SetUsername`. -/
def Webhook.SetUsername (w : Webhook) (username : GoString) : Webhook :=
  { w with Username := username }

/-- Go `(*Webhook).SetAvatarURL`. -/
def Webhook.SetAvatarURL (w : Webhook) (url : GoString) : Webhook := { w with AvatarURL := url }

/-- Go `(*Webhook).SetContent`. -/
def Webhook.SetContent (w : Webhook) (content : GoString) : Webhook :=
  { w with Content := content }

/-- Go `(*Webhook).SetTTS`. -/
def Webhook.SetTTS (w : Webhook) (tts : Bool) : Webhook := { w with TTS := tts }

/-- Go `(*Webhook).AddEmbed`; `embed` is the value the pointer argument points to. -/
def Webhook.AddEmbed (w : Webhook) (embed : Embed) : Webhook :=
  { w with Embeds := w.Embeds ++ [embed] }

/-- Members of an encoded `Webhook`. -/
def Webhook.members (w : Webhook) : List Member :=
  stringMemberOmitEmpty "content" w.Content
    ++ stringMemberOmitEmpty "username" w.Username
    ++ stringMemberOmitEmpty "avatar_url" w.AvatarURL
    ++ boolMemberOmitEmpty "tts" w.TTS
    ++ sliceMemberOmitEmpty "embeds" (w.Embeds.map (fun e => encodeObject e.members))

/-- The bytes `json.Marshal(w)` returns for a `*Webhook`; no value of this type makes
the encoder fail. -/
def Marshal (w : Webhook) : GoString := encodeObject w.members

/-- Go `time.Millisecond`, in nanoseconds. -/
def Millisecond : Int := 1000000

/-- Go `http.StatusOK`. -/
def StatusOK : Int := 200

/-- Go `http.StatusNoContent`. -/
def StatusNoContent : Int := 204

/-- Go `http.StatusTooManyRequests`. -/
def StatusTooManyRequests : Int := 429

/-- Go `http.Header`: the values of each header, under its canonical key. -/
abbrev Header := List (GoString × List GoString)

/-- Go `Header.Get` for a key in canonical form: the first value, `""` without one. -/
def Header.Get (h : Header) (key : GoString) : GoString :=
  match h.lookup key with
  | some (v :: _) => v
  | _ => []

/-- Go `*http.Response`, as far as `Send` reads it; `Body` is the sequence of bytes
the body reader delivers. -/
structure Response where
  StatusCode : Int
  Header : WebhookerGo.Header
  Body : GoString
  deriving DecidableEq, Repr

/-- The three kinds of error `Send` returns. -/
inductive SendError where
  /-- The value of `fmt.Errorf("failed to marshal webhook: %w", err)`. -/
  | marshal
  /-- The value of `fmt.Errorf("failed to post webhook: %w", err)`, with the message of the cause. -/
  | post (cause : GoString)
  /-- A `*DiscordError`. -/
  | discord (e : DiscordError)
  deriving DecidableEq, Repr

/-- Go `(*Webhook).Send`; `post url body` is what `http.Post(url, "application/json", body)`
returns: a response, or the message of a transport error. -/
def Webhook.Send (post : GoString → GoString → Except GoString Response) (w : Webhook)
    (webhookURL : GoString) : Option SendError :=
  let data := Marshal w
  match post webhookURL data with
  | .error cause => some (.post cause)
  | .ok resp =>
    if resp.StatusCode ≠ StatusOK ∧ resp.StatusCode ≠ StatusNoContent then
      let body := resp.Body.take 4096
      let discErr : DiscordError := { StatusCode := resp.StatusCode, Body := body, RetryAfter := 0 }
      let discErr : DiscordError :=
        if resp.StatusCode = StatusTooManyRequests then
          let ra := resp.Header.Get (lit "Retry-After")
          if ra ≠ [] then
            match Atoi ra with
            | (ms, none) => { discErr with RetryAfter := wrapInt (ms * Millisecond) }
            | (_, some _) => discErr
          else discErr
        else discErr
      some (.discord discErr)
    else none

/-- Go `SendSimple`. -/
def SendSimple (post : GoString → GoString → Except GoString Response) (webhookURL : GoString)
    (message : GoString) : Option SendError :=
  (NewWebhook.SetContent message).Send post webhookURL

/-- Go `SendEmbed`. -/
def SendEmbed (post : GoString → GoString → Except GoString Response) (webhookURL : GoString)
    (embed : Embed) : Option SendError :=
  (NewWebhook.AddEmbed embed).Send post webhookURL

/-- The value `min (max x lo) hi` the specification calls `clamp(x, lo, hi)`. -/
def clamp (x lo hi : Int) : Int := min (max x lo) hi

/-- The packing the specification states for an RGB triple: every component clamped
to `[0, 255]` on its own, then `(r << 16) | (g << 8) | b`. -/
def packClamped (r g b : Int) : Int :=
  bor (bor (shl (clamp r 0 255) 16) (shl (clamp g 0 255) 8)) (clamp b 0 255)

/-! ## Notions of the specification -/

/-- The value of a hexadecimal digit `[0-9a-fA-F]`; `none` for any other byte. -/
def hexDigitValue (c : UInt8) : Option Nat :=
  if 0x30 ≤ c.toNat ∧ c.toNat ≤ 0x39 then some (c.toNat - 0x30)
  else if 0x61 ≤ c.toNat ∧ c.toNat ≤ 0x66 then some (c.toNat - 0x61 + 10)
  else if 0x41 ≤ c.toNat ∧ c.toNat ≤ 0x46 then some (c.toNat - 0x41 + 10)
  else none

/-- The value of a decimal digit `[0-9]`; `none` for any other byte. -/
def decDigitValue (c : UInt8) : Option Nat :=
  if 0x30 ≤ c.toNat ∧ c.toNat ≤ 0x39 then some (c.toNat - 0x30) else none

/-- The number a string of digits denotes in base `base`, most significant digit
first, continuing from the value `n` of the digits read before; `digit` gives the
value of a digit. -/
def posValue (base : Nat) (digit : UInt8 → Option Nat) (s : GoString) (n : Nat) : Nat :=
  s.foldl (fun acc c => acc * base + (digit c).getD 0) n

/-- The base-16 value of a string of hex digits: `int(s, 16)`. -/
def hexValue (s : GoString) : Nat := posValue 16 hexDigitValue s 0

/-- The string without a leading `#`: `strip_hash`. -/
def stripHash (s : GoString) : GoString := if s.head? = some 0x23 then s.tail else s

/-- Every byte of the string is a hex digit. -/
def allHex (s : GoString) : Bool := s.all (fun c => (hexDigitValue c).isSome)

/-- The accepted forms of a hex color: exactly 6 hex digits, or `#` followed by
exactly 6 hex digits. -/
def wellFormedHex (s : GoString) : Bool :=
  (s.length = 6 ∧ allHex s) ∨ (s.length = 7 ∧ s.head? = some 0x23 ∧ allHex s.tail)

/-- A sign `+` or `-` followed by exactly 5 hex digits. -/
def signedHexPayload (p : GoString) : Bool :=
  match p with
  | [] => false
  | c :: rest => (c = 0x2b ∨ c = 0x2d) ∧ rest.length = 5 ∧ allHex rest

/-- The natural number a non-empty string of decimal digits denotes. -/
def decimalNatural (s : GoString) : Option Nat :=
  if s ≠ [] ∧ s.all (fun c => (decDigitValue c).isSome) then some (posValue 10 decDigitValue s 0)
  else none

/-- The integer a decimal numeral denotes: an optional sign `+` or `-`, then one or
more decimal digits; `none` for any other string. -/
def decimalInteger (s : GoString) : Option Int :=
  match s with
  | [] => none
  | c :: rest =>
    if c = 0x2b then (decimalNatural rest).map Int.ofNat
    else if c = 0x2d then (decimalNatural rest).map (fun m => -Int.ofNat m)
    else (decimalNatural (c :: rest)).map Int.ofNat

/-- The `RetryAfter` that `Send` puts in the `DiscordError` for a response: the
statements of `Send` between the construction of `discErr` and `return discErr`. -/
def retryAfterOf (resp : Response) : Int :=
  if resp.StatusCode = StatusTooManyRequests then
    if resp.Header.Get (lit "Retry-After") ≠ [] then
      match Atoi (resp.Header.Get (lit "Retry-After")) with
      | (ms, none) => wrapInt (ms * Millisecond)
      | (_, some _) => 0
    else 0
  else 0

/-- The digit `ParseUint` accepts for a byte in base `base`: `digitOf` followed by
the comparison `d >= base`. -/
def digitIn (base : Nat) (c : UInt8) : Option Nat :=
  (digitOf c).bind (fun d => if d < base then some d else none)

/-- The error of a builder call that is a `SetColorHex` whose argument the parser
rejects; `none` for every other call. -/
def hexFailure : EmbedCall → Option Error
  | .setColorHex hex => (hexToColorInt hex).2
  | _ => none

/-- The embed of the specification's second scenario: title "Alert", description
"up", hex color "#FF5733", timestamp 2024-01-02T03:04:05Z (1704164645 seconds after
the epoch) and the inline fields (a,1), (b,2). -/
def alertEmbed : Embed :=
  NewEmbed.run
    [.setTitle (lit "Alert"), .setDescription (lit "up"), .setColorHex (lit "#FF5733"),
     .setTimestamp ⟨1704164645, 0, 0⟩,
     .addField (NewField (lit "a") (lit "1") true),
     .addField (NewField (lit "b") (lit "2") true)]

/-- The packing `(r << 16) | (g << 8) | b` of three components as they are. -/
def packRGB (r g b : Int) : Int := bor (bor (shl r 16) (shl g 8)) b

/-- A component within `[0, 255]`. -/
def InComponentRange (x : Int) : Prop := 0 ≤ x ∧ x ≤ 255

/-- At most one of the three components lies outside `[0, 255]`. -/
def AtMostOneOutOfRange (r g b : Int) : Prop :=
  (InComponentRange r ∧ InComponentRange g) ∨ (InComponentRange r ∧ InComponentRange b) ∨
    (InComponentRange g ∧ InComponentRange b)

/-- The value passed by a call of `AddField`; `none` for every other call. -/
def addedField : EmbedCall → Option Field
  | .addField field => some field
  | _ => none

/-- The calls made after the most recent `ClearFields` (all of them if there is none). -/
def afterLastClear (calls : List EmbedCall) : List EmbedCall :=
  (calls.reverse.takeWhile (fun c => decide (c ≠ EmbedCall.clearFields))).reverse

/-! ## Pointers and slices

The builders receive pointers (`*Embed`, `*Field`, `*Webhook`), and a copy of an
`Embed` shares the backing array of `Fields` with the struct it was copied from:
`AddEmbed` stores `*embed`, slice header included.  The machine below keeps the
memory of a program that uses the package: the backing arrays of the `[]Field`
slices, the `Field` objects, the `Embed` objects that `NewEmbed` returned, the
`Embed` structs that hold a copy, and the `Webhook` objects.

An `Embed` struct that holds a copy is an entry of the `Embeds` slice of a
`Webhook` (written by `AddEmbed`) or a variable assigned from another `Embed`
(`d := *p`, or the variable of a `range` loop).  The program can address either
(`&w.Embeds[k]`, `&d`) and call any builder on it, `AddField` included, copy it
again, or pass it to `AddEmbed`.  The `Embeds` slice of a `Webhook` is the list of
the addresses of its entries, in order; the address `&w.Embeds[k]` is taken when
it is used.  The program does not overwrite an `Embed` object as a whole
(`*e = *p`), does not copy `Webhook` structs, and reaches the slices through the
functions of the package only.

A pointer is the index of an object; a call on a pointer that addresses no object
(in Go a `nil` dereference, which panics) leaves the store as it is.
-/

/-- A Go slice header of type `[]Field`: backing array, length, capacity. -/
structure FieldSlice where
  arr : Nat
  len : Nat
  cap : Nat
  deriving DecidableEq, Repr

/-- A Go `Embed` in memory: the fields of `Embed`, `Fields` being a slice header. -/
structure EmbedCell where
  Title : GoString
  Description : GoString
  URL : GoString
  Timestamp : GoString
  Color : Int
  Footer : WebhookerGo.Footer
  Image : WebhookerGo.Image
  Thumbnail : WebhookerGo.Thumbnail
  Author : WebhookerGo.Author
  Fields : FieldSlice
  err : Option Error
  deriving DecidableEq, Repr

/-- A Go `Webhook` in memory; `Embeds` lists the addresses of the entries of the
slice, each entry being an `Embed` struct with its own slice header. -/
structure WebhookCell where
  Content : GoString
  Username : GoString
  AvatarURL : GoString
  TTS : Bool
  Embeds : List Nat
  deriving DecidableEq, Repr

/-- The store: backing arrays of `[]Field`, the `Field` objects, the `Embed` objects
made by `NewEmbed` (`embeds`), the `Embed` structs that hold a copy (`copies`), and
the `Webhook` objects, each kind with the index of the next one to allocate. -/
structure Machine where
  arrays : Nat → List Field
  nextArray : Nat
  fields : Nat → Field
  nextField : Nat
  embeds : Nat → EmbedCell
  nextEmbed : Nat
  copies : Nat → EmbedCell
  nextCopy : Nat
  webhooks : Nat → WebhookCell
  nextWebhook : Nat

/-- A pointer to an `Embed` struct: to the object the `e`-th `NewEmbed` returned, or
to the `d`-th struct that holds a copy. -/
inductive EmbedPtr where
  | object (e : Nat)
  | copy (d : Nat)
  deriving DecidableEq, Repr

/-- The zero value of `Embed` in memory: the `nil` slice has length and capacity 0. -/
def EmbedCell.zero : EmbedCell :=
  { Title := [], Description := [], URL := [], Timestamp := [], Color := 0,
    Footer := ⟨[], []⟩, Image := ⟨[]⟩, Thumbnail := ⟨[]⟩, Author := ⟨[], [], []⟩,
    Fields := ⟨0, 0, 0⟩, err := none }

/-- The zero value of `Webhook` in memory. -/
def WebhookCell.zero : WebhookCell :=
  { Content := [], Username := [], AvatarURL := [], TTS := false, Embeds := [] }

/-- The store of a program that has created no object yet. -/
def Machine.init : Machine :=
  { arrays := fun _ => [], nextArray := 0, fields := fun _ => NewEmptyField, nextField := 0,
    embeds := fun _ => EmbedCell.zero, nextEmbed := 0,
    copies := fun _ => EmbedCell.zero, nextCopy := 0,
    webhooks := fun _ => WebhookCell.zero, nextWebhook := 0 }

/-- The `Embed` value with the fields of the cell other than `Fields`, and the given
sequence as `Fields`. -/
def EmbedCell.toEmbed (c : EmbedCell) (fields : List Field) : Embed :=
  { Title := c.Title, Description := c.Description, URL := c.URL, Timestamp := c.Timestamp,
    Color := c.Color, Footer := c.Footer, Image := c.Image, Thumbnail := c.Thumbnail,
    Author := c.Author, Fields := fields, err := c.err }

/-- The cell with the fields other than `Fields` taken from an `Embed` value; the
slice header stays. -/
def EmbedCell.assign (c : EmbedCell) (v : Embed) : EmbedCell :=
  { Title := v.Title, Description := v.Description, URL := v.URL, Timestamp := v.Timestamp,
    Color := v.Color, Footer := v.Footer, Image := v.Image, Thumbnail := v.Thumbnail,
    Author := v.Author, Fields := c.Fields, err := v.err }

/-- The elements a slice holds: the first `len` elements of its backing array. -/
def Machine.elems (m : Machine) (s : FieldSlice) : List Field := (m.arrays s.arr).take s.len

/-- The value of an `Embed` in memory. -/
def Machine.embedValue (m : Machine) (c : EmbedCell) : Embed := c.toEmbed (m.elems c.Fields)

/-- The value of the `Embed` object the pointer `e` addresses. -/
def Machine.embedAt (m : Machine) (e : Nat) : Embed := m.embedValue (m.embeds e)

/-- The value of the copy at `d`. -/
def Machine.copyAt (m : Machine) (d : Nat) : Embed := m.embedValue (m.copies d)

/-- The value of a `Webhook` in memory. -/
def Machine.webhookValue (m : Machine) (c : WebhookCell) : Webhook :=
  { Content := c.Content, Username := c.Username, AvatarURL := c.AvatarURL, TTS := c.TTS,
    Embeds := c.Embeds.map m.copyAt }

/-- The value of the `Webhook` the pointer `w` addresses. -/
def Machine.webhookAt (m : Machine) (w : Nat) : Webhook := m.webhookValue (m.webhooks w)

/-- The struct an `Embed` pointer addresses. -/
def Machine.load (m : Machine) : EmbedPtr → EmbedCell
  | .object e => m.embeds e
  | .copy d => m.copies d

/-- Whether an `Embed` pointer addresses a struct of the store. -/
def Machine.allocated (m : Machine) : EmbedPtr → Bool
  | .object e => decide (e < m.nextEmbed)
  | .copy d => decide (d < m.nextCopy)

/-- The value of the `Embed` an `Embed` pointer addresses. -/
def Machine.valueAt (m : Machine) (p : EmbedPtr) : Embed := m.embedValue (m.load p)

/-- The address of the entry `w.Embeds[k]`, if the index is in range. -/
def Machine.entry (m : Machine) (w k : Nat) : Option Nat := (m.webhooks w).Embeds.get? k

/-- Go `append(s, f)` on a `[]Field`: with spare capacity the element is written into
the backing array at index `len`; otherwise a new array of capacity
`len + 1 + growth s` is allocated, the elements are copied and `f` is added
(`growth` stands for the growth policy of the runtime).  Returns the store and
the new slice header. -/
def Machine.append (growth : FieldSlice → Nat) (m : Machine) (s : FieldSlice) (f : Field) :
    Machine × FieldSlice :=
  if s.len < s.cap then
    ({ m with arrays := Function.update m.arrays s.arr ((m.arrays s.arr).set s.len f) },
     { s with len := s.len + 1 })
  else
    ({ m with
        arrays := Function.update m.arrays m.nextArray
          ((m.arrays s.arr).take s.len ++ [f] ++ List.replicate (growth s) NewEmptyField),
        nextArray := m.nextArray + 1 },
     { arr := m.nextArray, len := s.len + 1, cap := s.len + 1 + growth s })

/-- The store with the `Embed` object at `e` replaced. -/
def Machine.setEmbed (m : Machine) (e : Nat) (cell : EmbedCell) : Machine :=
  { m with embeds := Function.update m.embeds e cell }

/-- The store with the copy at `d` replaced. -/
def Machine.setCopy (m : Machine) (d : Nat) (cell : EmbedCell) : Machine :=
  { m with copies := Function.update m.copies d cell }

/-- The store with the `Webhook` object at `w` replaced. -/
def Machine.setWebhook (m : Machine) (w : Nat) (cell : WebhookCell) : Machine :=
  { m with webhooks := Function.update m.webhooks w cell }

/-- Go `NewEmbed()`: a new zero `Embed`; returns the store and the pointer. -/
def Machine.NewEmbed (m : Machine) : Machine × Nat :=
  ({ m.setEmbed m.nextEmbed EmbedCell.zero with nextEmbed := m.nextEmbed + 1 }, m.nextEmbed)

/-- Go `NewWebhook()`: a new zero `Webhook`; returns the store and the pointer. -/
def Machine.NewWebhook (m : Machine) : Machine × Nat :=
  ({ m.setWebhook m.nextWebhook WebhookCell.zero with nextWebhook := m.nextWebhook + 1 },
   m.nextWebhook)

/-- Go `NewField(name, value, inline)` (and `NewEmptyField()` for the zero values):
a new `Field`; returns the store and the pointer. -/
def Machine.NewField (m : Machine) (name value : GoString) (inline : Bool) : Machine × Nat :=
  ({ m with fields := Function.update m.fields m.nextField (WebhookerGo.NewField name value inline),
            nextField := m.nextField + 1 }, m.nextField)

/-- One call of a setter of `Field`, with its argument. -/
inductive FieldCall where
  | setName (name : GoString)
  | setValue (value : GoString)
  | setInline (inline : Bool)
  deriving DecidableEq, Repr

/-- The field after one setter call. -/
def Field.call (f : Field) : FieldCall → Field
  | .setName name => f.SetName name
  | .setValue value => f.SetValue value
  | .setInline inline => f.SetInline inline

/-- A setter of `Field` called on the pointer `f`: writes the object and returns `f`. -/
def Machine.fieldCall (m : Machine) (f : Nat) (c : FieldCall) : Machine × Nat :=
  if f < m.nextField then
    ({ m with fields := Function.update m.fields f ((m.fields f).call c) }, f)
  else (m, f)

/-- The body of a builder of `Embed` run on the struct `cell` in memory: the store
and the struct after the call.  `AddField` appends to the slice in memory,
`ClearFields` stores the header of the empty slice `[]Field{}`, and every other
builder assigns fields other than `Fields`, as `Embed.call` does on the value. -/
def Machine.builder (growth : FieldSlice → Nat) (m : Machine) (cell : EmbedCell) :
    EmbedCall → Machine × EmbedCell
  | .addField field =>
    ((m.append growth cell.Fields field).1,
     { cell with Fields := (m.append growth cell.Fields field).2 })
  | .clearFields => (m, { cell with Fields := ⟨0, 0, 0⟩ })
  | c => (m, cell.assign ((cell.toEmbed []).call c))

/-- A builder of `Embed` called on the pointer `e` that `NewEmbed` returned: writes
the object and returns `e`. -/
def Machine.embedCall (growth : FieldSlice → Nat) (m : Machine) (e : Nat) (c : EmbedCall) :
    Machine × Nat :=
  if e < m.nextEmbed then
    ((m.builder growth (m.embeds e) c).1.setEmbed e (m.builder growth (m.embeds e) c).2, e)
  else (m, e)

/-- A builder of `Embed` called on the address `d` of a copy, such as
`w.Embeds[k].AddField(x)`: writes the copy and returns `d`. -/
def Machine.copyCall (growth : FieldSlice → Nat) (m : Machine) (d : Nat) (c : EmbedCall) :
    Machine × Nat :=
  if d < m.nextCopy then
    ((m.builder growth (m.copies d) c).1.setCopy d (m.builder growth (m.copies d) c).2, d)
  else (m, d)

/-- Go `e.AddField(f)` on pointers: the `Field` that `f` points to is read at the call
and appended. -/
def Machine.AddField (growth : FieldSlice → Nat) (m : Machine) (e f : Nat) : Machine × Nat :=
  if f < m.nextField then m.embedCall growth e (.addField (m.fields f)) else (m, e)

/-- One call of a setter of `Webhook`, with its argument. -/
inductive WebhookCall where
  | setUsername (username : GoString)
  | setAvatarURL (url : GoString)
  | setContent (content : GoString)
  | setTTS (tts : Bool)
  deriving DecidableEq, Repr

/-- The message after one setter call. -/
def Webhook.call (w : Webhook) : WebhookCall → Webhook
  | .setUsername username => w.SetUsername username
  | .setAvatarURL url => w.SetAvatarURL url
  | .setContent content => w.SetContent content
  | .setTTS tts => w.SetTTS tts

/-- A setter of `Webhook` on the object in memory. -/
def WebhookCell.call (w : WebhookCell) : WebhookCall → WebhookCell
  | .setUsername username => { w with Username := username }
  | .setAvatarURL url => { w with AvatarURL := url }
  | .setContent content => { w with Content := content }
  | .setTTS tts => { w with TTS := tts }

/-- A setter of `Webhook` called on the pointer `w`: writes the object and returns `w`. -/
def Machine.webhookCall (m : Machine) (w : Nat) (c : WebhookCall) : Machine × Nat :=
  if w < m.nextWebhook then
    (m.setWebhook w ((m.webhooks w).call c), w)
  else (m, w)

/-- A new struct that holds a copy of `cell`, slice header included; returns the
store and the address of the copy. -/
def Machine.newCopy (m : Machine) (cell : EmbedCell) : Machine × Nat :=
  ({ m.setCopy m.nextCopy cell with nextCopy := m.nextCopy + 1 }, m.nextCopy)

/-- Go `d := *p`: a variable that holds a copy of the `Embed` at `p`; returns the
store and the pointer `&d`. -/
def Machine.copyEmbed (m : Machine) (p : EmbedPtr) : Machine × EmbedPtr :=
  if m.allocated p = true then ((m.newCopy (m.load p)).1, .copy (m.newCopy (m.load p)).2)
  else (m, p)

/-- Go `w.AddEmbed(p)` on pointers: the struct `*p`, slice header included, becomes
a new entry at the end of `w.Embeds`; returns `w`. -/
def Machine.AddEmbed (m : Machine) (w : Nat) (p : EmbedPtr) : Machine × Nat :=
  if w < m.nextWebhook ∧ m.allocated p = true then
    ((m.newCopy (m.load p)).1.setWebhook w
      { m.webhooks w with Embeds := (m.webhooks w).Embeds ++ [(m.newCopy (m.load p)).2] }, w)
  else (m, w)

/-- One statement of a program that uses the package.  `copyCall d c` is a builder
call on a struct that holds a copy: on the entry `w.Embeds[k]` when `d` is
`entry w k`, or on a variable made by `copyEmbed`. -/
inductive Op where
  | newEmbed
  | newWebhook
  | newField (name value : GoString) (inline : Bool)
  | fieldCall (f : Nat) (c : FieldCall)
  | embedCall (e : Nat) (c : EmbedCall)
  | addField (e f : Nat)
  | webhookCall (w : Nat) (c : WebhookCall)
  | addEmbed (w : Nat) (p : EmbedPtr)
  | copyEmbed (p : EmbedPtr)
  | copyCall (d : Nat) (c : EmbedCall)
  deriving DecidableEq, Repr

/-- Whether a statement calls `AddField` on a struct that holds a copy (an entry of
an `Embeds` slice or a variable assigned from an `Embed`). -/
def Op.appendsToCopy : Op → Bool
  | .copyCall _ (.addField _) => true
  | _ => false

/-- The store after one statement. -/
def Machine.step (growth : FieldSlice → Nat) (m : Machine) : Op → Machine
  | .newEmbed => m.NewEmbed.1
  | .newWebhook => m.NewWebhook.1
  | .newField name value inline => (m.NewField name value inline).1
  | .fieldCall f c => (m.fieldCall f c).1
  | .embedCall e c => (m.embedCall growth e c).1
  | .addField e f => (m.AddField growth e f).1
  | .webhookCall w c => (m.webhookCall w c).1
  | .addEmbed w p => (m.AddEmbed w p).1
  | .copyEmbed p => (m.copyEmbed p).1
  | .copyCall d c => (m.copyCall growth d c).1

/-- The store after a sequence of statements. -/
def Machine.run (growth : FieldSlice → Nat) (m : Machine) (ops : List Op) : Machine :=
  ops.foldl (Machine.step growth) m

/-- A slice header is well formed in a store: its length is within its capacity,
and with a non-zero capacity its backing array is allocated and long enough. -/
def FieldSlice.WF (m : Machine) (s : FieldSlice) : Prop :=
  s.len ≤ s.cap ∧ (s.cap ≠ 0 → s.arr < m.nextArray ∧ s.cap ≤ (m.arrays s.arr).length)

/-- Every slice header of the store is well formed; this holds in every store a
program reaches. -/
def Machine.WFAll (m : Machine) : Prop :=
  (∀ i, (m.embeds i).Fields.WF m) ∧ (∀ d, (m.copies d).Fields.WF m)

/-- The separation that holds as long as no `AddField` is called on a copy: two
`Embed` objects do not share a backing array; a copy that shares the backing array
of an `Embed` object is not longer than it; and the entries of every `Embeds`
slice are allocated. -/
def Machine.Sep (m : Machine) : Prop :=
  (∀ i j, i ≠ j → (m.embeds i).Fields.cap ≠ 0 → (m.embeds j).Fields.cap ≠ 0 →
    (m.embeds i).Fields.arr ≠ (m.embeds j).Fields.arr) ∧
  (∀ d i, (m.embeds i).Fields.cap ≠ 0 → (m.embeds i).Fields.arr = (m.copies d).Fields.arr →
    (m.copies d).Fields.len ≤ (m.embeds i).Fields.len) ∧
  (∀ w, ∀ d ∈ (m.webhooks w).Embeds, d < m.nextCopy)

/-- The invariant of the stores reached without `AddField` on a copy. -/
def Machine.Inv (m : Machine) : Prop := m.WFAll ∧ m.Sep

/-! ## RFC 3339 timestamps, as the specification reads them -/

/-- The count of days since 1970-01-01 of a date of the proleptic Gregorian
calendar. -/
def daysFromCivil (y m d : Int) : Int :=
  let y1 := if m ≤ 2 then y - 1 else y
  let era := y1 / 400
  let yoe := y1 - era * 400
  let mp := if m > 2 then m - 3 else m + 9
  let doy := (153 * mp + 2) / 5 + d - 1
  let doe := yoe * 365 + yoe / 4 - yoe / 100 + doy
  era * 146097 + doe - 719468

/-- Leap years of the Gregorian calendar. -/
def isLeapYear (y : Int) : Bool := y % 4 = 0 ∧ (y % 100 ≠ 0 ∨ y % 400 = 0)

/-- The number of days of a month. -/
def daysInMonth (y m : Int) : Int :=
  if m = 2 then (if isLeapYear y then 29 else 28)
  else if m = 4 ∨ m = 6 ∨ m = 9 ∨ m = 11 then 30
  else 31

/-- A date that exists: month 1 to 12, day 1 to the length of the month. -/
def validDate (y m d : Int) : Bool := 1 ≤ m ∧ m ≤ 12 ∧ 1 ≤ d ∧ d ≤ daysInMonth y m

/-- The number written by exactly `k` decimal digits. -/
def fixedDigits (k : Nat) (s : GoString) : Option Nat :=
  if s.length = k then decimalNatural s else none

/-- The optional `time-secfrac` of RFC 3339, a dot and one or more digits: the
nanoseconds it denotes (digits after the ninth are dropped) and the rest of the
string. -/
def parseFraction (t : GoString) : Option (Nat × GoString) :=
  match t with
  | 0x2e :: rest =>
    let ds := rest.takeWhile (fun c => (decDigitValue c).isSome)
    if ds = [] then none
    else some (posValue 10 decDigitValue ((ds ++ List.replicate 9 0x30).take 9) 0,
      rest.dropWhile (fun c => (decDigitValue c).isSome))
  | _ => some (0, t)

/-- The `time-offset` of RFC 3339 in seconds east of UTC: `Z`, or a sign and
`hh:mm`. -/
def parseOffset (z : GoString) : Option Int :=
  if z = [0x5a] then some 0
  else if z.length = 6 ∧ z.get? 3 = some 0x3a then
    match fixedDigits 2 ((z.drop 1).take 2), fixedDigits 2 (z.drop 4) with
    | some h, some m =>
      if h ≤ 23 ∧ m ≤ 59 then
        if z.head? = some 0x2b then some (Int.ofNat (h * 3600 + m * 60))
        else if z.head? = some 0x2d then some (-Int.ofNat (h * 3600 + m * 60))
        else none
      else none
    | _, _ => none
  else none

/-- The instant an RFC 3339 `date-time` denotes, as seconds since
1970-01-01T00:00:00Z and nanoseconds: `YYYY-MM-DDThh:mm:ss`, an optional fraction,
and the offset; `none` for any other string and for a date or time that does not
exist. -/
def parseRFC3339 (s : GoString) : Option (Int × Nat) :=
  match fixedDigits 4 (s.take 4), fixedDigits 2 ((s.drop 5).take 2),
    fixedDigits 2 ((s.drop 8).take 2), fixedDigits 2 ((s.drop 11).take 2),
    fixedDigits 2 ((s.drop 14).take 2), fixedDigits 2 ((s.drop 17).take 2),
    parseFraction (s.drop 19) with
  | some y, some mo, some d, some h, some mi, some sc, some (ns, zone) =>
    match parseOffset zone with
    | some off =>
      if s.get? 4 = some 0x2d ∧ s.get? 7 = some 0x2d ∧ s.get? 10 = some 0x54 ∧
          s.get? 13 = some 0x3a ∧ s.get? 16 = some 0x3a ∧
          validDate (Int.ofNat y) (Int.ofNat mo) (Int.ofNat d) = true ∧
          h ≤ 23 ∧ mi ≤ 59 ∧ sc ≤ 59 then
        some (daysFromCivil (Int.ofNat y) (Int.ofNat mo) (Int.ofNat d) * 86400
          + Int.ofNat (h * 3600 + mi * 60 + sc) - off, ns)
      else none
    | none => none
  | _, _, _, _, _, _, _ => none

/-- Go `t.Year()`: the year of `t` in its location. -/
def Time.Year (t : Time) : Int := (civilFromDays ((t.sec + t.offset) / 86400)).1

/-- The ASCII digit of a number below 10. -/
def asciiDigit (k : Nat) : UInt8 := (Nat.digitChar k).toNat.toUInt8

/-! ## JSON texts, as the specification reads them

The value of a key in the serialized object is a JSON text.  The functions below
read such a text back (RFC 8259): the string a string text denotes, with its
escapes resolved, and the integer a number text denotes (`decimalInteger`).
Well-formed UTF-8 is that of RFC 3629.
-/

/-- Whether a byte is a continuation byte of UTF-8, `0x80..0xBF`. -/
def isContinuation (b : UInt8) : Bool := decide (0x80 ≤ b.toNat ∧ b.toNat ≤ 0xBF)

/-- Whether two bytes are a well-formed two-byte sequence (`UTF8-2` of RFC 3629). -/
def twoByte (b0 b1 : UInt8) : Bool :=
  decide (0xC2 ≤ b0.toNat ∧ b0.toNat ≤ 0xDF) && isContinuation b1

/-- Whether three bytes are a well-formed three-byte sequence (`UTF8-3` of RFC 3629):
no overlong form and no surrogate. -/
def threeByte (b0 b1 b2 : UInt8) : Bool :=
  (decide (b0.toNat = 0xE0 ∧ 0xA0 ≤ b1.toNat ∧ b1.toNat ≤ 0xBF)
    || decide (0xE1 ≤ b0.toNat ∧ b0.toNat ≤ 0xEC ∧ 0x80 ≤ b1.toNat ∧ b1.toNat ≤ 0xBF)
    || decide (b0.toNat = 0xED ∧ 0x80 ≤ b1.toNat ∧ b1.toNat ≤ 0x9F)
    || decide (0xEE ≤ b0.toNat ∧ b0.toNat ≤ 0xEF ∧ 0x80 ≤ b1.toNat ∧ b1.toNat ≤ 0xBF))
  && isContinuation b2

/-- Whether four bytes are a well-formed four-byte sequence (`UTF8-4` of RFC 3629):
no overlong form and nothing above U+10FFFF. -/
def fourByte (b0 b1 b2 b3 : UInt8) : Bool :=
  (decide (b0.toNat = 0xF0 ∧ 0x90 ≤ b1.toNat ∧ b1.toNat ≤ 0xBF)
    || decide (0xF1 ≤ b0.toNat ∧ b0.toNat ≤ 0xF3 ∧ 0x80 ≤ b1.toNat ∧ b1.toNat ≤ 0xBF)
    || decide (b0.toNat = 0xF4 ∧ 0x80 ≤ b1.toNat ∧ b1.toNat ≤ 0x8F))
  && isContinuation b2 && isContinuation b3

/-- Whether a string is well-formed UTF-8: a sequence of bytes below `0x80` and of
well-formed two-, three- and four-byte sequences. -/
def validUTF8 : GoString → Bool
  | [] => true
  | b0 :: rest =>
    if b0.toNat < 0x80 then validUTF8 rest
    else
      match rest with
      | [] => false
      | b1 :: rest1 =>
        if twoByte b0 b1 then validUTF8 rest1
        else
          match rest1 with
          | [] => false
          | b2 :: rest2 =>
            if threeByte b0 b1 b2 then validUTF8 rest2
            else
              match rest2 with
              | [] => false
              | b3 :: rest3 => fourByte b0 b1 b2 b3 && validUTF8 rest3

/-- The byte that the character after a backslash stands for in a two-character
escape: `\"`, `\\`, `\/`, `\b`, `\f`, `\n`, `\r`, `\t`. -/
def escapeLetter (c : UInt8) : Option UInt8 :=
  if c = 0x22 then some 0x22
  else if c = 0x5c then some 0x5c
  else if c = 0x2f then some 0x2f
  else if c = 0x62 then some 0x08
  else if c = 0x66 then some 0x0c
  else if c = 0x6e then some 0x0a
  else if c = 0x72 then some 0x0d
  else if c = 0x74 then some 0x09
  else none

/-- The number four hexadecimal digits denote. -/
def hex4 (h3 h2 h1 h0 : UInt8) : Option Nat :=
  match hexDigitValue h3, hexDigitValue h2, hexDigitValue h1, hexDigitValue h0 with
  | some x3, some x2, some x1, some x0 => some (x3 * 4096 + x2 * 256 + x1 * 16 + x0)
  | _, _, _, _ => none

/-- The UTF-8 encoding of a character of the Basic Multilingual Plane; `none` for a
surrogate and for a number from `0x10000` on. -/
def utf8OfBMP (cp : Nat) : Option GoString :=
  if cp < 0x80 then some [cp.toUInt8]
  else if cp < 0x800 then some [(0xC0 + cp / 64).toUInt8, (0x80 + cp % 64).toUInt8]
  else if 0xD800 ≤ cp ∧ cp ≤ 0xDFFF then none
  else if cp < 0x10000 then
    some [(0xE0 + cp / 4096).toUInt8, (0x80 + cp / 64 % 64).toUInt8, (0x80 + cp % 64).toUInt8]
  else none

/-- The string that a JSON string text denotes, read from the character after the
opening quote: unescaped characters stand for themselves, a two-character escape
for its byte, `\uXXXX` for the UTF-8 encoding of the character, and the closing
quote must end the text.  `none` for a text that is not of this form; an escaped
surrogate is not read. -/
def unquote : GoString → Option GoString
  | [] => none
  | c :: rest =>
    if c = 0x22 then (if rest = [] then some [] else none)
    else if c = 0x5c then
      match rest with
      | [] => none
      | l :: rest1 =>
        if l = 0x75 then
          match rest1 with
          | h3 :: h2 :: h1 :: h0 :: rest2 =>
            match (hex4 h3 h2 h1 h0).bind utf8OfBMP with
            | some bs => (unquote rest2).map (fun s => bs ++ s)
            | none => none
          | _ => none
        else
          match escapeLetter l with
          | some b => (unquote rest1).map (fun s => b :: s)
          | none => none
    else if c.toNat < 0x20 then none
    else (unquote rest).map (fun s => c :: s)

/-- The string a JSON string text denotes; `none` for any other text. -/
def jsonStringValue (t : GoString) : Option GoString :=
  match t with
  | [] => none
  | c :: body => if c = 0x22 then unquote body else none

/-! ## Properties -/

/-! ### Number parsing -/

theorem wrapInt_of_isGoInt (x : Int) (h : IsGoInt x) : wrapInt x = x := by
  unfold IsGoInt minInt maxInt at h
  unfold wrapInt ofWord toWord
  omega

theorem ofWord_of_lt (n : Nat) (h : n < 2 ^ 63) : ofWord n = (n : Int) := by
  unfold ofWord
  have h1 : n % 2 ^ 64 = n := Nat.mod_eq_of_lt (by omega)
  rw [h1, if_pos h]

theorem byte_ofNat_toNat (c : UInt8) : UInt8.ofNat c.toNat = c := by
  cases c with
  | mk bv => simp [UInt8.ofNat, UInt8.toNat]

theorem digitIn_hex_bytes :
    ∀ n : Fin 256, digitIn 16 (UInt8.ofNat n.val) = hexDigitValue (UInt8.ofNat n.val) := by
  decide

theorem digitIn_dec_bytes :
    ∀ n : Fin 256, digitIn 10 (UInt8.ofNat n.val) = decDigitValue (UInt8.ofNat n.val) := by
  decide

theorem digitIn_hex (c : UInt8) : digitIn 16 c = hexDigitValue c := by
  have h := digitIn_hex_bytes ⟨c.toNat, UInt8.toNat_lt_size c⟩
  simpa [byte_ofNat_toNat] using h

theorem digitIn_dec (c : UInt8) : digitIn 10 c = decDigitValue c := by
  have h := digitIn_dec_bytes ⟨c.toNat, UInt8.toNat_lt_size c⟩
  simpa [byte_ofNat_toNat] using h

theorem digitIn_some (base : Nat) (c : UInt8) (h : (digitIn base c).isSome = true) :
    ∃ d, digitOf c = some d ∧ d < base ∧ digitIn base c = some d := by
  unfold digitIn at h ⊢
  cases hd : digitOf c with
  | none => simp [hd] at h
  | some d =>
    by_cases hlt : d < base
    · exact ⟨d, rfl, hlt, by simp [hlt]⟩
    · simp [hd, hlt] at h

theorem posValue_cons (base : Nat) (digit : UInt8 → Option Nat) (c : UInt8) (cs : GoString)
    (n : Nat) :
    posValue base digit (c :: cs) n = posValue base digit cs (n * base + (digit c).getD 0) := rfl

theorem le_posValue (base : Nat) (digit : UInt8 → Option Nat) (hb : 0 < base) :
    ∀ (s : GoString) (n : Nat), n ≤ posValue base digit s n := by
  intro s
  induction s with
  | nil => intro n; exact Nat.le_refl n
  | cons c cs ih =>
    intro n
    rw [posValue_cons]
    have h1 := ih (n * base + (digit c).getD 0)
    have h2 : n ≤ n * base := Nat.le_mul_of_pos_right n hb
    omega

theorem posValue_lt (base : Nat) (digit : UInt8 → Option Nat) :
    ∀ (s : GoString) (n k : Nat), (∀ c ∈ s, (digit c).getD 0 < base) → n < base ^ k →
      posValue base digit s n < base ^ (k + s.length) := by
  intro s
  induction s with
  | nil => intro n k _ hn; simpa [posValue] using hn
  | cons c cs ih =>
    intro n k hs hn
    rw [posValue_cons]
    have hc : (digit c).getD 0 < base := hs c (List.mem_cons_self c cs)
    have hstep : n * base + (digit c).getD 0 < base ^ (k + 1) := by
      have h1 : (n + 1) * base ≤ base ^ k * base := Nat.mul_le_mul_right base hn
      have h2 : (n + 1) * base = n * base + base := by ring
      rw [pow_succ]
      omega
    have h3 := ih (n * base + (digit c).getD 0) (k + 1)
      (fun c' hc' => hs c' (List.mem_cons_of_mem c hc')) hstep
    have h4 : k + 1 + cs.length = k + (c :: cs).length := by simp; omega
    rw [← h4]
    exact h3

theorem parseUintLoop_ok (base : Nat) (hb : 0 < base) :
    ∀ (s : GoString) (n : Nat), (∀ c ∈ s, (digitIn base c).isSome = true) →
      posValue base (digitIn base) s n < 2 ^ 64 →
      parseUintLoop base s n = (posValue base (digitIn base) s n, none) := by
  intro s
  induction s with
  | nil => intro n _ _; rfl
  | cons c cs ih =>
    intro n hs hv
    obtain ⟨d, hd, hlt, hin⟩ := digitIn_some base c (hs c (List.mem_cons_self c cs))
    rw [posValue_cons, hin] at hv ⊢
    simp only [Option.getD_some] at hv ⊢
    have hge := le_posValue base (digitIn base) hb cs (n * base + d)
    have hnb : n * base + d < 2 ^ 64 := by omega
    have hcut : ¬ n ≥ maxUint64 / base + 1 := by
      have : n ≤ maxUint64 / base := by
        rw [Nat.le_div_iff_mul_le hb]
        unfold maxUint64
        omega
      omega
    have hm : n * base % 2 ^ 64 = n * base := Nat.mod_eq_of_lt (by omega)
    have hn1 : (n * base + d) % 2 ^ 64 = n * base + d := Nat.mod_eq_of_lt hnb
    have hov : ¬ (n * base + d < n * base ∨ n * base + d > maxUint64) := by
      unfold maxUint64
      omega
    unfold parseUintLoop
    simp only [hd, hm, hn1]
    rw [if_neg (by omega), if_neg hcut, if_neg hov]
    exact ih (n * base + d) (fun c' hc' => hs c' (List.mem_cons_of_mem c hc')) hv

theorem parseUintLoop_invalid (base : Nat) :
    ∀ (s : GoString) (n : Nat), (∃ c ∈ s, digitIn base c = none) →
      (parseUintLoop base s n).2 ≠ none := by
  intro s
  induction s with
  | nil => intro n h; obtain ⟨c, hc, _⟩ := h; simp at hc
  | cons c cs ih =>
    intro n h
    unfold parseUintLoop
    cases hd : digitOf c with
    | none => simp
    | some d =>
      simp only []
      by_cases h1 : d ≥ base
      · simp [h1]
      · rw [if_neg h1]
        by_cases h2 : n ≥ maxUint64 / base + 1
        · simp [h2]
        · rw [if_neg h2]
          split
          · simp
          · apply ih
            obtain ⟨c', hc', hn'⟩ := h
            rcases List.mem_cons.mp hc' with rfl | hmem
            · exfalso
              unfold digitIn at hn'
              rw [hd] at hn'
              have : d < base := by omega
              simp [this] at hn'
            · exact ⟨c', hmem, hn'⟩

theorem parseUintLoop_range_value (base : Nat) :
    ∀ (s : GoString) (n : Nat), (parseUintLoop base s n).2 = some .outOfRange →
      (parseUintLoop base s n).1 = maxUint64 := by
  intro s
  induction s with
  | nil => intro n h; simp [parseUintLoop] at h
  | cons c cs ih =>
    intro n h
    unfold parseUintLoop at h ⊢
    cases hd : digitOf c with
    | none => simp [hd] at h
    | some d =>
      simp only [hd] at h ⊢
      by_cases h1 : d ≥ base
      · simp [h1] at h
      · rw [if_neg h1] at h ⊢
        by_cases h2 : n ≥ maxUint64 / base + 1
        · simp [h2]
        · rw [if_neg h2] at h ⊢
          split
          · rfl
          · rename_i hno
            rw [if_neg hno] at h
            exact ih _ h

theorem ParseUint_ok (base : Nat) (hb : 0 < base) (s : GoString) (hne : s ≠ [])
    (hs : ∀ c ∈ s, (digitIn base c).isSome = true)
    (hv : posValue base (digitIn base) s 0 < 2 ^ 64) :
    ParseUint s base = (posValue base (digitIn base) s 0, none) := by
  unfold ParseUint
  rw [if_neg hne, parseUintLoop_ok base hb s 0 hs hv]

theorem ParseUint_invalid (base : Nat) (s : GoString)
    (h : s = [] ∨ ∃ c ∈ s, digitIn base c = none) : (ParseUint s base).2 ≠ none := by
  unfold ParseUint
  by_cases hne : s = []
  · simp [hne]
  · rw [if_neg hne]
    have hex : ∃ c ∈ s, digitIn base c = none := by
      rcases h with h | h
      · exact absurd h hne
      · exact h
    have hl := parseUintLoop_invalid base s 0 hex
    rcases hp : parseUintLoop base s 0 with ⟨n, _ | k⟩
    · rw [hp] at hl; simp at hl
    · simp

theorem ParseUint_range_value (base : Nat) (s : GoString) (err : NumError)
    (h : (ParseUint s base).2 = some err) (hk : err.Err = .outOfRange) :
    (ParseUint s base).1 = maxUint64 := by
  unfold ParseUint at h ⊢
  by_cases hne : s = []
  · simp only [hne, if_true] at h
    simp only [Option.some.injEq] at h
    rw [← h] at hk
    simp at hk
  · rw [if_neg hne] at h ⊢
    have hl := parseUintLoop_range_value base s 0
    rcases hp : parseUintLoop base s 0 with ⟨n, _ | k⟩
    · rw [hp] at h; simp at h
    · rw [hp] at h hl
      simp only [Option.some.injEq] at h
      rw [← h] at hk
      simp only at hk
      simp only [hk, forall_const] at hl
      exact hl

theorem parseIntRange_maxUint64 (neg : Bool) (s0 : GoString) :
    (parseIntRange neg maxUint64 s0).2 ≠ none := by
  cases neg <;> simp [parseIntRange, maxUint64]

theorem parseIntRange_pos (un : Nat) (s0 : GoString) (h : un < 2 ^ 63) :
    parseIntRange false un s0 = ((un : Int), none) := by
  unfold parseIntRange
  simp only []
  split
  · rename_i hh
    omega
  · split
    · rename_i hh
      simp at hh
    · rw [ofWord_of_lt un h]
      rfl

theorem parseIntRange_neg (un : Nat) (s0 : GoString) (h : un < 2 ^ 63) :
    parseIntRange true un s0 = (-(un : Int), none) := by
  have h3 : wrapInt (-(un : Int)) = -(un : Int) := by
    apply wrapInt_of_isGoInt
    unfold IsGoInt minInt maxInt
    omega
  unfold parseIntRange
  simp only []
  split
  · rename_i hh
    simp at hh
  · split
    · rename_i hh
      omega
    · rw [ofWord_of_lt un h, h3]
      rfl

theorem ParseInt_of_body_ok (base : Nat) (c : UInt8) (rest : GoString) (v : Nat)
    (hu : ParseUint (if c = 0x2b then rest else if c = 0x2d then rest else c :: rest) base
      = (v, none)) :
    ParseInt (c :: rest) base = parseIntRange (c == 0x2d) v (c :: rest) := by
  unfold ParseInt
  simp only [hu]

theorem ParseInt_of_body_err (base : Nat) (c : UInt8) (rest : GoString)
    (hu : (ParseUint (if c = 0x2b then rest else if c = 0x2d then rest else c :: rest) base).2
      ≠ none) :
    (ParseInt (c :: rest) base).2 ≠ none := by
  unfold ParseInt
  simp only []
  cases hr : (ParseUint (if c = 0x2b then rest else if c = 0x2d then rest else c :: rest) base).2 with
  | none => exact absurd hr hu
  | some err =>
    simp only []
    by_cases hk : err.Err = .outOfRange
    · rw [if_neg (by simpa using hk), ParseUint_range_value base _ err hr hk]
      exact parseIntRange_maxUint64 _ _
    · rw [if_pos hk]
      simp

theorem allHex_iff (s : GoString) :
    allHex s = true ↔ ∀ c ∈ s, (digitIn 16 c).isSome = true := by
  unfold allHex
  simp [List.all_eq_true, digitIn_hex]

theorem hexValue_eq (s : GoString) : hexValue s = posValue 16 (digitIn 16) s 0 := by
  have h : digitIn 16 = hexDigitValue := funext digitIn_hex
  rw [h]
  rfl

theorem hexValue_lt (s : GoString) (hall : allHex s = true) : hexValue s < 16 ^ s.length := by
  rw [hexValue_eq]
  have h := posValue_lt 16 (digitIn 16) s 0 0 (by
    intro c hc
    obtain ⟨d, _, hlt, hin⟩ := digitIn_some 16 c ((allHex_iff s).mp hall c hc)
    rw [hin]
    exact hlt) (by norm_num)
  simpa using h

theorem ParseInt_hex_payload (p : GoString) (hlen : p.length = 6) (hall : allHex p = true) :
    ParseInt p 16 = ((hexValue p : Int), none) := by
  have hlt := hexValue_lt p hall
  rw [hlen] at hlt
  match p, hlen, hall, hlt with
  | c :: rest, hlen, hall, hlt =>
    have hc : (hexDigitValue c).isSome = true := by
      have := (allHex_iff (c :: rest)).mp hall c (List.mem_cons_self c rest)
      rwa [digitIn_hex] at this
    have hplus : c ≠ 0x2b := by
      intro h
      rw [h] at hc
      exact absurd hc (by decide)
    have hminus : c ≠ 0x2d := by
      intro h
      rw [h] at hc
      exact absurd hc (by decide)
    have hu : ParseUint (if c = 0x2b then rest else if c = 0x2d then rest else c :: rest) 16
        = (hexValue (c :: rest), none) := by
      rw [if_neg hplus, if_neg hminus, hexValue_eq]
      apply ParseUint_ok 16 (by norm_num) (c :: rest) (by simp) ((allHex_iff _).mp hall)
      rw [← hexValue_eq]
      omega
    rw [ParseInt_of_body_ok 16 c rest _ hu]
    have hb : (c == 0x2d) = false := by simpa using hminus
    rw [hb]
    exact parseIntRange_pos _ _ (by omega)

theorem exists_invalid_of_not_allHex (s : GoString) (h : allHex s = false) :
    ∃ c ∈ s, digitIn 16 c = none := by
  by_contra hcon
  have hall : ∀ c ∈ s, (digitIn 16 c).isSome = true := by
    intro c hc
    cases hd : digitIn 16 c with
    | none => exact absurd ⟨c, hc, hd⟩ hcon
    | some d => rfl
  rw [(allHex_iff s).mpr hall] at h
  exact absurd h (by decide)

theorem hexToColorInt_of_stripped (s p : GoString)
    (hp : (if s.length = 7 ∧ s.head? = some 0x23 then some s.tail
      else if s.length ≠ 6 then none else some s) = some p) :
    hexToColorInt s =
      (match ParseInt p 16 with
       | (_, some err) => (0, some (.hexParse err))
       | (decimalValue, none) => (decimalValue, none)) := by
  unfold hexToColorInt
  simp only [hp]

theorem hexToColorInt_of_payload_ok (s p : GoString)
    (hp : (if s.length = 7 ∧ s.head? = some 0x23 then some s.tail
      else if s.length ≠ 6 then none else some s) = some p)
    (hlen : p.length = 6) (hall : allHex p = true) :
    hexToColorInt s = ((hexValue p : Int), none) := by
  rw [hexToColorInt_of_stripped s p hp, ParseInt_hex_payload p hlen hall]

theorem hexToColorInt_of_payload_err (s p : GoString)
    (hp : (if s.length = 7 ∧ s.head? = some 0x23 then some s.tail
      else if s.length ≠ 6 then none else some s) = some p)
    (herr : (ParseInt p 16).2 ≠ none) :
    (hexToColorInt s).2 ≠ none := by
  rw [hexToColorInt_of_stripped s p hp]
  rcases hr : ParseInt p 16 with ⟨v, _ | err⟩
  · rw [hr] at herr; exact absurd rfl herr
  · simp

theorem not_hash_of_allHex (s : GoString) (hall : allHex s = true) : s.head? ≠ some 0x23 := by
  cases s with
  | nil => simp
  | cons c rest =>
    intro h
    have hc : c = 0x23 := by simpa using h
    have := (allHex_iff (c :: rest)).mp hall c (List.mem_cons_self c rest)
    rw [digitIn_hex, hc] at this
    exact absurd this (by decide)

theorem ParseInt_hex_err (p : GoString) (hlen : p.length = 6) (hall : allHex p = false)
    (hs : signedHexPayload p = false ∨ p.head? = some 0x23) :
    (ParseInt p 16).2 ≠ none := by
  match p, hlen, hall, hs with
  | c :: rest, hlen, hall, hs =>
    apply ParseInt_of_body_err
    apply ParseUint_invalid
    right
    have hrest : rest.length = 5 := by simpa using hlen
    by_cases hsign : c = 0x2b ∨ c = 0x2d
    · have hnothash : ¬ ((c :: rest).head? = some 0x23) := by
        rcases hsign with h | h <;> simp [h]
      have hsp : signedHexPayload (c :: rest) = false := by
        rcases hs with h | h
        · exact h
        · exact absurd h hnothash
      have hrestall : allHex rest = false := by
        cases hr : allHex rest with
        | false => rfl
        | true =>
          have : signedHexPayload (c :: rest) = true := by
            simp [signedHexPayload, hsign, hrest, hr]
          rw [this] at hsp
          exact absurd hsp (by decide)
      have hbody : (if c = 0x2b then rest else if c = 0x2d then rest else c :: rest) = rest := by
        rcases hsign with h | h
        · simp [h]
        · by_cases h2 : c = 0x2b
          · simp [h2]
          · simp [h]
      rw [hbody]
      exact exists_invalid_of_not_allHex rest hrestall
    · have h1 : c ≠ 0x2b := fun h => hsign (Or.inl h)
      have h2 : c ≠ 0x2d := fun h => hsign (Or.inr h)
      rw [if_neg h1, if_neg h2]
      exact exists_invalid_of_not_allHex (c :: rest) hall

/-! ### Hex colors -/

/-- C3: a payload that is a sign followed by five hex digits is malformed, yet the
parser accepts it: "+12345" gives 74565, "-12345" and "#-12345" give -74565, all
without error, and `SetColorHex` then records none.  Every other malformed string is
rejected. -/
theorem hexToColorInt_accepts_signed_payload :
    wellFormedHex (lit "+12345") = false ∧
    hexToColorInt (lit "+12345") = (74565, none) ∧
    (NewEmbed.SetColorHex (lit "+12345")).Error = none ∧
    wellFormedHex (lit "-12345") = false ∧
    hexToColorInt (lit "-12345") = (-74565, none) ∧
    wellFormedHex (lit "#-12345") = false ∧
    hexToColorInt (lit "#-12345") = (-74565, none) ∧
    (∀ s : GoString, wellFormedHex s = false → signedHexPayload (stripHash s) = false →
      (hexToColorInt s).2 ≠ none ∧ ∀ e : Embed, (e.SetColorHex s).Error ≠ none) := by
  refine ⟨by decide, by decide, by decide, by decide, by decide, by decide, by decide, ?_⟩
  intro s hwf hsp
  have herr : (hexToColorInt s).2 ≠ none := by
    by_cases h7 : s.length = 7 ∧ s.head? = some 0x23
    · have hp : (if s.length = 7 ∧ s.head? = some 0x23 then some s.tail
          else if s.length ≠ 6 then none else some s) = some s.tail := if_pos h7
      have hlen : s.tail.length = 6 := by simp [h7.1]
      have hall : allHex s.tail = false := by
        cases hr : allHex s.tail with
        | false => rfl
        | true =>
          have : wellFormedHex s = true := by simp [wellFormedHex, h7.1, h7.2, hr]
          rw [this] at hwf
          exact absurd hwf (by decide)
      have hstrip : stripHash s = s.tail := by simp [stripHash, h7.2]
      rw [hstrip] at hsp
      exact hexToColorInt_of_payload_err s s.tail hp
        (ParseInt_hex_err s.tail hlen hall (Or.inl hsp))
    · by_cases h6 : s.length ≠ 6
      · unfold hexToColorInt
        simp only [if_neg h7, if_pos h6]
        simp
      · have hp : (if s.length = 7 ∧ s.head? = some 0x23 then some s.tail
            else if s.length ≠ 6 then none else some s) = some s := by
          rw [if_neg h7, if_neg h6]
        have hlen : s.length = 6 := by omega
        have hall : allHex s = false := by
          cases hr : allHex s with
          | false => rfl
          | true =>
            have : wellFormedHex s = true := by simp [wellFormedHex, hlen, hr]
            rw [this] at hwf
            exact absurd hwf (by decide)
        have hcase : signedHexPayload s = false ∨ s.head? = some 0x23 := by
          by_cases hh : s.head? = some 0x23
          · exact Or.inr hh
          · left
            have hstrip : stripHash s = s := by simp [stripHash, hh]
            rwa [hstrip] at hsp
        exact hexToColorInt_of_payload_err s s hp (ParseInt_hex_err s hlen hall hcase)
  refine ⟨herr, ?_⟩
  intro e
  show (e.SetColorHex s).err ≠ none
  unfold Embed.SetColorHex
  cases hr : (hexToColorInt s).2 with
  | none => exact absurd hr herr
  | some err => simp [hr]

/-- C4: on a string of exactly 6 hex digits, or `#` and exactly 6 hex digits, the
parser succeeds with the base-16 value of the digits, which is at most 16777215;
`SetColorHex` stores that value and changes nothing else, so the deferred error is
what it was.  "#ff5733" and "FF5733" both give 16734003. -/
theorem hexToColorInt_of_wellFormed (s : GoString) (e : Embed) (h : wellFormedHex s = true) :
    hexToColorInt s = ((hexValue (stripHash s) : Int), none) ∧
    (0 : Int) ≤ (hexValue (stripHash s) : Int) ∧ hexValue (stripHash s) ≤ 16777215 ∧
    e.SetColorHex s = { e with Color := (hexValue (stripHash s) : Int) } ∧
    (e.SetColorHex s).Color = (hexValue (stripHash s) : Int) ∧
    (e.SetColorHex s).Error = e.Error ∧
    hexToColorInt (lit "#ff5733") = (16734003, none) ∧
    hexToColorInt (lit "FF5733") = (16734003, none) := by
  have hmain : ∃ p, (if s.length = 7 ∧ s.head? = some 0x23 then some s.tail
      else if s.length ≠ 6 then none else some s) = some p ∧ p.length = 6 ∧ allHex p = true ∧
      stripHash s = p := by
    unfold wellFormedHex at h
    simp only [Bool.decide_or, Bool.decide_and, Bool.or_eq_true, Bool.and_eq_true,
      decide_eq_true_eq, Bool.decide_eq_true] at h
    rcases h with ⟨hlen, hall⟩ | ⟨hlen, hhead, hall⟩
    · refine ⟨s, ?_, hlen, hall, ?_⟩
      · rw [if_neg (by omega), if_neg (by omega)]
      · simp [stripHash, not_hash_of_allHex s hall]
    · refine ⟨s.tail, ?_, by simp [hlen], hall, ?_⟩
      · rw [if_pos ⟨hlen, hhead⟩]
      · simp [stripHash, hhead]
  obtain ⟨p, hp, hlen, hall, hstrip⟩ := hmain
  have hparse : hexToColorInt s = ((hexValue (stripHash s) : Int), none) := by
    rw [hstrip]
    exact hexToColorInt_of_payload_ok s p hp hlen hall
  have hbound : hexValue (stripHash s) ≤ 16777215 := by
    have := hexValue_lt p hall
    rw [hlen] at this
    rw [hstrip]
    omega
  have hset : e.SetColorHex s = { e with Color := (hexValue (stripHash s) : Int) } := by
    unfold Embed.SetColorHex
    simp only [hparse]
  refine ⟨hparse, Int.ofNat_nonneg _, hbound, hset, by rw [hset], by rw [hset]; rfl,
    by decide, by decide⟩

/-- C4, at the string "#ff5733" and a new embed. -/
theorem hexToColorInt_of_wellFormed_witness :
    wellFormedHex (lit "#ff5733") = true ∧
    hexToColorInt (lit "#ff5733") = ((hexValue (stripHash (lit "#ff5733")) : Int), none) :=
  ⟨by decide, (hexToColorInt_of_wellFormed (lit "#ff5733") NewEmbed (by decide)).1⟩


/-! ### Colors -/

/-- C1: a triple with two components out of range is not packed component by component:
for RGB(-5, 300, 128) the switch clamps G only, `rgbToInt` returns -262272, and
`SetColorRGB` stores that instead of `(0 << 16) | (255 << 8) | 128 = 65408`. -/
theorem rgbToInt_clamps_one_component_only :
    rgbToInt ⟨-5, 300, 128⟩ = -262272 ∧
    packClamped (-5) 300 128 = 65408 ∧
    (NewEmbed.SetColorRGB ⟨-5, 300, 128⟩).Color ≠ packClamped (-5) 300 128 := by
  decide

/-- C2: the color leaves `[0, 16777215]`: after `SetColorRGB(RGB{-5, 300, 128})` on a
new embed it is -262272, after `SetColorRGB(RGB{300, 70000, 0})` it is 33517568, and
after `SetColorHex("-00001")` it is -1 with no error recorded. -/
theorem color_range_violated :
    (NewEmbed.run [.setColorRGB ⟨-5, 300, 128⟩]).Color = -262272 ∧
    (NewEmbed.run [.setColorRGB ⟨300, 70000, 0⟩]).Color = 33517568 ∧
    (NewEmbed.run [.setColorHex (lit "-00001")]).Color = -1 ∧
    (NewEmbed.run [.setColorHex (lit "-00001")]).Error = none ∧
    ¬ (0 ≤ (NewEmbed.run [.setColorRGB ⟨-5, 300, 128⟩]).Color ∧
        (NewEmbed.run [.setColorRGB ⟨-5, 300, 128⟩]).Color ≤ 16777215) := by
  decide

/-- C8: `SetColorInt(c)` stores `min(max(c, 0), 16777215)` and changes nothing else,
the error slot included; -1 is stored as 0, 16777216 as 16777215, and a value in
range as itself. -/
theorem setColorInt_clamps (e : Embed) (c : Int) :
    e.SetColorInt c = { e with Color := clamp c 0 16777215 } ∧
    (e.SetColorInt c).Color = min (max c 0) 16777215 ∧
    (e.SetColorInt c).Error = e.Error ∧
    (e.SetColorInt (-1)).Color = 0 ∧
    (e.SetColorInt 16777216).Color = 16777215 ∧
    (0 ≤ c ∧ c ≤ 16777215 → (e.SetColorInt c).Color = c) := by
  have key : ∀ c : Int, e.SetColorInt c = { e with Color := clamp c 0 16777215 } := by
    intro c
    unfold Embed.SetColorInt clamp maxDecimalRGBValue minDecimalRGBValue
    by_cases h1 : c > 16777215
    · have : min (max c 0) 16777215 = 16777215 := by omega
      simp [h1, this]
    · by_cases h2 : c < 0
      · have : min (max c 0) 16777215 = 0 := by omega
        simp [h1, h2, this]
      · have : min (max c 0) 16777215 = c := by omega
        simp [h1, h2, this]
  refine ⟨key c, ?_, ?_, ?_, ?_, ?_⟩
  · rw [key]; rfl
  · rw [key]; rfl
  · rw [key]; rfl
  · rw [key]; rfl
  · intro h
    rw [key]
    show clamp c 0 16777215 = c
    unfold clamp
    omega

/-! ### The deferred error -/

theorem hexToColorInt_value_of_error (s : GoString) (err : Error)
    (h : (hexToColorInt s).2 = some err) : (hexToColorInt s).1 = 0 := by
  unfold hexToColorInt at h ⊢
  simp only [] at h ⊢
  generalize (if s.length = 7 ∧ s.head? = some 0x23 then some s.tail
    else if s.length ≠ 6 then none else some s) = st at h ⊢
  cases st with
  | none => rfl
  | some hex =>
    simp only [] at h ⊢
    rcases hp : ParseInt hex 16 with ⟨v, _ | pe⟩
    · simp [hp] at h
    · simp

theorem call_err (e : Embed) (c : EmbedCall) :
    (e.call c).err = (match hexFailure c with | some x => some x | none => e.err) := by
  cases c with
  | setColorInt color =>
    simp only [Embed.call, Embed.SetColorInt, hexFailure]
    split
    · rfl
    · split <;> rfl
  | setColorHex hex =>
    simp only [Embed.call, Embed.SetColorHex, hexFailure]
    cases (hexToColorInt hex).2 <;> rfl
  | _ =>
    simp only [Embed.call, hexFailure, Embed.SetTitle, Embed.SetDescription, Embed.SetURL,
      Embed.SetColorRGB, Embed.SetFooter, Embed.SetTimestamp, Embed.SetTimestampNow,
      Embed.SetAuthorName, Embed.SetAuthorURL, Embed.SetAuthorIcon, Embed.SetImage,
      Embed.AddField, Embed.ClearFields, Embed.SetThumbnail]

theorem run_err (calls : List EmbedCall) (e : Embed) :
    (e.run calls).err =
      (match (calls.filterMap hexFailure).getLast? with | some x => some x | none => e.err) := by
  induction calls generalizing e with
  | nil => rfl
  | cons c cs ih =>
    have step : e.run (c :: cs) = (e.call c).run cs := rfl
    rw [step, ih, call_err]
    cases hc : hexFailure c with
    | none => simp [List.filterMap_cons, hc]
    | some x =>
      simp only [List.filterMap_cons, hc]
      cases hl : List.filterMap hexFailure cs with
      | nil => simp
      | cons y ys =>
        simp only [List.getLast?_cons_cons]
        rw [List.getLast?_eq_getLast (y :: ys) (by simp)]

/-- C6: when the parser fails on `s` with error `err`, `SetColorHex(s)` sets the color
to 0 whatever it was, puts `err` in the error slot whatever it held, and changes no
other field of the embed. -/
theorem setColorHex_of_parse_failure (e : Embed) (s : GoString) (err : Error)
    (h : (hexToColorInt s).2 = some err) :
    e.SetColorHex s = { e with Color := 0, err := some err } ∧
    (e.SetColorHex s).Color = 0 ∧ (e.SetColorHex s).Error = some err := by
  have h0 := hexToColorInt_value_of_error s err h
  have key : e.SetColorHex s = { e with Color := 0, err := some err } := by
    simp only [Embed.SetColorHex, h, h0]
  exact ⟨key, by rw [key], by rw [key]; rfl⟩

/-- C6, at an embed with color 5 and an earlier deferred error, and the string "bogus". -/
theorem setColorHex_of_parse_failure_witness :
    (hexToColorInt (lit "bogus")).2 = some Error.invalidHexFormat ∧
    (({ NewEmbed with Color := 5, err := some (Error.hexParse ⟨"ParseInt", [], .invalidSyntax⟩) } :
        Embed).SetColorHex (lit "bogus")).Color = 0 :=
  ⟨by decide,
   (setColorHex_of_parse_failure
      { NewEmbed with Color := 5, err := some (Error.hexParse ⟨"ParseInt", [], .invalidSyntax⟩) }
      (lit "bogus") Error.invalidHexFormat (by decide)).2.1⟩

/-- C7: after any sequence of builder calls on a new embed, `Error()` is the error of
the last `SetColorHex` call whose argument the parser rejects, and `nil` exactly when
there is no such call; a call that is not such a failing `SetColorHex` (a successful
`SetColorHex` and `Error()` itself included) leaves the slot as it was. -/
theorem error_is_last_hex_failure (calls : List EmbedCall) :
    (NewEmbed.run calls).Error = (calls.filterMap hexFailure).getLast? ∧
    ((NewEmbed.run calls).Error = none ↔ ∀ c ∈ calls, hexFailure c = none) ∧
    (∀ (e : Embed) (c : EmbedCall), hexFailure c = none → (e.call c).Error = e.Error) ∧
    (∀ (e : Embed) (c : EmbedCall) (x : Error), hexFailure c = some x →
      (e.call c).Error = some x) := by
  have h1 : (NewEmbed.run calls).Error = (calls.filterMap hexFailure).getLast? := by
    show (NewEmbed.run calls).err = _
    rw [run_err]
    cases (calls.filterMap hexFailure).getLast? <;> rfl
  refine ⟨h1, ?_, ?_, ?_⟩
  · rw [h1, List.getLast?_eq_none_iff, List.filterMap_eq_nil_iff]
  · intro e c hc
    show (e.call c).err = e.err
    rw [call_err, hc]
  · intro e c x hc
    show (e.call c).err = some x
    rw [call_err, hc]

/-! ### Transport -/

theorem Send_of_response (post : GoString → GoString → Except GoString Response) (w : Webhook)
    (url : GoString) (resp : Response) (h : post url (Marshal w) = .ok resp) :
    w.Send post url =
      if resp.StatusCode ≠ StatusOK ∧ resp.StatusCode ≠ StatusNoContent then
        some (.discord
          { StatusCode := resp.StatusCode, Body := resp.Body.take 4096,
            RetryAfter := retryAfterOf resp })
      else none := by
  unfold Webhook.Send retryAfterOf
  simp only [h]
  by_cases hs : resp.StatusCode ≠ StatusOK ∧ resp.StatusCode ≠ StatusNoContent
  · rw [if_pos hs, if_pos hs]
    by_cases h429 : resp.StatusCode = StatusTooManyRequests
    · rw [if_pos h429, if_pos h429]
      by_cases hra : resp.Header.Get (lit "Retry-After") ≠ []
      · rw [if_pos hra, if_pos hra]
        rcases hat : Atoi (resp.Header.Get (lit "Retry-After")) with ⟨ms, _ | err⟩ <;> rfl
      · rw [if_neg hra, if_neg hra]
    · rw [if_neg h429, if_neg h429]
  · rw [if_neg hs, if_neg hs]

theorem allDec_iff (s : GoString) :
    s.all (fun c => (decDigitValue c).isSome) = true ↔ ∀ c ∈ s, (digitIn 10 c).isSome = true := by
  simp [List.all_eq_true, digitIn_dec]

theorem decimalNatural_some (s : GoString) (m : Nat) (h : decimalNatural s = some m) :
    s ≠ [] ∧ (∀ c ∈ s, (digitIn 10 c).isSome = true) ∧ m = posValue 10 (digitIn 10) s 0 := by
  unfold decimalNatural at h
  by_cases hc : s ≠ [] ∧ s.all (fun c => (decDigitValue c).isSome) = true
  · rw [if_pos hc] at h
    have hfun : digitIn 10 = decDigitValue := funext digitIn_dec
    refine ⟨hc.1, (allDec_iff s).mp hc.2, ?_⟩
    rw [hfun]
    exact (Option.some.inj h).symm
  · rw [if_neg hc] at h
    exact absurd h (by simp)

theorem decimalNatural_none (s : GoString) (h : decimalNatural s = none) :
    s = [] ∨ ∃ c ∈ s, digitIn 10 c = none := by
  unfold decimalNatural at h
  by_cases hc : s ≠ [] ∧ s.all (fun c => (decDigitValue c).isSome) = true
  · rw [if_pos hc] at h
    exact absurd h (by simp)
  · by_cases hne : s = []
    · exact Or.inl hne
    · right
      by_contra hcon
      apply hc
      refine ⟨hne, (allDec_iff s).mpr ?_⟩
      intro c hmem
      cases hd : digitIn 10 c with
      | none => exact absurd ⟨c, hmem, hd⟩ hcon
      | some d => rfl

theorem Atoi_of_decimalInteger (s : GoString) (n : Int) (h : decimalInteger s = some n)
    (hlo : -9223372036854775807 ≤ n) (hhi : n ≤ 9223372036854775807) : Atoi s = (n, none) := by
  have key : ParseInt s 10 = (n, none) := by
    match s, h with
    | c :: rest, h =>
      unfold decimalInteger at h
      simp only [] at h
      by_cases hplus : c = 0x2b
      · rw [if_pos hplus] at h
        obtain ⟨m, hm, hn⟩ := Option.map_eq_some'.mp h
        replace hn : ((m : Nat) : Int) = n := hn
        obtain ⟨hne, hall, hval⟩ := decimalNatural_some rest m hm
        have hu : ParseUint (if c = 0x2b then rest else if c = 0x2d then rest else c :: rest) 10
            = (m, none) := by
          rw [if_pos hplus, hval]
          apply ParseUint_ok 10 (by norm_num) rest hne hall
          rw [← hval]
          omega
        rw [ParseInt_of_body_ok 10 c rest m hu]
        have hb : (c == 0x2d) = false := by rw [hplus]; decide
        rw [hb, parseIntRange_pos m _ (by omega), hn]
      · rw [if_neg hplus] at h
        by_cases hminus : c = 0x2d
        · rw [if_pos hminus] at h
          obtain ⟨m, hm, hn⟩ := Option.map_eq_some'.mp h
          replace hn : -((m : Nat) : Int) = n := hn
          obtain ⟨hne, hall, hval⟩ := decimalNatural_some rest m hm
          have hu : ParseUint (if c = 0x2b then rest else if c = 0x2d then rest else c :: rest) 10
              = (m, none) := by
            rw [if_neg hplus, if_pos hminus, hval]
            apply ParseUint_ok 10 (by norm_num) rest hne hall
            rw [← hval]
            omega
          rw [ParseInt_of_body_ok 10 c rest m hu]
          have hb : (c == 0x2d) = true := by rw [hminus]; decide
          rw [hb, parseIntRange_neg m _ (by omega), hn]
        · rw [if_neg hminus] at h
          obtain ⟨m, hm, hn⟩ := Option.map_eq_some'.mp h
          replace hn : ((m : Nat) : Int) = n := hn
          obtain ⟨hne, hall, hval⟩ := decimalNatural_some (c :: rest) m hm
          have hu : ParseUint (if c = 0x2b then rest else if c = 0x2d then rest else c :: rest) 10
              = (m, none) := by
            rw [if_neg hplus, if_neg hminus, hval]
            apply ParseUint_ok 10 (by norm_num) (c :: rest) hne hall
            rw [← hval]
            omega
          rw [ParseInt_of_body_ok 10 c rest m hu]
          have hb : (c == 0x2d) = false := by simpa using hminus
          rw [hb, parseIntRange_pos m _ (by omega), hn]
  unfold Atoi
  rw [key]

theorem Atoi_err_of_not_decimalInteger (s : GoString) (hne : s ≠ [])
    (h : decimalInteger s = none) : (Atoi s).2 ≠ none := by
  have key : (ParseInt s 10).2 ≠ none := by
    match s, hne, h with
    | c :: rest, _, h =>
      apply ParseInt_of_body_err
      apply ParseUint_invalid
      unfold decimalInteger at h
      simp only [] at h
      by_cases hplus : c = 0x2b
      · rw [if_pos hplus] at h
        rw [if_pos hplus]
        exact decimalNatural_none rest (by simpa using h)
      · rw [if_neg hplus] at h
        rw [if_neg hplus]
        by_cases hminus : c = 0x2d
        · rw [if_pos hminus] at h
          rw [if_pos hminus]
          exact decimalNatural_none rest (by simpa using h)
        · rw [if_neg hminus] at h
          rw [if_neg hminus]
          exact decimalNatural_none (c :: rest) (by simpa using h)
  unfold Atoi
  rcases hr : ParseInt s 10 with ⟨v, _ | err⟩
  · rw [hr] at key; exact absurd rfl key
  · simp

theorem retryAfterOf_of_decimalInteger (resp : Response) (n : Int)
    (hs : resp.StatusCode = 429)
    (hn : decimalInteger (resp.Header.Get (lit "Retry-After")) = some n)
    (hlo : -9223372036854 ≤ n) (hhi : n ≤ 9223372036854) :
    retryAfterOf resp = n * Millisecond := by
  have hne : resp.Header.Get (lit "Retry-After") ≠ [] := by
    intro h0
    rw [h0] at hn
    simp [decimalInteger] at hn
  unfold retryAfterOf
  rw [if_pos (by rw [hs]; rfl), if_pos hne,
    Atoi_of_decimalInteger _ n hn (by omega) (by omega)]
  apply wrapInt_of_isGoInt
  unfold IsGoInt minInt maxInt Millisecond
  omega

theorem retryAfterOf_of_not_decimalInteger (resp : Response)
    (hn : decimalInteger (resp.Header.Get (lit "Retry-After")) = none) :
    retryAfterOf resp = 0 := by
  unfold retryAfterOf
  by_cases h429 : resp.StatusCode = StatusTooManyRequests
  · rw [if_pos h429]
    by_cases hne : resp.Header.Get (lit "Retry-After") ≠ []
    · rw [if_pos hne]
      have herr := Atoi_err_of_not_decimalInteger _ hne hn
      rcases hr : Atoi (resp.Header.Get (lit "Retry-After")) with ⟨v, _ | err⟩
      · rw [hr] at herr; exact absurd rfl herr
      · rfl
    · rw [if_neg hne]
  · rw [if_neg h429]

theorem parseUintLoop_overflow (base : Nat) (hb : 0 < base) (hb2 : base ≤ 36) :
    ∀ (s : GoString) (n : Nat), n < 2 ^ 64 → (∀ c ∈ s, (digitIn base c).isSome = true) →
      2 ^ 64 ≤ posValue base (digitIn base) s n → (parseUintLoop base s n).2 ≠ none := by
  intro s
  induction s with
  | nil =>
    intro n hn _ hv
    have hv2 : 2 ^ 64 ≤ n := hv
    omega
  | cons c cs ih =>
    intro n hn hs hv
    obtain ⟨d, hd, hlt, hin⟩ := digitIn_some base c (hs c (List.mem_cons_self c cs))
    rw [posValue_cons, hin] at hv
    simp only [Option.getD_some] at hv
    unfold parseUintLoop
    simp only [hd]
    rw [if_neg (by omega)]
    by_cases hcut : n ≥ maxUint64 / base + 1
    · rw [if_pos hcut]
      simp
    · rw [if_neg hcut]
      have hle : n * base ≤ maxUint64 := by
        have h1 : n ≤ maxUint64 / base := by omega
        exact (Nat.le_div_iff_mul_le hb).mp h1
      have hm : n * base % 2 ^ 64 = n * base :=
        Nat.mod_eq_of_lt (by unfold maxUint64 at hle; omega)
      simp only [hm]
      by_cases hov : n * base + d < 2 ^ 64
      · have hn1 : (n * base + d) % 2 ^ 64 = n * base + d := Nat.mod_eq_of_lt hov
        rw [hn1, if_neg (by unfold maxUint64; omega)]
        exact ih _ hov (fun c' hc' => hs c' (List.mem_cons_of_mem c hc')) hv
      · have hwrap : (n * base + d) % 2 ^ 64 < n * base := by omega
        rw [if_pos (Or.inl hwrap)]
        simp

theorem ParseUint_overflow (base : Nat) (hb : 0 < base) (hb2 : base ≤ 36) (s : GoString)
    (hs : ∀ c ∈ s, (digitIn base c).isSome = true)
    (hv : 2 ^ 64 ≤ posValue base (digitIn base) s 0) : (ParseUint s base).2 ≠ none := by
  unfold ParseUint
  by_cases hne : s = []
  · simp [hne]
  · rw [if_neg hne]
    have hl := parseUintLoop_overflow base hb hb2 s 0 (by norm_num) hs hv
    rcases hp : parseUintLoop base s 0 with ⟨n, _ | k⟩
    · rw [hp] at hl; simp at hl
    · simp

theorem parseIntRange_neg_min (s0 : GoString) :
    parseIntRange true (2 ^ 63) s0 = (-(2 ^ 63), none) := by
  unfold parseIntRange
  simp only []
  rw [if_neg (by simp), if_neg (by simp)]
  have h : wrapInt (-ofWord (2 ^ 63)) = -(2 ^ 63) := by decide
  simp only [h, if_true]

theorem parseIntRange_out_of_range (neg : Bool) (un : Nat) (s0 : GoString)
    (h : (if neg = true then -((un : Nat) : Int) else ((un : Nat) : Int)) < minInt ∨
      maxInt < (if neg = true then -((un : Nat) : Int) else ((un : Nat) : Int))) :
    (parseIntRange neg un s0).2 ≠ none := by
  unfold minInt maxInt at h
  unfold parseIntRange
  simp only []
  cases neg with
  | false =>
    simp only [Bool.false_eq_true, if_false] at h
    rw [if_pos ⟨rfl, by omega⟩]
    simp
  | true =>
    simp only [if_true] at h
    rw [if_neg (by simp), if_pos ⟨rfl, by omega⟩]
    simp

theorem decimalInteger_some (c : UInt8) (rest : GoString) (n : Int)
    (h : decimalInteger (c :: rest) = some n) :
    ∃ m : Nat,
      decimalNatural (if c = 0x2b then rest else if c = 0x2d then rest else c :: rest) = some m ∧
      n = (if (c == 0x2d) = true then -((m : Nat) : Int) else ((m : Nat) : Int)) := by
  unfold decimalInteger at h
  simp only [] at h
  by_cases hplus : c = 0x2b
  · rw [if_pos hplus] at h
    obtain ⟨m, hm, hn⟩ := Option.map_eq_some'.mp h
    replace hn : ((m : Nat) : Int) = n := hn
    have hb : (c == 0x2d) = false := by rw [hplus]; decide
    exact ⟨m, by rw [if_pos hplus]; exact hm, by rw [hb]; simpa using hn.symm⟩
  · rw [if_neg hplus] at h
    by_cases hminus : c = 0x2d
    · rw [if_pos hminus] at h
      obtain ⟨m, hm, hn⟩ := Option.map_eq_some'.mp h
      replace hn : -((m : Nat) : Int) = n := hn
      have hb : (c == 0x2d) = true := by rw [hminus]; decide
      exact ⟨m, by rw [if_neg hplus, if_pos hminus]; exact hm, by rw [hb]; simpa using hn.symm⟩
    · rw [if_neg hminus] at h
      obtain ⟨m, hm, hn⟩ := Option.map_eq_some'.mp h
      replace hn : ((m : Nat) : Int) = n := hn
      have hb : (c == 0x2d) = false := by simpa using hminus
      exact ⟨m, by rw [if_neg hplus, if_neg hminus]; exact hm, by rw [hb]; simpa using hn.symm⟩

theorem Atoi_err_of_out_of_range (s : GoString) (n : Int) (h : decimalInteger s = some n)
    (hout : n < minInt ∨ maxInt < n) : (Atoi s).2 ≠ none := by
  have key : (ParseInt s 10).2 ≠ none := by
    match s, h with
    | c :: rest, h =>
      obtain ⟨m, hm, hn⟩ := decimalInteger_some c rest n h
      obtain ⟨hne, hall, hval⟩ := decimalNatural_some _ m hm
      by_cases hbig : m < 2 ^ 64
      · have hu : ParseUint (if c = 0x2b then rest else if c = 0x2d then rest else c :: rest) 10
            = (m, none) := by
          rw [hval]
          apply ParseUint_ok 10 (by norm_num) _ hne hall
          rw [← hval]
          exact hbig
        rw [ParseInt_of_body_ok 10 c rest m hu]
        apply parseIntRange_out_of_range
        rw [← hn]
        exact hout
      · apply ParseInt_of_body_err
        apply ParseUint_overflow 10 (by norm_num) (by norm_num) _ hall
        rw [← hval]
        omega
  unfold Atoi
  rcases hr : ParseInt s 10 with ⟨v, _ | err⟩
  · rw [hr] at key; exact absurd rfl key
  · simp

theorem Atoi_of_minInt (s : GoString) (h : decimalInteger s = some minInt) :
    Atoi s = (minInt, none) := by
  have key : ParseInt s 10 = (minInt, none) := by
    match s, h with
    | c :: rest, h =>
      obtain ⟨m, hm, hn⟩ := decimalInteger_some c rest minInt h
      obtain ⟨hne, hall, hval⟩ := decimalNatural_some _ m hm
      unfold minInt at hn
      have hneg : (c == 0x2d) = true := by
        cases hb : (c == 0x2d) with
        | true => rfl
        | false => rw [hb] at hn; simp only [Bool.false_eq_true, if_false] at hn; omega
      rw [hneg] at hn
      simp only [if_true] at hn
      have hm63 : m = 2 ^ 63 := by omega
      have hu : ParseUint (if c = 0x2b then rest else if c = 0x2d then rest else c :: rest) 10
          = (m, none) := by
        rw [hval]
        apply ParseUint_ok 10 (by norm_num) _ hne hall
        rw [← hval]
        omega
      rw [ParseInt_of_body_ok 10 c rest m hu, hneg, hm63, parseIntRange_neg_min]
      rfl
  unfold Atoi
  rw [key]

theorem Atoi_ok_iff (s : GoString) :
    (Atoi s).2 = none ↔ ∃ n : Int, decimalInteger s = some n ∧ minInt ≤ n ∧ n ≤ maxInt := by
  constructor
  · intro hok
    cases hd : decimalInteger s with
    | none =>
      by_cases hne : s = []
      · rw [hne] at hok
        exact absurd hok (by decide)
      · exact absurd hok (Atoi_err_of_not_decimalInteger s hne hd)
    | some n =>
      refine ⟨n, rfl, ?_⟩
      by_contra hcon
      exact Atoi_err_of_out_of_range s n hd (by omega) hok
  · rintro ⟨n, hd, hlo, hhi⟩
    by_cases hmin : n = minInt
    · rw [hmin] at hd
      rw [Atoi_of_minInt s hd]
    · unfold minInt at hlo hmin
      unfold maxInt at hhi
      rw [Atoi_of_decimalInteger s n hd (by omega) (by omega)]

theorem retryAfterOf_of_Atoi_err (resp : Response)
    (herr : (Atoi (resp.Header.Get (lit "Retry-After"))).2 ≠ none) : retryAfterOf resp = 0 := by
  unfold retryAfterOf
  by_cases h429 : resp.StatusCode = StatusTooManyRequests
  · rw [if_pos h429]
    by_cases hne : resp.Header.Get (lit "Retry-After") ≠ []
    · rw [if_pos hne]
      rcases hr : Atoi (resp.Header.Get (lit "Retry-After")) with ⟨v, _ | err⟩
      · rw [hr] at herr; exact absurd rfl herr
      · rfl
    · rw [if_neg hne]
  · rw [if_neg h429]

theorem retryAfterOf_of_int (resp : Response) (n : Int) (hs : resp.StatusCode = 429)
    (hn : decimalInteger (resp.Header.Get (lit "Retry-After")) = some n)
    (hlo : minInt ≤ n) (hhi : n ≤ maxInt) :
    retryAfterOf resp = wrapInt (n * Millisecond) := by
  have hne : resp.Header.Get (lit "Retry-After") ≠ [] := by
    intro h0
    rw [h0] at hn
    simp [decimalInteger] at hn
  have hat : Atoi (resp.Header.Get (lit "Retry-After")) = (n, none) := by
    by_cases hmin : n = minInt
    · rw [hmin] at hn ⊢
      exact Atoi_of_minInt _ hn
    · unfold minInt at hlo hmin
      unfold maxInt at hhi
      exact Atoi_of_decimalInteger _ n hn (by omega) (by omega)
  unfold retryAfterOf
  rw [if_pos (by rw [hs]; rfl), if_pos hne, hat]

/-- C10: when the POST produced a response, `Send` returns `nil` exactly when the
status code is 200 or 204, and for every other status code it returns a
`DiscordError` whose `StatusCode` is the status code of the response. -/
theorem send_classifies_by_status (post : GoString → GoString → Except GoString Response)
    (w : Webhook) (url : GoString) (resp : Response) (h : post url (Marshal w) = .ok resp) :
    (w.Send post url = none ↔ resp.StatusCode = 200 ∨ resp.StatusCode = 204) ∧
    (¬ (resp.StatusCode = 200 ∨ resp.StatusCode = 204) →
      ∃ d : DiscordError, w.Send post url = some (.discord d) ∧
        d.StatusCode = resp.StatusCode) := by
  rw [Send_of_response post w url resp h]
  unfold StatusOK StatusNoContent
  by_cases hs : resp.StatusCode ≠ 200 ∧ resp.StatusCode ≠ 204
  · rw [if_pos hs]
    refine ⟨?_, ?_⟩
    · constructor
      · intro hnone; exact absurd hnone (by simp)
      · intro hor; rcases hor with h1 | h1
        · exact absurd h1 hs.1
        · exact absurd h1 hs.2
    · intro _
      exact ⟨_, rfl, rfl⟩
  · rw [if_neg hs]
    refine ⟨?_, ?_⟩
    · constructor
      · intro _; omega
      · intro _; rfl
    · intro hno
      omega

/-- C10, at a service that answers 500 with body "oops". -/
theorem send_classifies_by_status_witness :
    ((fun _ _ => .ok ⟨500, [], lit "oops"⟩) : GoString → GoString → Except GoString Response)
        (lit "http://host/hook") (Marshal NewWebhook) = .ok ⟨500, [], lit "oops"⟩ ∧
    ∃ d : DiscordError,
      NewWebhook.Send (fun _ _ => .ok ⟨500, [], lit "oops"⟩) (lit "http://host/hook")
        = some (.discord d) ∧ d.StatusCode = 500 :=
  ⟨rfl, (send_classifies_by_status (fun _ _ => .ok ⟨500, [], lit "oops"⟩) NewWebhook
    (lit "http://host/hook") ⟨500, [], lit "oops"⟩ rfl).2 (by decide)⟩

/-- C9 as stated fails when `n` milliseconds do not fit a `time.Duration`: with
status 429 and `Retry-After: 9223372036855` the header is the decimal integer
9223372036855, `Atoi` succeeds, the product with `time.Millisecond` wraps, and
`RetryAfter` is -9223372036854551616 nanoseconds instead of 9223372036855 ms;
with `Retry-After: 288230376151711744` it is 0. -/
theorem retryAfter_wraps_for_large_header :
    decimalInteger (lit "9223372036855") = some 9223372036855 ∧
    NewWebhook.Send
        (fun _ _ => .ok ⟨429, [(lit "Retry-After", [lit "9223372036855"])], []⟩) []
      = some (.discord ⟨429, [], -9223372036854551616⟩) ∧
    (-9223372036854551616 : Int) ≠ 9223372036855 * Millisecond ∧
    decimalInteger (lit "288230376151711744") = some 288230376151711744 ∧
    NewWebhook.Send
        (fun _ _ => .ok ⟨429, [(lit "Retry-After", [lit "288230376151711744"])], []⟩) []
      = some (.discord ⟨429, [], 0⟩) := by
  decide

/-- C9, amended: when `Send` returns a `DiscordError` for a response, its `RetryAfter`
is `n` milliseconds if the status is 429 and the `Retry-After` value is a decimal
integer `n` with `|n| ≤ 9223372036854`; it is zero if the status is not 429, if the
header is absent, or if its value does not parse as an integer, that is, if
`strconv.Atoi` fails on it.  `Atoi` fails exactly on the values that are not a
decimal integer (among them the empty value) and on the decimal integers outside
the range of `int`, such as 9223372036854775808; so a nonzero `RetryAfter` implies
status 429.  For every decimal integer `n` in the range of `int` the value is the
product of `n` and `time.Millisecond` reduced to 64 bits. -/
theorem retryAfter_of_response (post : GoString → GoString → Except GoString Response)
    (w : Webhook) (url : GoString) (resp : Response) (d : DiscordError)
    (h : post url (Marshal w) = .ok resp) (hd : w.Send post url = some (.discord d)) :
    (∀ n : Int, resp.StatusCode = 429 →
      decimalInteger (resp.Header.Get (lit "Retry-After")) = some n →
      -9223372036854 ≤ n → n ≤ 9223372036854 → d.RetryAfter = n * Millisecond) ∧
    (resp.StatusCode ≠ 429 → d.RetryAfter = 0) ∧
    (resp.Header.lookup (lit "Retry-After") = none → d.RetryAfter = 0) ∧
    (decimalInteger (resp.Header.Get (lit "Retry-After")) = none → d.RetryAfter = 0) ∧
    (d.RetryAfter ≠ 0 → resp.StatusCode = 429) ∧
    ((Atoi (resp.Header.Get (lit "Retry-After"))).2 ≠ none → d.RetryAfter = 0) ∧
    (∀ n : Int, decimalInteger (resp.Header.Get (lit "Retry-After")) = some n →
      n < -9223372036854775808 ∨ 9223372036854775807 < n → d.RetryAfter = 0) ∧
    ((Atoi (resp.Header.Get (lit "Retry-After"))).2 = none ↔
      ∃ n : Int, decimalInteger (resp.Header.Get (lit "Retry-After")) = some n ∧
        -9223372036854775808 ≤ n ∧ n ≤ 9223372036854775807) ∧
    (resp.Header.Get (lit "Retry-After") = lit "9223372036854775808" → d.RetryAfter = 0) ∧
    (∀ n : Int, resp.StatusCode = 429 →
      decimalInteger (resp.Header.Get (lit "Retry-After")) = some n →
      -9223372036854775808 ≤ n → n ≤ 9223372036854775807 →
      d.RetryAfter = wrapInt (n * Millisecond)) := by
  have hra : d.RetryAfter = retryAfterOf resp := by
    rw [Send_of_response post w url resp h] at hd
    by_cases hs : resp.StatusCode ≠ StatusOK ∧ resp.StatusCode ≠ StatusNoContent
    · rw [if_pos hs] at hd
      have hd2 := SendError.discord.inj (Option.some.inj hd)
      rw [← hd2]
    · rw [if_neg hs] at hd
      exact absurd hd (by simp)
  have hnot : resp.StatusCode ≠ 429 → retryAfterOf resp = 0 := by
    intro hs
    unfold retryAfterOf
    rw [if_neg (by unfold StatusTooManyRequests; exact hs)]
  have hnone : decimalInteger (resp.Header.Get (lit "Retry-After")) = none →
      retryAfterOf resp = 0 := retryAfterOf_of_not_decimalInteger resp
  have hiff := Atoi_ok_iff (resp.Header.Get (lit "Retry-After"))
  unfold minInt maxInt at hiff
  refine ⟨?_, ?_, ?_, ?_, ?_, ?_, ?_, ?_, ?_, ?_⟩
  · intro n hs hn hlo hhi
    rw [hra]
    exact retryAfterOf_of_decimalInteger resp n hs hn hlo hhi
  · intro hs
    rw [hra]
    exact hnot hs
  · intro habs
    rw [hra]
    apply hnone
    have hget : resp.Header.Get (lit "Retry-After") = [] := by
      unfold Header.Get
      rw [habs]
    rw [hget]
    rfl
  · intro hn
    rw [hra]
    exact hnone hn
  · intro hnz
    by_contra hs
    exact hnz (by rw [hra]; exact hnot hs)
  · intro herr
    rw [hra]
    exact retryAfterOf_of_Atoi_err resp herr
  · intro n hn hout
    rw [hra]
    apply retryAfterOf_of_Atoi_err
    apply Atoi_err_of_out_of_range _ n hn
    unfold minInt maxInt
    omega
  · constructor
    · intro hok
      obtain ⟨n, hn, hlo, hhi⟩ := hiff.mp hok
      exact ⟨n, hn, by omega, by omega⟩
    · rintro ⟨n, hn, hlo, hhi⟩
      exact hiff.mpr ⟨n, hn, by omega, by omega⟩
  · intro hval
    rw [hra]
    apply retryAfterOf_of_Atoi_err
    rw [hval]
    decide
  · intro n hs hn hlo hhi
    rw [hra]
    apply retryAfterOf_of_int resp n hs hn
    · unfold minInt
      omega
    · unfold maxInt
      omega

/-- C9, amended, at a service that answers 429 with `Retry-After: 1500`. -/
theorem retryAfter_of_response_witness :
    NewWebhook.Send
        (fun _ _ => .ok ⟨429, [(lit "Retry-After", [lit "1500"])], lit "slow"⟩)
        (lit "http://host/hook")
      = some (.discord ⟨429, lit "slow", 1500000000⟩) ∧
    (⟨429, lit "slow", 1500000000⟩ : DiscordError).RetryAfter = 1500 * Millisecond :=
  ⟨by decide,
   (retryAfter_of_response
      (fun _ _ => .ok ⟨429, [(lit "Retry-After", [lit "1500"])], lit "slow"⟩)
      NewWebhook (lit "http://host/hook")
      ⟨429, [(lit "Retry-After", [lit "1500"])], lit "slow"⟩
      ⟨429, lit "slow", 1500000000⟩ rfl (by decide)).1 1500 (by decide) (by decide)
      (by decide) (by decide)⟩

/-! ### Serialization -/

/-- C5: the nested records are written even when entirely unset: the object of every
embed has the keys "footer", "image", "thumbnail" and "author"; a new embed is
written with all four as empty objects, and so is the embed of the scenario, whose
message therefore differs from the body without these keys. -/
theorem unset_nested_records_are_encoded :
    (∀ e : Embed, lit "footer" ∈ keys e.members ∧ lit "image" ∈ keys e.members ∧
      lit "thumbnail" ∈ keys e.members ∧ lit "author" ∈ keys e.members) ∧
    Marshal (NewWebhook.AddEmbed NewEmbed) =
      lit "\x7b\"embeds\":[\x7b\"footer\":\x7b\x7d,\"image\":\x7b\x7d,\"thumbnail\":\x7b\x7d,\"author\":\x7b\x7d\x7d]\x7d" ∧
    Marshal (NewWebhook.AddEmbed alertEmbed) =
      lit "\x7b\"embeds\":[\x7b\"title\":\"Alert\",\"description\":\"up\",\"timestamp\":\"2024-01-02T03:04:05Z\",\"color\":16734003,\"footer\":\x7b\x7d,\"image\":\x7b\x7d,\"thumbnail\":\x7b\x7d,\"author\":\x7b\x7d,\"fields\":[\x7b\"name\":\"a\",\"value\":\"1\",\"inline\":true\x7d,\x7b\"name\":\"b\",\"value\":\"2\",\"inline\":true\x7d]\x7d]\x7d" ∧
    Marshal (NewWebhook.AddEmbed alertEmbed) ≠
      lit "\x7b\"embeds\":[\x7b\"title\":\"Alert\",\"description\":\"up\",\"timestamp\":\"2024-01-02T03:04:05Z\",\"color\":16734003,\"fields\":[\x7b\"name\":\"a\",\"value\":\"1\",\"inline\":true\x7d,\x7b\"name\":\"b\",\"value\":\"2\",\"inline\":true\x7d]\x7d]\x7d" := by
  refine ⟨?_, by decide, by decide, by decide⟩
  intro e
  simp [keys, Embed.members, structMemberOmitEmpty]

/-! ### Packing of RGB triples -/

theorem toWord_of_nonneg (x : Int) (h0 : 0 ≤ x) (h1 : x < 2 ^ 64) : toWord x = x.toNat := by
  unfold toWord
  rw [Int.emod_eq_of_lt h0 h1]

theorem shl_of_small (x : Int) (k : Nat) (hk : k ≤ 16) (h0 : 0 ≤ x) (h1 : x ≤ 255) :
    shl x k = x * 2 ^ k ∧ 0 ≤ x * 2 ^ k ∧ x * 2 ^ k < 2 ^ 24 := by
  have hp : (0 : Int) < 2 ^ k := by positivity
  have hle : (2 : Int) ^ k ≤ 2 ^ 16 := pow_le_pow_right₀ (by norm_num) hk
  have hnn : 0 ≤ x * 2 ^ k := mul_nonneg h0 (le_of_lt hp)
  have hub : x * 2 ^ k ≤ 255 * 2 ^ 16 := mul_le_mul h1 hle (le_of_lt hp) (by norm_num)
  refine ⟨?_, hnn, by omega⟩
  unfold shl
  apply wrapInt_of_isGoInt
  unfold IsGoInt minInt maxInt
  constructor <;> omega

theorem bor_of_small (x y : Int) (hx0 : 0 ≤ x) (hx : x < 2 ^ 24) (hy0 : 0 ≤ y) (hy : y < 2 ^ 24) :
    0 ≤ bor x y ∧ bor x y < 2 ^ 24 := by
  unfold bor
  rw [toWord_of_nonneg x hx0 (by omega), toWord_of_nonneg y hy0 (by omega)]
  have h1 : x.toNat < 2 ^ 24 := by omega
  have h2 : y.toNat < 2 ^ 24 := by omega
  have h3 : Nat.lor x.toNat y.toNat < 2 ^ 24 := Nat.or_lt_two_pow h1 h2
  rw [ofWord_of_lt _ (by omega)]
  constructor <;> omega

theorem packRGB_range (r g b : Int) (hr : InComponentRange r) (hg : InComponentRange g)
    (hb : InComponentRange b) : 0 ≤ packRGB r g b ∧ packRGB r g b ≤ 16777215 := by
  unfold InComponentRange at hr hg hb
  unfold packRGB
  obtain ⟨e1, n1, u1⟩ := shl_of_small r 16 (by norm_num) hr.1 hr.2
  obtain ⟨e2, n2, u2⟩ := shl_of_small g 8 (by norm_num) hg.1 hg.2
  rw [e1, e2]
  obtain ⟨n3, u3⟩ := bor_of_small _ _ n1 u1 n2 u2
  obtain ⟨n4, u4⟩ := bor_of_small _ b n3 u3 hb.1 (by omega)
  constructor <;> omega

theorem clamp_component (x : Int) :
    clamp x 0 255 = (if x > 255 then 255 else if x < 0 then 0 else x) ∧
    InComponentRange (clamp x 0 255) := by
  unfold clamp InComponentRange
  split
  · omega
  · split <;> omega

theorem rgbToInt_switch (r g b : Int) :
    rgbToInt ⟨r, g, b⟩ =
      (if r > 255 then packRGB 255 g b
       else if g > 255 then packRGB r 255 b
       else if b > 255 then packRGB r g 255
       else if r < 0 then packRGB 0 g b
       else if g < 0 then packRGB r 0 b
       else if b < 0 then packRGB r g 0
       else packRGB r g b) := by
  unfold rgbToInt packRGB maxRGBValue minRGBValue
  simp only []
  split_ifs <;> rfl

/-- C18: when at most one component lies outside `[0, 255]`, `rgbToInt` returns the
packing of the three components each clamped to `[0, 255]`, a value in
`[0, 16777215]`.  In general the switch replaces the first component that matches,
in the order R>255, G>255, B>255, R<0, G<0, B<0, and packs the others as given. -/
theorem rgbToInt_of_at_most_one_out_of_range (r g b : Int) (h : AtMostOneOutOfRange r g b) :
    rgbToInt ⟨r, g, b⟩ = packClamped r g b ∧
    0 ≤ rgbToInt ⟨r, g, b⟩ ∧ rgbToInt ⟨r, g, b⟩ ≤ 16777215 ∧
    rgbToInt ⟨r, g, b⟩ =
      (if r > 255 then packRGB 255 g b
       else if g > 255 then packRGB r 255 b
       else if b > 255 then packRGB r g 255
       else if r < 0 then packRGB 0 g b
       else if g < 0 then packRGB r 0 b
       else if b < 0 then packRGB r g 0
       else packRGB r g b) := by
  have hpc : packClamped r g b = packRGB (clamp r 0 255) (clamp g 0 255) (clamp b 0 255) := rfl
  have hrange := packRGB_range _ _ _ (clamp_component r).2 (clamp_component g).2
    (clamp_component b).2
  have heq : rgbToInt ⟨r, g, b⟩ = packClamped r g b := by
    rw [hpc, rgbToInt_switch, (clamp_component r).1, (clamp_component g).1,
      (clamp_component b).1]
    unfold AtMostOneOutOfRange InComponentRange at h
    split_ifs <;> first | rfl | (exfalso; omega)
  rw [← hpc, ← heq] at hrange
  exact ⟨heq, hrange.1, hrange.2, rgbToInt_switch r g b⟩

/-- C18, at RGB(100, 200, 300), where only B is out of range. -/
theorem rgbToInt_of_at_most_one_out_of_range_witness :
    AtMostOneOutOfRange 100 200 300 ∧ rgbToInt ⟨100, 200, 300⟩ = packClamped 100 200 300 :=
  ⟨by unfold AtMostOneOutOfRange InComponentRange; omega,
   (rgbToInt_of_at_most_one_out_of_range 100 200 300
      (by unfold AtMostOneOutOfRange InComponentRange; omega)).1⟩

/-! ### Fields and members -/

/-- C13: the object of every field, one with empty name or value included, has the
keys "name" and "value", and has the key "inline" exactly when `Inline` is true;
`NewEmptyField` is written as `{"name":"","value":""}`. -/
theorem field_members (f : Field) :
    lit "name" ∈ keys f.members ∧ lit "value" ∈ keys f.members ∧
    (lit "inline" ∈ keys f.members ↔ f.Inline = true) ∧
    keys f.members = (if f.Inline then [lit "name", lit "value", lit "inline"]
      else [lit "name", lit "value"]) ∧
    encodeObject NewEmptyField.members = lit "\x7b\"name\":\"\",\"value\":\"\"\x7d" ∧
    encodeObject (NewField (lit "a") (lit "1") true).members =
      lit "\x7b\"name\":\"a\",\"value\":\"1\",\"inline\":true\x7d" := by
  have hk : keys f.members = (if f.Inline then [lit "name", lit "value", lit "inline"]
      else [lit "name", lit "value"]) := by
    cases hi : f.Inline <;>
      simp [keys, Field.members, stringMember, boolMemberOmitEmpty, hi]
  have h1 : lit "inline" ≠ lit "name" := by decide
  have h2 : lit "inline" ≠ lit "value" := by decide
  refine ⟨?_, ?_, ?_, hk, by decide, by decide⟩
  · rw [hk]; split <;> simp
  · rw [hk]; split <;> simp
  · rw [hk]
    cases hi : f.Inline <;> simp [h1, h2]

/-! ### The error body -/

/-- C16: the `Body` of the `DiscordError` returned for a response is the first
`min(len(b), 4096)` bytes of the response body `b`: at most 4096 bytes, and `b`
itself when `len(b) ≤ 4096`. -/
theorem error_body_is_bounded (post : GoString → GoString → Except GoString Response)
    (w : Webhook) (url : GoString) (resp : Response) (d : DiscordError)
    (h : post url (Marshal w) = .ok resp) (hd : w.Send post url = some (.discord d)) :
    d.Body = resp.Body.take (min resp.Body.length 4096) ∧ d.Body.length ≤ 4096 ∧
    (resp.Body.length ≤ 4096 → d.Body = resp.Body) := by
  have hb : d.Body = resp.Body.take 4096 := by
    rw [Send_of_response post w url resp h] at hd
    by_cases hs : resp.StatusCode ≠ StatusOK ∧ resp.StatusCode ≠ StatusNoContent
    · rw [if_pos hs] at hd
      have hd2 := SendError.discord.inj (Option.some.inj hd)
      rw [← hd2]
    · rw [if_neg hs] at hd
      exact absurd hd (by simp)
  refine ⟨?_, ?_, ?_⟩
  · rw [hb]
    by_cases hl : resp.Body.length ≤ 4096
    · rw [min_eq_left hl, List.take_length, List.take_of_length_le hl]
    · rw [min_eq_right (by omega)]
  · rw [hb, List.length_take]
    omega
  · intro hl
    rw [hb, List.take_of_length_le hl]

/-- C16, at a service that answers 500 with the body "oops". -/
theorem error_body_is_bounded_witness :
    NewWebhook.Send (fun _ _ => .ok ⟨500, [], lit "oops"⟩) (lit "http://host/hook")
      = some (.discord ⟨500, lit "oops", 0⟩) ∧
    (⟨500, lit "oops", 0⟩ : DiscordError).Body = lit "oops" :=
  ⟨by decide,
   (error_body_is_bounded (fun _ _ => .ok ⟨500, [], lit "oops"⟩) NewWebhook
      (lit "http://host/hook") ⟨500, [], lit "oops"⟩
      ⟨500, lit "oops", 0⟩ rfl (by decide)).2.2 (by decide)⟩

theorem mem_stringMemberOmitEmpty (key : String) (x k v : GoString) :
    (k, v) ∈ stringMemberOmitEmpty key x ↔ x ≠ [] ∧ k = lit key ∧ v = encodeString x := by
  unfold stringMemberOmitEmpty
  by_cases hx : x = []
  · simp [hx]
  · have hl : ¬ x.length = 0 := by simpa using hx
    simp [hl, hx]

theorem mem_intMemberOmitEmpty (key : String) (x : Int) (k v : GoString) :
    (k, v) ∈ intMemberOmitEmpty key x ↔ x ≠ 0 ∧ k = lit key ∧ v = encodeInt x := by
  unfold intMemberOmitEmpty
  by_cases hx : x = 0 <;> simp [hx]

theorem mem_boolMemberOmitEmpty (key : String) (x : Bool) (k v : GoString) :
    (k, v) ∈ boolMemberOmitEmpty key x ↔ x = true ∧ k = lit key ∧ v = encodeBool x := by
  unfold boolMemberOmitEmpty
  cases x <;> simp

theorem mem_sliceMemberOmitEmpty (key : String) (xs : List GoString) (k v : GoString) :
    (k, v) ∈ sliceMemberOmitEmpty key xs ↔ xs ≠ [] ∧ k = lit key ∧ v = encodeArray xs := by
  unfold sliceMemberOmitEmpty
  by_cases hx : xs = []
  · simp [hx]
  · have hl : ¬ xs.length = 0 := by simpa using hx
    simp [hl, hx]

theorem mem_structMemberOmitEmpty (key : String) (ms : List Member) (k v : GoString) :
    (k, v) ∈ structMemberOmitEmpty key ms ↔ k = lit key ∧ v = encodeObject ms := by
  unfold structMemberOmitEmpty
  simp

theorem mem_keys (members : List Member) (k : GoString) :
    k ∈ keys members ↔ ∃ v, (k, v) ∈ members := by
  unfold keys
  simp

theorem mem_webhook_members (w : Webhook) (k v : GoString) :
    (k, v) ∈ w.members ↔
      (w.Content ≠ [] ∧ k = lit "content" ∧ v = encodeString w.Content) ∨
      (w.Username ≠ [] ∧ k = lit "username" ∧ v = encodeString w.Username) ∨
      (w.AvatarURL ≠ [] ∧ k = lit "avatar_url" ∧ v = encodeString w.AvatarURL) ∨
      (w.TTS = true ∧ k = lit "tts" ∧ v = encodeBool w.TTS) ∨
      (w.Embeds ≠ [] ∧ k = lit "embeds" ∧
        v = encodeArray (w.Embeds.map (fun e => encodeObject e.members))) := by
  unfold Webhook.members
  simp only [List.mem_append, mem_stringMemberOmitEmpty, mem_boolMemberOmitEmpty,
    mem_sliceMemberOmitEmpty, or_assoc]
  simp

theorem mem_embed_members (e : Embed) (k v : GoString) :
    (k, v) ∈ e.members ↔
      (e.Title ≠ [] ∧ k = lit "title" ∧ v = encodeString e.Title) ∨
      (e.Description ≠ [] ∧ k = lit "description" ∧ v = encodeString e.Description) ∨
      (e.URL ≠ [] ∧ k = lit "url" ∧ v = encodeString e.URL) ∨
      (e.Timestamp ≠ [] ∧ k = lit "timestamp" ∧ v = encodeString e.Timestamp) ∨
      (e.Color ≠ 0 ∧ k = lit "color" ∧ v = encodeInt e.Color) ∨
      (k = lit "footer" ∧ v = encodeObject e.Footer.members) ∨
      (k = lit "image" ∧ v = encodeObject e.Image.members) ∨
      (k = lit "thumbnail" ∧ v = encodeObject e.Thumbnail.members) ∨
      (k = lit "author" ∧ v = encodeObject e.Author.members) ∨
      (e.Fields ≠ [] ∧ k = lit "fields" ∧
        v = encodeArray (e.Fields.map (fun f => encodeObject f.members))) := by
  unfold Embed.members
  simp only [List.mem_append, mem_stringMemberOmitEmpty, mem_intMemberOmitEmpty,
    mem_structMemberOmitEmpty, mem_sliceMemberOmitEmpty, or_assoc]
  simp

/-! ### Reading the serialized values back -/

theorem byte_eq_of_toNat (b : UInt8) (n : Nat) (h : b.toNat = n) : b = UInt8.ofNat n := by
  rw [← h, byte_ofNat_toNat]

theorem unquote_copy (c : UInt8) (X : GoString) (h1 : 0x20 ≤ c.toNat) (h2 : c.toNat ≠ 0x22)
    (h3 : c.toNat ≠ 0x5c) : unquote (c :: X) = (unquote X).map (fun s => c :: s) := by
  have e1 : c ≠ 0x22 := fun h => h2 (by rw [h]; rfl)
  have e2 : c ≠ 0x5c := fun h => h3 (by rw [h]; rfl)
  rw [unquote.eq_def]
  simp only [if_neg e1, if_neg e2, if_neg (show ¬ c.toNat < 0x20 by omega)]

theorem unquote_letter (l b : UInt8) (X : GoString) (hl : escapeLetter l = some b) :
    unquote (0x5c :: l :: X) = (unquote X).map (fun s => b :: s) := by
  have hu : l ≠ 0x75 := by
    intro h
    rw [h] at hl
    have hn : escapeLetter 0x75 = none := by decide
    rw [hn] at hl
    exact absurd hl (by simp)
  have e1 : (0x5c : UInt8) ≠ 0x22 := by decide
  rw [unquote.eq_def]
  simp only [if_neg e1, if_true, if_neg hu, hl]

theorem unquote_hex (h3 h2 h1 h0 : UInt8) (bs X : GoString)
    (h : (hex4 h3 h2 h1 h0).bind utf8OfBMP = some bs) :
    unquote (0x5c :: 0x75 :: h3 :: h2 :: h1 :: h0 :: X)
      = (unquote X).map (fun s => bs ++ s) := by
  have e1 : (0x5c : UInt8) ≠ 0x22 := by decide
  rw [unquote.eq_def]
  simp only [if_neg e1, if_true, h]

theorem hex4_of_byte :
    ∀ n : Fin 128,
      (hex4 0x30 0x30 (hexChar (n.val / 16)) (hexChar (n.val % 16))).bind utf8OfBMP
        = some [UInt8.ofNat n.val] := by
  decide

theorem unquote_escapeByte (b : UInt8) (X : GoString) (hb : b.toNat < 0x80) :
    unquote (escapeByte b ++ X) = (unquote X).map (fun s => b :: s) := by
  unfold escapeByte
  simp only []
  split_ifs with c1 c2 c3 c4 c5 c6 c7
  · exact unquote_copy b X c1.1 c1.2.1 c1.2.2.2.2.2
  · rcases c2 with h | h
    · have hb2 := byte_eq_of_toNat b _ h
      subst hb2
      exact unquote_letter _ _ X (by decide)
    · have hb2 := byte_eq_of_toNat b _ h
      subst hb2
      exact unquote_letter _ _ X (by decide)
  · have hb2 := byte_eq_of_toNat b _ c3
    subst hb2
    exact unquote_letter _ _ X (by decide)
  · have hb2 := byte_eq_of_toNat b _ c4
    subst hb2
    exact unquote_letter _ _ X (by decide)
  · have hb2 := byte_eq_of_toNat b _ c5
    subst hb2
    exact unquote_letter _ _ X (by decide)
  · have hb2 := byte_eq_of_toNat b _ c6
    subst hb2
    exact unquote_letter _ _ X (by decide)
  · have hb2 := byte_eq_of_toNat b _ c7
    subst hb2
    exact unquote_letter _ _ X (by decide)
  · have h := hex4_of_byte ⟨b.toNat, hb⟩
    simp only [byte_ofNat_toNat] at h
    exact unquote_hex _ _ _ _ _ X h

theorem decodeRune_two (b0 b1 : UInt8) (rest : GoString) (h : twoByte b0 b1 = true) :
    decodeRune b0 (b1 :: rest) = ((b0.toNat % 32) * 64 + b1.toNat % 64, 2) := by
  simp only [twoByte, isContinuation, Bool.and_eq_true, decide_eq_true_eq] at h
  obtain ⟨⟨h1, h2⟩, h3, h4⟩ := h
  unfold decodeRune
  simp only [List.getD_cons_zero, List.length_cons]
  rw [if_pos ⟨h1, h2⟩]
  simp only []
  rw [if_neg (by omega), if_neg (by omega), if_pos (by omega)]

theorem decodeRune_three (b0 b1 b2 : UInt8) (rest : GoString) (h : threeByte b0 b1 b2 = true) :
    decodeRune b0 (b1 :: b2 :: rest)
      = ((b0.toNat % 16) * 4096 + (b1.toNat % 64) * 64 + b2.toNat % 64, 3) := by
  simp only [threeByte, isContinuation, Bool.and_eq_true, Bool.or_eq_true,
    decide_eq_true_eq] at h
  obtain ⟨hlead, h3, h4⟩ := h
  unfold decodeRune
  simp only [List.getD_cons_zero, List.getD_cons_succ, List.length_cons]
  rcases hlead with ((hl | hl) | hl) | hl
  · rw [if_neg (by omega), if_pos hl.1]
    simp only []
    rw [if_neg (by omega), if_neg (by omega), if_neg (by omega), if_neg (by omega),
      if_pos (by omega)]
  · rw [if_neg (by omega), if_neg (by omega), if_neg (by omega), if_pos (by omega)]
    simp only []
    rw [if_neg (by omega), if_neg (by omega), if_neg (by omega), if_neg (by omega),
      if_pos (by omega)]
  · rw [if_neg (by omega), if_neg (by omega), if_pos hl.1]
    simp only []
    rw [if_neg (by omega), if_neg (by omega), if_neg (by omega), if_neg (by omega),
      if_pos (by omega)]
  · rw [if_neg (by omega), if_neg (by omega), if_neg (by omega), if_pos (by omega)]
    simp only []
    rw [if_neg (by omega), if_neg (by omega), if_neg (by omega), if_neg (by omega),
      if_pos (by omega)]

theorem decodeRune_four (b0 b1 b2 b3 : UInt8) (rest : GoString)
    (h : fourByte b0 b1 b2 b3 = true) :
    decodeRune b0 (b1 :: b2 :: b3 :: rest)
      = ((b0.toNat % 8) * 262144 + (b1.toNat % 64) * 4096 + (b2.toNat % 64) * 64
          + b3.toNat % 64, 4) := by
  simp only [fourByte, isContinuation, Bool.and_eq_true, Bool.or_eq_true,
    decide_eq_true_eq] at h
  obtain ⟨⟨hlead, h3, h4⟩, h5, h6⟩ := h
  unfold decodeRune
  simp only [List.getD_cons_zero, List.getD_cons_succ, List.length_cons]
  rcases hlead with (hl | hl) | hl
  · rw [if_neg (by omega), if_neg (by omega), if_neg (by omega), if_neg (by omega),
      if_pos hl.1]
    simp only []
    rw [if_neg (by omega), if_neg (by omega), if_neg (by omega), if_neg (by omega),
      if_neg (by omega), if_neg (by omega)]
  · rw [if_neg (by omega), if_neg (by omega), if_neg (by omega), if_neg (by omega),
      if_neg (by omega), if_pos (by omega)]
    simp only []
    rw [if_neg (by omega), if_neg (by omega), if_neg (by omega), if_neg (by omega),
      if_neg (by omega), if_neg (by omega)]
  · rw [if_neg (by omega), if_neg (by omega), if_neg (by omega), if_neg (by omega),
      if_neg (by omega), if_neg (by omega), if_pos hl.1]
    simp only []
    rw [if_neg (by omega), if_neg (by omega), if_neg (by omega), if_neg (by omega),
      if_neg (by omega), if_neg (by omega)]

theorem appendStringLoop_low (fuel : Nat) (b : UInt8) (rest : GoString)
    (h : b.toNat < 0x80) :
    appendStringLoop (fuel + 1) (b :: rest) = escapeByte b ++ appendStringLoop fuel rest := by
  rw [appendStringLoop, if_pos h]

theorem appendStringLoop_high (fuel : Nat) (b : UInt8) (rest : GoString) (v k : Nat)
    (h : ¬ b.toNat < 0x80) (hr : decodeRune b rest = (v, k)) (hk : k ≠ 1) :
    appendStringLoop (fuel + 1) (b :: rest) =
      if v = 0x2028 ∨ v = 0x2029 then
        [0x5c, 0x75, 0x32, 0x30, 0x32, hexChar (v % 16)]
          ++ appendStringLoop fuel (rest.drop (k - 1))
      else (b :: rest).take k ++ appendStringLoop fuel (rest.drop (k - 1)) := by
  rw [appendStringLoop, if_neg h]
  simp only [hr]
  rw [if_neg (fun hc => hk hc.2)]

theorem map_cons_map (o : Option GoString) (b : UInt8) (s : GoString) :
    (o.map (fun t => s ++ t)).map (fun t => b :: t) = o.map (fun t => (b :: s) ++ t) := by
  cases o <;> rfl

theorem map_append_map (o : Option GoString) (p s : GoString) :
    (o.map (fun t => s ++ t)).map (fun t => p ++ t) = o.map (fun t => (p ++ s) ++ t) := by
  cases o with
  | none => rfl
  | some t => simp

theorem lineSeparator_escape :
    (hex4 0x32 0x30 0x32 (hexChar (0x2028 % 16))).bind utf8OfBMP = some [0xE2, 0x80, 0xA8] ∧
    (hex4 0x32 0x30 0x32 (hexChar (0x2029 % 16))).bind utf8OfBMP = some [0xE2, 0x80, 0xA9] := by
  decide

/-- The reader undoes `appendString` on well-formed UTF-8: the text written for `s`,
followed by any text `X`, is read as `s` followed by what `X` is read as. -/
theorem unquote_appendStringLoop :
    ∀ (n : Nat) (s : GoString), s.length ≤ n → validUTF8 s = true →
      ∀ (fuel : Nat) (X : GoString), s.length ≤ fuel →
        unquote (appendStringLoop fuel s ++ X) = (unquote X).map (fun t => s ++ t) := by
  intro n
  induction n using Nat.strong_induction_on with
  | _ n ih =>
    intro s hn hv fuel X hf
    match s, fuel, hn, hv, hf with
    | [], fuel, _, _, _ =>
      have h0 : appendStringLoop fuel [] = [] := by cases fuel <;> rfl
      rw [h0]
      show unquote X = _
      cases unquote X <;> rfl
    | b0 :: rest, fuel + 1, hn, hv, hf =>
      have hlen : rest.length < n := by simp at hn; omega
      have hfl : rest.length ≤ fuel := by simp at hf; omega
      by_cases hb : b0.toNat < 0x80
      · rw [validUTF8.eq_def] at hv
        simp only [if_pos hb] at hv
        rw [appendStringLoop_low fuel b0 rest hb, List.append_assoc,
          unquote_escapeByte b0 _ hb, ih rest.length hlen rest (Nat.le_refl _) hv fuel X hfl,
          map_cons_map]
      · rw [validUTF8.eq_def] at hv
        simp only [if_neg hb] at hv
        match rest, hv, hlen, hfl with
        | b1 :: rest1, hv, hlen, hfl =>
          simp only [] at hv
          have hlen1 : rest1.length < n := by simp at hlen; omega
          have hfl1 : rest1.length ≤ fuel := by simp at hfl; omega
          by_cases h2 : twoByte b0 b1 = true
          · rw [if_pos h2] at hv
            have hd := decodeRune_two b0 b1 rest1 h2
            simp only [twoByte, isContinuation, Bool.and_eq_true, decide_eq_true_eq] at h2
            rw [appendStringLoop_high fuel b0 _ _ _ hb hd (by decide),
              if_neg (by omega)]
            show unquote (b0 :: b1 :: (appendStringLoop fuel rest1 ++ X)) = _
            rw [unquote_copy b0 _ (by omega) (by omega) (by omega),
              unquote_copy b1 _ (by omega) (by omega) (by omega),
              ih rest1.length hlen1 rest1 (Nat.le_refl _) hv fuel X hfl1,
              map_cons_map, map_cons_map]
          · rw [if_neg h2] at hv
            match rest1, hv, hlen1, hfl1 with
            | b2 :: rest2, hv, hlen1, hfl1 =>
              simp only [] at hv
              have hlen2 : rest2.length < n := by simp at hlen1; omega
              have hfl2 : rest2.length ≤ fuel := by simp at hfl1; omega
              by_cases h3 : threeByte b0 b1 b2 = true
              · rw [if_pos h3] at hv
                have hd := decodeRune_three b0 b1 b2 rest2 h3
                simp only [threeByte, isContinuation, Bool.and_eq_true, Bool.or_eq_true,
                  decide_eq_true_eq] at h3
                obtain ⟨hlead, h3a, h3b⟩ := h3
                rw [appendStringLoop_high fuel b0 _ _ _ hb hd (by decide)]
                have hrec := ih rest2.length hlen2 rest2 (Nat.le_refl _) hv fuel X hfl2
                by_cases hls : (b0.toNat % 16) * 4096 + (b1.toNat % 64) * 64 + b2.toNat % 64
                    = 0x2028
                · rw [if_pos (Or.inl hls), hls]
                  have e0 : b0 = 0xE2 := byte_eq_of_toNat b0 0xE2 (by omega)
                  have e1 : b1 = 0x80 := byte_eq_of_toNat b1 0x80 (by omega)
                  have e2 : b2 = 0xA8 := byte_eq_of_toNat b2 0xA8 (by omega)
                  show unquote (0x5c :: 0x75 :: 0x32 :: 0x30 :: 0x32 :: hexChar (0x2028 % 16)
                    :: (appendStringLoop fuel rest2 ++ X)) = _
                  rw [unquote_hex _ _ _ _ _ _ lineSeparator_escape.1, hrec, map_append_map,
                    e0, e1, e2]
                  rfl
                · by_cases hps : (b0.toNat % 16) * 4096 + (b1.toNat % 64) * 64
                      + b2.toNat % 64 = 0x2029
                  · rw [if_pos (Or.inr hps), hps]
                    have e0 : b0 = 0xE2 := byte_eq_of_toNat b0 0xE2 (by omega)
                    have e1 : b1 = 0x80 := byte_eq_of_toNat b1 0x80 (by omega)
                    have e2 : b2 = 0xA9 := byte_eq_of_toNat b2 0xA9 (by omega)
                    show unquote (0x5c :: 0x75 :: 0x32 :: 0x30 :: 0x32
                      :: hexChar (0x2029 % 16) :: (appendStringLoop fuel rest2 ++ X)) = _
                    rw [unquote_hex _ _ _ _ _ _ lineSeparator_escape.2, hrec, map_append_map,
                      e0, e1, e2]
                    rfl
                  · rw [if_neg (by omega)]
                    show unquote (b0 :: b1 :: b2 :: (appendStringLoop fuel rest2 ++ X)) = _
                    rw [unquote_copy b0 _ (by omega) (by omega) (by omega),
                      unquote_copy b1 _ (by omega) (by omega) (by omega),
                      unquote_copy b2 _ (by omega) (by omega) (by omega),
                      hrec, map_cons_map, map_cons_map, map_cons_map]
              · rw [if_neg h3] at hv
                match rest2, hv, hlen2, hfl2 with
                | b3 :: rest3, hv, hlen2, hfl2 =>
                  simp only [Bool.and_eq_true] at hv
                  obtain ⟨h4, hv⟩ := hv
                  have hlen3 : rest3.length < n := by simp at hlen2; omega
                  have hfl3 : rest3.length ≤ fuel := by simp at hfl2; omega
                  have hd := decodeRune_four b0 b1 b2 b3 rest3 h4
                  simp only [fourByte, isContinuation, Bool.and_eq_true, Bool.or_eq_true,
                    decide_eq_true_eq] at h4
                  obtain ⟨⟨hlead, h4a, h4b⟩, h4c, h4d⟩ := h4
                  rw [appendStringLoop_high fuel b0 _ _ _ hb hd (by decide),
                    if_neg (by omega)]
                  show unquote (b0 :: b1 :: b2 :: b3 :: (appendStringLoop fuel rest3 ++ X)) = _
                  rw [unquote_copy b0 _ (by omega) (by omega) (by omega),
                    unquote_copy b1 _ (by omega) (by omega) (by omega),
                    unquote_copy b2 _ (by omega) (by omega) (by omega),
                    unquote_copy b3 _ (by omega) (by omega) (by omega),
                    ih rest3.length hlen3 rest3 (Nat.le_refl _) hv fuel X hfl3,
                    map_cons_map, map_cons_map, map_cons_map, map_cons_map]

/-- Reading the JSON text written for a well-formed UTF-8 string gives the string. -/
theorem jsonStringValue_encodeString (s : GoString) (h : validUTF8 s = true) :
    jsonStringValue (encodeString s) = some s := by
  have hq : unquote [0x22] = some [] := by decide
  have key := unquote_appendStringLoop s.length s (Nat.le_refl _) h s.length [0x22]
    (Nat.le_refl _)
  rw [hq] at key
  show (if (0x22 : UInt8) = 0x22 then unquote (appendStringLoop s.length s ++ [0x22]) else none)
    = some s
  rw [if_pos rfl, key]
  simp

theorem decDigitValue_digitChar :
    ∀ k : Fin 10, decDigitValue (Nat.digitChar k.val).toNat.toUInt8 = some k.val := by
  decide

theorem posValue_append (base : Nat) (digit : UInt8 → Option Nat) (a b : GoString) (n : Nat) :
    posValue base digit (a ++ b) n = posValue base digit b (posValue base digit a n) := by
  unfold posValue
  rw [List.foldl_append]

theorem toDigitsCore_spec :
    ∀ (fuel n : Nat) (ds : List Char), n < fuel →
      ∃ pre : GoString,
        (Nat.toDigitsCore 10 fuel n ds).map (fun c => c.toNat.toUInt8)
          = pre ++ ds.map (fun c => c.toNat.toUInt8) ∧
        pre ≠ [] ∧ (∀ c ∈ pre, (decDigitValue c).isSome = true) ∧
        posValue 10 decDigitValue pre 0 = n := by
  intro fuel
  induction fuel with
  | zero => intro n ds h; omega
  | succ fuel ih =>
    intro n ds hn
    have hdig := decDigitValue_digitChar ⟨n % 10, Nat.mod_lt n (by norm_num)⟩
    simp only at hdig
    unfold Nat.toDigitsCore
    simp only []
    by_cases h0 : n / 10 = 0
    · rw [if_pos h0]
      refine ⟨[(Nat.digitChar (n % 10)).toNat.toUInt8], rfl, by simp, ?_, ?_⟩
      · intro c hc
        have : c = (Nat.digitChar (n % 10)).toNat.toUInt8 := by simpa using hc
        rw [this, hdig]
        rfl
      · show 0 * 10 + (decDigitValue (Nat.digitChar (n % 10)).toNat.toUInt8).getD 0 = n
        rw [hdig]
        simp only [Option.getD_some]
        omega
    · rw [if_neg h0]
      obtain ⟨pre, h1, h2, h3, h4⟩ := ih (n / 10) (Nat.digitChar (n % 10) :: ds) (by omega)
      refine ⟨pre ++ [(Nat.digitChar (n % 10)).toNat.toUInt8], ?_, by simp, ?_, ?_⟩
      · rw [h1]
        simp
      · intro c hc
        rcases List.mem_append.mp hc with h | h
        · exact h3 c h
        · have : c = (Nat.digitChar (n % 10)).toNat.toUInt8 := by simpa using h
          rw [this, hdig]
          rfl
      · rw [posValue_append, h4]
        show n / 10 * 10 + (decDigitValue (Nat.digitChar (n % 10)).toNat.toUInt8).getD 0 = n
        rw [hdig]
        simp only [Option.getD_some]
        omega

theorem decimalDigits_spec (n : Nat) :
    decimalDigits n ≠ [] ∧ (∀ c ∈ decimalDigits n, (decDigitValue c).isSome = true) ∧
    posValue 10 decDigitValue (decimalDigits n) 0 = n := by
  obtain ⟨pre, h1, h2, h3, h4⟩ := toDigitsCore_spec (n + 1) n [] (by omega)
  have hd : decimalDigits n = pre := by
    unfold decimalDigits Nat.toDigits
    rw [h1]
    simp
  rw [hd]
  exact ⟨h2, h3, h4⟩

theorem decimalNatural_decimalDigits (n : Nat) : decimalNatural (decimalDigits n) = some n := by
  obtain ⟨h1, h2, h3⟩ := decimalDigits_spec n
  unfold decimalNatural
  rw [if_pos ⟨h1, by simpa [List.all_eq_true] using h2⟩, h3]

/-- Reading the JSON text written for a Go `int` gives the integer. -/
theorem decimalInteger_encodeInt (n : Int) : decimalInteger (encodeInt n) = some n := by
  obtain ⟨h1, h2, _⟩ := decimalDigits_spec n.natAbs
  have hnat := decimalNatural_decimalDigits n.natAbs
  unfold encodeInt
  by_cases hneg : n < 0
  · rw [if_pos hneg]
    show decimalInteger (0x2d :: decimalDigits n.natAbs) = some n
    unfold decimalInteger
    simp only []
    rw [if_neg (by decide), if_pos trivial, hnat]
    show some (-Int.ofNat n.natAbs) = some n
    congr 1
    show -((n.natAbs : Nat) : Int) = n
    omega
  · rw [if_neg hneg]
    show decimalInteger ([] ++ decimalDigits n.natAbs) = some n
    rw [List.nil_append]
    match hd : decimalDigits n.natAbs, h1, h2 with
    | c :: rest, _, h2 =>
      have hc := h2 c (List.mem_cons_self c rest)
      have hplus : c ≠ 0x2b := by
        intro h
        rw [h] at hc
        exact absurd hc (by decide)
      have hminus : c ≠ 0x2d := by
        intro h
        rw [h] at hc
        exact absurd hc (by decide)
      unfold decimalInteger
      simp only []
      rw [if_neg hplus, if_neg hminus, ← hd, hnat]
      show some (Int.ofNat n.natAbs) = some n
      congr 1
      show ((n.natAbs : Nat) : Int) = n
      omega

/-- C12 as stated fails for a string that is not well-formed UTF-8: the value of the
key is then not the field's value.  The messages whose `Content` is the single byte
`0xff` and the single byte `0xfe` differ, both have the key "content", and both are
serialized as the same text, in which "content" has the value U+FFFD. -/
theorem invalid_utf8_content_is_replaced :
    (NewWebhook.SetContent [0xff]).Content ≠ (NewWebhook.SetContent [0xfe]).Content ∧
    lit "content" ∈ keys (NewWebhook.SetContent [0xff]).members ∧
    (NewWebhook.SetContent [0xff]).members = [(lit "content", [0x22, 0xEF, 0xBF, 0xBD, 0x22])] ∧
    (NewWebhook.SetContent [0xfe]).members = [(lit "content", [0x22, 0xEF, 0xBF, 0xBD, 0x22])] ∧
    jsonStringValue [0x22, 0xEF, 0xBF, 0xBD, 0x22] = some [0xEF, 0xBF, 0xBD] ∧
    jsonStringValue [0x22, 0xEF, 0xBF, 0xBD, 0x22] ≠ some (NewWebhook.SetContent [0xff]).Content ∧
    validUTF8 [0xff] = false ∧
    Marshal (NewWebhook.SetContent [0xff]) = Marshal (NewWebhook.SetContent [0xfe]) := by
  decide

/-- C12, amended: in the object of a message the keys "content", "username" and
"avatar_url" are present exactly when the string is non-empty, "tts" exactly when it
is true, "embeds" exactly when the sequence is non-empty; in the object of an embed
"title", "description", "url" and "timestamp" are present exactly when non-empty,
"color" exactly when non-zero, "fields" exactly when the sequence is non-empty, so
never after `ClearFields`.  The value of a key that is present is the field's
value: for a string that is well-formed UTF-8 the JSON string that denotes it, for
"color" the numeral of the integer, for "tts" `true`, and for "embeds" and "fields"
the array of the objects of the entries in order. -/
theorem omit_when_zero (w : Webhook) (e : Embed) :
    ((lit "content" ∈ keys w.members ↔ w.Content ≠ []) ∧
      ∀ v, (lit "content", v) ∈ w.members → validUTF8 w.Content = true →
        jsonStringValue v = some w.Content) ∧
    ((lit "username" ∈ keys w.members ↔ w.Username ≠ []) ∧
      ∀ v, (lit "username", v) ∈ w.members → validUTF8 w.Username = true →
        jsonStringValue v = some w.Username) ∧
    ((lit "avatar_url" ∈ keys w.members ↔ w.AvatarURL ≠ []) ∧
      ∀ v, (lit "avatar_url", v) ∈ w.members → validUTF8 w.AvatarURL = true →
        jsonStringValue v = some w.AvatarURL) ∧
    ((lit "tts" ∈ keys w.members ↔ w.TTS = true) ∧
      ∀ v, (lit "tts", v) ∈ w.members → v = lit "true") ∧
    ((lit "embeds" ∈ keys w.members ↔ w.Embeds ≠ []) ∧
      ∀ v, (lit "embeds", v) ∈ w.members →
        v = [0x5b] ++ joinComma (w.Embeds.map (fun x => encodeObject x.members)) ++ [0x5d]) ∧
    ((lit "title" ∈ keys e.members ↔ e.Title ≠ []) ∧
      ∀ v, (lit "title", v) ∈ e.members → validUTF8 e.Title = true →
        jsonStringValue v = some e.Title) ∧
    ((lit "description" ∈ keys e.members ↔ e.Description ≠ []) ∧
      ∀ v, (lit "description", v) ∈ e.members → validUTF8 e.Description = true →
        jsonStringValue v = some e.Description) ∧
    ((lit "url" ∈ keys e.members ↔ e.URL ≠ []) ∧
      ∀ v, (lit "url", v) ∈ e.members → validUTF8 e.URL = true →
        jsonStringValue v = some e.URL) ∧
    ((lit "timestamp" ∈ keys e.members ↔ e.Timestamp ≠ []) ∧
      ∀ v, (lit "timestamp", v) ∈ e.members → validUTF8 e.Timestamp = true →
        jsonStringValue v = some e.Timestamp) ∧
    ((lit "color" ∈ keys e.members ↔ e.Color ≠ 0) ∧
      ∀ v, (lit "color", v) ∈ e.members → decimalInteger v = some e.Color) ∧
    ((lit "fields" ∈ keys e.members ↔ e.Fields ≠ []) ∧
      ∀ v, (lit "fields", v) ∈ e.members →
        v = [0x5b] ++ joinComma (e.Fields.map (fun f => encodeObject f.members)) ++ [0x5d]) ∧
    lit "fields" ∉ keys e.ClearFields.members := by
  refine ⟨⟨?_, ?_⟩, ⟨?_, ?_⟩, ⟨?_, ?_⟩, ⟨?_, ?_⟩, ⟨?_, ?_⟩, ⟨?_, ?_⟩, ⟨?_, ?_⟩, ⟨?_, ?_⟩,
    ⟨?_, ?_⟩, ⟨?_, ?_⟩, ⟨?_, ?_⟩, ?_⟩
  all_goals first
    | (simp +decide only [mem_keys, mem_webhook_members, mem_embed_members, false_and, and_false,
        or_false, false_or, true_and, and_true, exists_eq_right, exists_eq, exists_const,
        exists_and_left, exists_and_right, ne_eq, not_false_eq_true, Embed.ClearFields,
        not_true_eq_false]; done)
    | (intro v hv hvalid
       simp +decide only [mem_webhook_members, mem_embed_members, false_and, and_false,
         or_false, false_or, true_and, and_true, ne_eq] at hv
       rw [hv.2]
       exact jsonStringValue_encodeString _ hvalid)
    | (intro v hv
       simp +decide only [mem_webhook_members, mem_embed_members, false_and, and_false,
         or_false, false_or, true_and, and_true, ne_eq] at hv
       first
         | (rw [hv.2]; exact decimalInteger_encodeInt _)
         | exact hv.2
         | (rw [hv.2, hv.1]; rfl))

/-- C12, amended, at the message with the content "héllo wörld". -/
theorem omit_when_zero_witness :
    (lit "content", encodeString (lit "héllo wörld"))
      ∈ (NewWebhook.SetContent (lit "héllo wörld")).members ∧
    validUTF8 (NewWebhook.SetContent (lit "héllo wörld")).Content = true ∧
    jsonStringValue (encodeString (lit "héllo wörld"))
      = some (NewWebhook.SetContent (lit "héllo wörld")).Content :=
  ⟨by decide, by decide,
   (omit_when_zero (NewWebhook.SetContent (lit "héllo wörld")) NewEmbed).1.2
     (encodeString (lit "héllo wörld")) (by decide) (by decide)⟩

/-! ### Pointers and slices -/

theorem assign_call (cell : EmbedCell) (c : EmbedCall) (fs : List Field)
    (h1 : addedField c = none) (h2 : c ≠ .clearFields) :
    (cell.assign ((cell.toEmbed []).call c)).toEmbed fs = (cell.toEmbed fs).call c := by
  cases c with
  | addField field => simp [addedField] at h1
  | clearFields => exact absurd rfl h2
  | setColorInt color =>
    simp only [Embed.call, Embed.SetColorInt, EmbedCell.toEmbed]
    split
    · rfl
    · split <;> rfl
  | setColorHex hex =>
    simp only [Embed.call, Embed.SetColorHex, EmbedCell.toEmbed]
    cases (hexToColorInt hex).2 <;> rfl
  | _ =>
    simp only [Embed.call, Embed.SetTitle, Embed.SetDescription, Embed.SetURL,
      Embed.SetColorRGB, Embed.SetFooter, Embed.SetTimestamp, Embed.SetTimestampNow,
      Embed.SetAuthorName, Embed.SetAuthorURL, Embed.SetAuthorIcon, Embed.SetImage,
      Embed.SetThumbnail, EmbedCell.toEmbed, EmbedCell.assign]

theorem elems_of_len_zero (m : Machine) (s : FieldSlice) (h : s.len = 0) : m.elems s = [] := by
  unfold Machine.elems
  rw [h]
  rfl

theorem take_set_of_le {α : Type} (l : List α) (a : α) (k n : Nat) (h : k ≤ n) :
    (l.set n a).take k = l.take k := by
  rcases Nat.lt_or_eq_of_le h with hlt | heq
  · exact List.take_set_of_lt a l hlt
  · subst heq
    induction l generalizing k with
    | nil => simp
    | cons x xs ih =>
      cases k with
      | zero => simp
      | succ k => simp [List.set, ih k (Nat.le_refl k)]

theorem take_succ_set {α : Type} (l : List α) (a : α) (n : Nat) (h : n < l.length) :
    (l.set n a).take (n + 1) = l.take n ++ [a] := by
  induction l generalizing n with
  | nil => simp at h
  | cons x xs ih =>
    cases n with
    | zero => simp
    | succ n =>
      have h1 : n < xs.length := by simpa using h
      simp [List.set, ih n h1]

theorem append_spec (growth : FieldSlice → Nat) (m : Machine) (s : FieldSlice) (f : Field)
    (hwf : s.WF m) :
    (m.append growth s f).1.elems (m.append growth s f).2 = m.elems s ++ [f] ∧
    (m.append growth s f).2.WF (m.append growth s f).1 ∧
    (m.append growth s f).2.len = s.len + 1 ∧
    (m.append growth s f).2.cap ≠ 0 ∧
    (((m.append growth s f).2.arr = s.arr ∧ s.cap ≠ 0) ∨
      (m.append growth s f).2.arr = m.nextArray) ∧
    (∀ t : FieldSlice, t.WF m → (s.len < s.cap → t.arr = s.arr → t.len ≤ s.len) →
      (m.append growth s f).1.elems t = m.elems t) := by
  obtain ⟨hlen, hcap⟩ := hwf
  by_cases hlt : s.len < s.cap
  · have hdef : m.append growth s f =
        ({ m with arrays := Function.update m.arrays s.arr ((m.arrays s.arr).set s.len f) },
         { s with len := s.len + 1 }) := by
      unfold Machine.append
      rw [if_pos hlt]
    rw [hdef]
    have hc0 : s.cap ≠ 0 := by omega
    obtain ⟨harr, hlenarr⟩ := hcap hc0
    refine ⟨?_, ?_, rfl, hc0, Or.inl ⟨rfl, hc0⟩, ?_⟩
    · simp only [Machine.elems, Function.update_same]
      exact take_succ_set _ f s.len (by omega)
    · refine ⟨by show s.len + 1 ≤ s.cap; omega, fun _ => ⟨harr, ?_⟩⟩
      show s.cap ≤ (Function.update m.arrays s.arr ((m.arrays s.arr).set s.len f) s.arr).length
      rw [Function.update_same, List.length_set]
      exact hlenarr
    · intro t _ hts
      by_cases hta : t.arr = s.arr
      · have hle := hts hlt hta
        show List.take t.len (Function.update m.arrays s.arr ((m.arrays s.arr).set s.len f)
          t.arr) = List.take t.len (m.arrays t.arr)
        rw [hta, Function.update_same]
        exact take_set_of_le _ f t.len s.len hle
      · simp only [Machine.elems, Function.update_noteq hta]
  · have hdef : m.append growth s f =
        ({ m with
            arrays := Function.update m.arrays m.nextArray
              ((m.arrays s.arr).take s.len ++ [f] ++ List.replicate (growth s) NewEmptyField),
            nextArray := m.nextArray + 1 },
         { arr := m.nextArray, len := s.len + 1, cap := s.len + 1 + growth s }) := by
      unfold Machine.append
      rw [if_neg hlt]
    rw [hdef]
    have hk : s.len ≤ (m.arrays s.arr).length := by
      by_cases hc0 : s.cap = 0
      · omega
      · have := (hcap hc0).2
        omega
    refine ⟨?_, ?_, rfl, by show s.len + 1 + growth s ≠ 0; omega, Or.inr rfl, ?_⟩
    · simp only [Machine.elems, Function.update_same]
      apply List.take_left'
      simp [List.length_take, Nat.min_eq_left hk]
    · refine ⟨by show s.len + 1 ≤ s.len + 1 + growth s; omega, fun _ => ⟨?_, ?_⟩⟩
      · show m.nextArray < m.nextArray + 1
        omega
      · show s.len + 1 + growth s ≤ (Function.update m.arrays m.nextArray
          ((m.arrays s.arr).take s.len ++ [f] ++ List.replicate (growth s) NewEmptyField)
          m.nextArray).length
        rw [Function.update_same]
        simp [List.length_take, Nat.min_eq_left hk]
        omega
    · intro t ht _
      by_cases h0 : t.cap = 0
      · have hl : t.len = 0 := by have := ht.1; omega
        rw [elems_of_len_zero _ t hl, elems_of_len_zero _ t hl]
      · obtain ⟨hta, _⟩ := ht.2 h0
        have hne : t.arr ≠ m.nextArray := by omega
        simp only [Machine.elems, Function.update_noteq hne]

theorem append_wf (growth : FieldSlice → Nat) (m : Machine) (s : FieldSlice) (f : Field)
    (t : FieldSlice) (ht : t.WF m) : t.WF (m.append growth s f).1 := by
  by_cases hlt : s.len < s.cap
  · have hdef : (m.append growth s f).1 =
        { m with arrays := Function.update m.arrays s.arr ((m.arrays s.arr).set s.len f) } := by
      unfold Machine.append
      rw [if_pos hlt]
    rw [hdef]
    refine ⟨ht.1, fun h0 => ⟨(ht.2 h0).1, ?_⟩⟩
    show t.cap ≤ (Function.update m.arrays s.arr ((m.arrays s.arr).set s.len f) t.arr).length
    by_cases hta : t.arr = s.arr
    · rw [hta, Function.update_same, List.length_set, ← hta]
      exact (ht.2 h0).2
    · rw [Function.update_noteq hta]
      exact (ht.2 h0).2
  · have hdef : (m.append growth s f).1 =
        { m with
            arrays := Function.update m.arrays m.nextArray
              ((m.arrays s.arr).take s.len ++ [f] ++ List.replicate (growth s) NewEmptyField),
            nextArray := m.nextArray + 1 } := by
      unfold Machine.append
      rw [if_neg hlt]
    rw [hdef]
    refine ⟨ht.1, fun h0 => ⟨?_, ?_⟩⟩
    · show t.arr < m.nextArray + 1
      have := (ht.2 h0).1
      omega
    · have hne : t.arr ≠ m.nextArray := by
        have := (ht.2 h0).1
        omega
      show t.cap ≤ (Function.update m.arrays m.nextArray
        ((m.arrays s.arr).take s.len ++ [f] ++ List.replicate (growth s) NewEmptyField)
        t.arr).length
      rw [Function.update_noteq hne]
      exact (ht.2 h0).2

theorem append_objects (growth : FieldSlice → Nat) (m : Machine) (s : FieldSlice) (f : Field) :
    (m.append growth s f).1.embeds = m.embeds ∧
    (m.append growth s f).1.copies = m.copies ∧
    (m.append growth s f).1.webhooks = m.webhooks ∧
    (m.append growth s f).1.fields = m.fields ∧
    (m.append growth s f).1.nextEmbed = m.nextEmbed ∧
    (m.append growth s f).1.nextCopy = m.nextCopy ∧
    (m.append growth s f).1.nextWebhook = m.nextWebhook ∧
    (m.append growth s f).1.nextField = m.nextField := by
  unfold Machine.append
  split <;> exact ⟨rfl, rfl, rfl, rfl, rfl, rfl, rfl, rfl⟩

theorem embedValue_congr (m m1 : Machine) (c : EmbedCell)
    (h : m1.elems c.Fields = m.elems c.Fields) : m1.embedValue c = m.embedValue c := by
  unfold Machine.embedValue
  rw [h]

theorem builder_objects (growth : FieldSlice → Nat) (m : Machine) (cell : EmbedCell)
    (c : EmbedCall) :
    (m.builder growth cell c).1.embeds = m.embeds ∧
    (m.builder growth cell c).1.copies = m.copies ∧
    (m.builder growth cell c).1.webhooks = m.webhooks ∧
    (m.builder growth cell c).1.fields = m.fields ∧
    (m.builder growth cell c).1.nextEmbed = m.nextEmbed ∧
    (m.builder growth cell c).1.nextCopy = m.nextCopy ∧
    (m.builder growth cell c).1.nextWebhook = m.nextWebhook ∧
    (m.builder growth cell c).1.nextField = m.nextField := by
  cases c with
  | addField field => exact append_objects growth m cell.Fields field
  | _ => exact ⟨rfl, rfl, rfl, rfl, rfl, rfl, rfl, rfl⟩

theorem builder_scalar (growth : FieldSlice → Nat) (m : Machine) (cell : EmbedCell)
    (c : EmbedCall) (h1 : addedField c = none) (h2 : c ≠ .clearFields) :
    m.builder growth cell c = (m, cell.assign ((cell.toEmbed []).call c)) := by
  cases c with
  | addField field => simp [addedField] at h1
  | clearFields => exact absurd rfl h2
  | _ => rfl

/-- What a builder does to the struct it is called on, in any store whose slice
headers are well formed: the value of the struct changes as the builder does on
values, and every header stays well formed. -/
theorem builder_spec (growth : FieldSlice → Nat) (m : Machine) (cell : EmbedCell)
    (c : EmbedCall) (hc : cell.Fields.WF m) :
    (m.builder growth cell c).1.embedValue (m.builder growth cell c).2
      = (m.embedValue cell).call c ∧
    (m.builder growth cell c).2.Fields.WF (m.builder growth cell c).1 ∧
    (∀ t : FieldSlice, t.WF m → t.WF (m.builder growth cell c).1) ∧
    ((m.builder growth cell c).2.Fields = cell.Fields ∨
      (m.builder growth cell c).2.Fields.cap = 0 ∨
      ((m.builder growth cell c).2.Fields.arr = cell.Fields.arr ∧ cell.Fields.cap ≠ 0 ∧
        (m.builder growth cell c).2.Fields.len = cell.Fields.len + 1) ∨
      ((m.builder growth cell c).2.Fields.arr = m.nextArray ∧
        (m.builder growth cell c).2.Fields.len = cell.Fields.len + 1)) ∧
    (∀ t : FieldSlice, t.WF m →
      (cell.Fields.len < cell.Fields.cap → t.arr = cell.Fields.arr →
        t.len ≤ cell.Fields.len) →
      (m.builder growth cell c).1.elems t = m.elems t) ∧
    (addedField c = none →
      (m.builder growth cell c).1 = m ∧
      ((m.builder growth cell c).2.Fields = cell.Fields ∨
        (m.builder growth cell c).2.Fields = ⟨0, 0, 0⟩)) := by
  by_cases hadd : addedField c = none
  · by_cases hclear : c = .clearFields
    · rw [hclear]
      refine ⟨rfl, ⟨Nat.le_refl 0, fun h => absurd rfl h⟩, fun t ht => ht, Or.inr (Or.inl rfl),
        fun _ _ _ => rfl, fun _ => ⟨rfl, Or.inr rfl⟩⟩
    · rw [builder_scalar growth m cell c hadd hclear]
      refine ⟨?_, hc, fun t ht => ht, Or.inl rfl, fun _ _ _ => rfl, fun _ => ⟨rfl, Or.inl rfl⟩⟩
      exact assign_call cell c _ hadd hclear
  · cases c with
    | addField field =>
      obtain ⟨a1, a2, a3, a4, a5, a6⟩ := append_spec growth m cell.Fields field hc
      refine ⟨?_, a2, fun t ht => append_wf growth m cell.Fields field t ht, ?_, a6,
        fun h => absurd h hadd⟩
      · show EmbedCell.toEmbed _ ((m.append growth cell.Fields field).1.elems
          (m.append growth cell.Fields field).2) = _
        rw [a1]
        rfl
      · rcases a5 with ⟨harr, hc0⟩ | harr
        · exact Or.inr (Or.inr (Or.inl ⟨harr, hc0, a3⟩))
        · exact Or.inr (Or.inr (Or.inr ⟨harr, a3⟩))
    | _ => simp [addedField] at hadd

theorem embedCall_invalid (growth : FieldSlice → Nat) (m : Machine) (e : Nat) (c : EmbedCall)
    (he : ¬ e < m.nextEmbed) : m.embedCall growth e c = (m, e) := by
  unfold Machine.embedCall
  rw [if_neg he]

theorem copyCall_invalid (growth : FieldSlice → Nat) (m : Machine) (d : Nat) (c : EmbedCall)
    (hd : ¬ d < m.nextCopy) : m.copyCall growth d c = (m, d) := by
  unfold Machine.copyCall
  rw [if_neg hd]

theorem embedCall_wf (growth : FieldSlice → Nat) (m : Machine) (e : Nat) (c : EmbedCall)
    (hwf : m.WFAll) (he : e < m.nextEmbed) :
    (m.embedCall growth e c).1.WFAll ∧
    (m.embedCall growth e c).1.embedAt e = (m.embedAt e).call c ∧
    (m.embedCall growth e c).1.webhooks = m.webhooks ∧
    (m.embedCall growth e c).1.fields = m.fields ∧
    (m.embedCall growth e c).1.nextEmbed = m.nextEmbed ∧
    (m.embedCall growth e c).1.nextCopy = m.nextCopy ∧
    (m.embedCall growth e c).1.nextWebhook = m.nextWebhook ∧
    (m.embedCall growth e c).1.nextField = m.nextField ∧
    (m.embedCall growth e c).2 = e := by
  have hdef : m.embedCall growth e c =
      ((m.builder growth (m.embeds e) c).1.setEmbed e (m.builder growth (m.embeds e) c).2,
       e) := by
    unfold Machine.embedCall
    rw [if_pos he]
  rw [hdef]
  obtain ⟨w1, w2⟩ := hwf
  obtain ⟨b1, b2, b3, _, _, _⟩ := builder_spec growth m (m.embeds e) c (w1 e)
  obtain ⟨o1, o2, o3, o4, o5, o6, o7, o8⟩ := builder_objects growth m (m.embeds e) c
  refine ⟨⟨?_, ?_⟩, ?_, o3, o4, o5, o6, o7, o8, rfl⟩
  · intro i
    show (Function.update (m.builder growth (m.embeds e) c).1.embeds e
      (m.builder growth (m.embeds e) c).2 i).Fields.WF (m.builder growth (m.embeds e) c).1
    by_cases hi : i = e
    · rw [hi, Function.update_same]
      exact b2
    · rw [Function.update_noteq hi, o1]
      exact b3 _ (w1 i)
  · intro d
    show ((m.builder growth (m.embeds e) c).1.copies d).Fields.WF
      (m.builder growth (m.embeds e) c).1
    rw [o2]
    exact b3 _ (w2 d)
  · show (m.builder growth (m.embeds e) c).1.embedValue
      (Function.update (m.builder growth (m.embeds e) c).1.embeds e
        (m.builder growth (m.embeds e) c).2 e) = _
    rw [Function.update_same]
    exact b1

theorem copyCall_wf (growth : FieldSlice → Nat) (m : Machine) (d : Nat) (c : EmbedCall)
    (hwf : m.WFAll) (hd : d < m.nextCopy) :
    (m.copyCall growth d c).1.WFAll ∧
    (m.copyCall growth d c).1.copyAt d = (m.copyAt d).call c ∧
    (m.copyCall growth d c).1.webhooks = m.webhooks ∧
    (m.copyCall growth d c).1.fields = m.fields ∧
    (m.copyCall growth d c).1.nextEmbed = m.nextEmbed ∧
    (m.copyCall growth d c).1.nextCopy = m.nextCopy ∧
    (m.copyCall growth d c).1.nextWebhook = m.nextWebhook ∧
    (m.copyCall growth d c).1.nextField = m.nextField ∧
    (m.copyCall growth d c).2 = d := by
  have hdef : m.copyCall growth d c =
      ((m.builder growth (m.copies d) c).1.setCopy d (m.builder growth (m.copies d) c).2,
       d) := by
    unfold Machine.copyCall
    rw [if_pos hd]
  rw [hdef]
  obtain ⟨w1, w2⟩ := hwf
  obtain ⟨b1, b2, b3, _, _, _⟩ := builder_spec growth m (m.copies d) c (w2 d)
  obtain ⟨o1, o2, o3, o4, o5, o6, o7, o8⟩ := builder_objects growth m (m.copies d) c
  refine ⟨⟨?_, ?_⟩, ?_, o3, o4, o5, o6, o7, o8, rfl⟩
  · intro i
    show ((m.builder growth (m.copies d) c).1.embeds i).Fields.WF
      (m.builder growth (m.copies d) c).1
    rw [o1]
    exact b3 _ (w1 i)
  · intro d'
    show (Function.update (m.builder growth (m.copies d) c).1.copies d
      (m.builder growth (m.copies d) c).2 d').Fields.WF (m.builder growth (m.copies d) c).1
    by_cases hi : d' = d
    · rw [hi, Function.update_same]
      exact b2
    · rw [Function.update_noteq hi, o2]
      exact b3 _ (w2 d')
  · show (m.builder growth (m.copies d) c).1.embedValue
      (Function.update (m.builder growth (m.copies d) c).1.copies d
        (m.builder growth (m.copies d) c).2 d) = _
    rw [Function.update_same]
    exact b1

/-- A builder call on an `Embed` object, in a store with the separation: the
separation is kept, and every other `Embed` object and every copy keeps its
value. -/
theorem embedCall_spec (growth : FieldSlice → Nat) (m : Machine) (e : Nat) (c : EmbedCall)
    (hinv : m.Inv) (he : e < m.nextEmbed) :
    (m.embedCall growth e c).1.Inv ∧
    (∀ i, i ≠ e → (m.embedCall growth e c).1.embedAt i = m.embedAt i) ∧
    (∀ d, (m.embedCall growth e c).1.copyAt d = m.copyAt d) := by
  obtain ⟨⟨w1, w2⟩, s1, s2, s3⟩ := hinv
  obtain ⟨hwf, _, hweb, _, _, hnc, _, _, _⟩ := embedCall_wf growth m e c ⟨w1, w2⟩ he
  have hdef : (m.embedCall growth e c).1 =
      (m.builder growth (m.embeds e) c).1.setEmbed e (m.builder growth (m.embeds e) c).2 := by
    unfold Machine.embedCall
    rw [if_pos he]
  obtain ⟨_, b2, b3, b4, b5, _⟩ := builder_spec growth m (m.embeds e) c (w1 e)
  obtain ⟨o1, o2, o3, o4, o5, o6, o7, o8⟩ := builder_objects growth m (m.embeds e) c
  have hE : ∀ i, (m.embeds e).Fields.len < (m.embeds e).Fields.cap →
      (m.embeds i).Fields.arr = (m.embeds e).Fields.arr →
      (m.embeds i).Fields.len ≤ (m.embeds e).Fields.len := by
    intro i hlt harr
    by_cases hi : i = e
    · rw [hi]
    · by_cases hc : (m.embeds i).Fields.cap = 0
      · have := (w1 i).1
        omega
      · exact absurd harr (s1 i e hi hc (by omega))
  have hC : ∀ d, (m.embeds e).Fields.len < (m.embeds e).Fields.cap →
      (m.copies d).Fields.arr = (m.embeds e).Fields.arr →
      (m.copies d).Fields.len ≤ (m.embeds e).Fields.len := by
    intro d hlt harr
    exact s2 d e (by omega) harr.symm
  have hemb : ∀ i, (m.embedCall growth e c).1.embeds i =
      Function.update m.embeds e (m.builder growth (m.embeds e) c).2 i := by
    intro i
    rw [hdef]
    show Function.update (m.builder growth (m.embeds e) c).1.embeds e _ i = _
    rw [o1]
  have hcop : (m.embedCall growth e c).1.copies = m.copies := by
    rw [hdef]
    exact o2
  have helems : ∀ t, (m.embedCall growth e c).1.elems t
      = (m.builder growth (m.embeds e) c).1.elems t := by
    intro t
    rw [hdef]
    rfl
  refine ⟨⟨hwf, ?_, ?_, ?_⟩, ?_, ?_⟩
  · intro i j hij
    rw [hemb i, hemb j]
    by_cases hi : i = e
    · have hj : j ≠ e := fun h => hij (hi.trans h.symm)
      rw [hi, Function.update_same, Function.update_noteq hj]
      intro ha hb
      rcases b4 with h | h | h | h
      · rw [h] at ha ⊢
        exact s1 e j (Ne.symm hj) ha hb
      · exact absurd h ha
      · rw [h.1]
        exact s1 e j (Ne.symm hj) h.2.1 hb
      · rw [h.1]
        have := ((w1 j).2 hb).1
        omega
    · rw [Function.update_noteq hi]
      by_cases hj : j = e
      · rw [hj, Function.update_same]
        intro ha hb
        rcases b4 with h | h | h | h
        · rw [h] at hb ⊢
          exact s1 i e hi ha hb
        · exact absurd h hb
        · rw [h.1]
          exact s1 i e hi ha h.2.1
        · rw [h.1]
          have := ((w1 i).2 ha).1
          omega
      · rw [Function.update_noteq hj]
        exact s1 i j hij
  · intro d i
    rw [hemb i, hcop]
    by_cases hi : i = e
    · rw [hi, Function.update_same]
      intro ha hb
      rcases b4 with h | h | h | h
      · rw [h] at ha hb ⊢
        exact s2 d e ha hb
      · exact absurd h ha
      · have := s2 d e h.2.1 (by rw [← h.1]; exact hb)
        rw [h.2.2]
        omega
      · rw [h.2]
        by_cases hc0 : (m.copies d).Fields.cap = 0
        · have := (w2 d).1
          omega
        · have := ((w2 d).2 hc0).1
          rw [h.1] at hb
          omega
    · rw [Function.update_noteq hi]
      exact s2 d i
  · intro w d hd
    rw [hweb] at hd
    rw [hnc]
    exact s3 w d hd
  · intro i hi
    show (m.embedCall growth e c).1.embedValue ((m.embedCall growth e c).1.embeds i) = _
    rw [hemb i, Function.update_noteq hi]
    apply embedValue_congr
    rw [helems]
    exact b5 _ (w1 i) (hE i)
  · intro d
    show (m.embedCall growth e c).1.embedValue ((m.embedCall growth e c).1.copies d) = _
    rw [hcop]
    apply embedValue_congr
    rw [helems]
    exact b5 _ (w2 d) (fun hlt harr => hC d hlt harr)

/-- A builder call other than `AddField` on a copy, in a store with the
separation: the separation is kept, and every `Embed` object and every other copy
keeps its value. -/
theorem copyCall_spec (growth : FieldSlice → Nat) (m : Machine) (d : Nat) (c : EmbedCall)
    (hinv : m.Inv) (hd : d < m.nextCopy) (hc : addedField c = none) :
    (m.copyCall growth d c).1.Inv ∧
    (∀ i, (m.copyCall growth d c).1.embedAt i = m.embedAt i) ∧
    (∀ d', d' ≠ d → (m.copyCall growth d c).1.copyAt d' = m.copyAt d') := by
  obtain ⟨⟨w1, w2⟩, s1, s2, s3⟩ := hinv
  obtain ⟨hwf, _, hweb, _, _, hnc, _, _, _⟩ := copyCall_wf growth m d c ⟨w1, w2⟩ hd
  obtain ⟨_, _, _, _, _, b6⟩ := builder_spec growth m (m.copies d) c (w2 d)
  obtain ⟨hm, hhdr⟩ := b6 hc
  have hdef : (m.copyCall growth d c).1 = m.setCopy d (m.builder growth (m.copies d) c).2 := by
    unfold Machine.copyCall
    rw [if_pos hd, hm]
  refine ⟨⟨hwf, ?_, ?_, ?_⟩, ?_, ?_⟩
  · rw [hdef]
    exact s1
  · intro d' i
    rw [hdef]
    show (m.embeds i).Fields.cap ≠ 0 →
      (m.embeds i).Fields.arr =
        (Function.update m.copies d (m.builder growth (m.copies d) c).2 d').Fields.arr →
      (Function.update m.copies d (m.builder growth (m.copies d) c).2 d').Fields.len
        ≤ (m.embeds i).Fields.len
    by_cases hdd : d' = d
    · rw [hdd, Function.update_same]
      rcases hhdr with h | h
      · rw [h]
        exact s2 d i
      · rw [h]
        intro _ _
        exact Nat.zero_le _
    · rw [Function.update_noteq hdd]
      exact s2 d' i
  · intro w d' hd'
    rw [hweb] at hd'
    rw [hnc]
    exact s3 w d' hd'
  · intro i
    rw [hdef]
    rfl
  · intro d' hdd
    rw [hdef]
    show m.embedValue (Function.update m.copies d (m.builder growth (m.copies d) c).2 d') = _
    rw [Function.update_noteq hdd]
    rfl

theorem load_wf (m : Machine) (p : EmbedPtr) (hwf : m.WFAll) : (m.load p).Fields.WF m := by
  cases p with
  | object e => exact hwf.1 e
  | copy d => exact hwf.2 d

theorem newCopy_wf (m : Machine) (cell : EmbedCell) (hwf : m.WFAll) (hc : cell.Fields.WF m) :
    (m.newCopy cell).1.WFAll := by
  obtain ⟨w1, w2⟩ := hwf
  refine ⟨w1, ?_⟩
  intro d
  show (Function.update m.copies m.nextCopy cell d).Fields.WF m
  by_cases hd : d = m.nextCopy
  · rw [hd, Function.update_same]
    exact hc
  · rw [Function.update_noteq hd]
    exact w2 d

/-- A new copy of the struct at `p`, in a store with the separation: the separation
is kept, the copy has the value of `*p`, and nothing else changes. -/
theorem newCopy_spec (m : Machine) (p : EmbedPtr) (hinv : m.Inv) :
    (m.newCopy (m.load p)).1.Inv ∧
    (m.newCopy (m.load p)).1.copyAt m.nextCopy = m.valueAt p ∧
    (∀ d, d ≠ m.nextCopy → (m.newCopy (m.load p)).1.copyAt d = m.copyAt d) ∧
    (∀ i, (m.newCopy (m.load p)).1.embedAt i = m.embedAt i) := by
  obtain ⟨⟨w1, w2⟩, s1, s2, s3⟩ := hinv
  refine ⟨⟨newCopy_wf m _ ⟨w1, w2⟩ (load_wf m p ⟨w1, w2⟩), s1, ?_, ?_⟩, ?_, ?_, fun _ => rfl⟩
  · intro d i
    show (m.embeds i).Fields.cap ≠ 0 →
      (m.embeds i).Fields.arr = (Function.update m.copies m.nextCopy (m.load p) d).Fields.arr →
      (Function.update m.copies m.nextCopy (m.load p) d).Fields.len ≤ (m.embeds i).Fields.len
    by_cases hd : d = m.nextCopy
    · rw [hd, Function.update_same]
      cases p with
      | object e =>
        show (m.embeds i).Fields.cap ≠ 0 → (m.embeds i).Fields.arr = (m.embeds e).Fields.arr →
          (m.embeds e).Fields.len ≤ (m.embeds i).Fields.len
        intro hi harr
        by_cases hie : i = e
        · rw [hie]
        · by_cases hc0 : (m.embeds e).Fields.cap = 0
          · have := (w1 e).1
            omega
          · exact absurd harr (s1 i e hie hi hc0)
      | copy d0 => exact s2 d0 i
    · rw [Function.update_noteq hd]
      exact s2 d i
  · intro w d hd
    show d < m.nextCopy + 1
    have := s3 w d hd
    omega
  · show m.embedValue (Function.update m.copies m.nextCopy (m.load p) m.nextCopy) = _
    rw [Function.update_same]
    rfl
  · intro d hd
    show m.embedValue (Function.update m.copies m.nextCopy (m.load p) d) = _
    rw [Function.update_noteq hd]
    rfl

theorem webhookCall_embeds (c : WebhookCall) :
    (∀ cell : WebhookCell, (cell.call c).Embeds = cell.Embeds) ∧
    (∀ v : Webhook, (v.call c).Embeds = v.Embeds) ∧
    (∀ (m : Machine) (cell : WebhookCell),
      m.webhookValue (cell.call c) = (m.webhookValue cell).call c) := by
  cases c <;> exact ⟨fun _ => rfl, fun _ => rfl, fun _ _ => rfl⟩

/-- A setter of `Webhook` called on a pointer, in any store: the value of that
message changes as the setter does, and no other object changes. -/
theorem webhookCall_spec (m : Machine) (w : Nat) (c : WebhookCall) (hw : w < m.nextWebhook) :
    (m.webhookCall w c).1.webhookAt w = (m.webhookAt w).call c ∧
    (∀ w', w' ≠ w → (m.webhookCall w c).1.webhookAt w' = m.webhookAt w') ∧
    (∀ i, (m.webhookCall w c).1.embedAt i = m.embedAt i) ∧
    (m.webhookCall w c).2 = w ∧
    (∀ w', ((m.webhookCall w c).1.webhooks w').Embeds = (m.webhooks w').Embeds) := by
  have hdef : m.webhookCall w c = (m.setWebhook w ((m.webhooks w).call c), w) := by
    unfold Machine.webhookCall
    rw [if_pos hw]
  rw [hdef]
  refine ⟨?_, ?_, fun _ => rfl, rfl, ?_⟩
  · show m.webhookValue (Function.update m.webhooks w ((m.webhooks w).call c) w) = _
    rw [Function.update_same, (webhookCall_embeds c).2.2]
    rfl
  · intro w' hw'
    show m.webhookValue (Function.update m.webhooks w ((m.webhooks w).call c) w') = _
    rw [Function.update_noteq hw']
    rfl
  · intro w'
    show (Function.update m.webhooks w ((m.webhooks w).call c) w').Embeds = _
    by_cases hw' : w' = w
    · rw [hw', Function.update_same, (webhookCall_embeds c).1]
    · rw [Function.update_noteq hw']

theorem map_copyAt_congr (m m1 : Machine) (l : List Nat)
    (h : ∀ d ∈ l, m1.copyAt d = m.copyAt d) : l.map m1.copyAt = l.map m.copyAt :=
  List.map_congr_left h

/-- The statement `w.AddEmbed(p)` in a store with the separation: the separation is
kept, the value of `w` gets the value of `*p` as its last entry, and no other
message, no `Embed` object and no earlier copy changes. -/
theorem AddEmbed_spec (m : Machine) (w : Nat) (p : EmbedPtr) (hinv : m.Inv)
    (hw : w < m.nextWebhook) (hp : m.allocated p = true) :
    (m.AddEmbed w p).1.Inv ∧
    (m.AddEmbed w p).1.webhookAt w = (m.webhookAt w).AddEmbed (m.valueAt p) ∧
    (∀ w', w' ≠ w → ((m.AddEmbed w p).1.webhooks w').Embeds = (m.webhooks w').Embeds) ∧
    (∀ i, (m.AddEmbed w p).1.embedAt i = m.embedAt i) ∧
    (∀ d, d < m.nextCopy → (m.AddEmbed w p).1.copyAt d = m.copyAt d) ∧
    (m.AddEmbed w p).1.nextWebhook = m.nextWebhook ∧
    (m.AddEmbed w p).1.nextEmbed = m.nextEmbed ∧
    (m.AddEmbed w p).1.nextCopy = m.nextCopy + 1 ∧
    (m.AddEmbed w p).2 = w := by
  have hdef : m.AddEmbed w p =
      ((m.newCopy (m.load p)).1.setWebhook w
        { m.webhooks w with Embeds := (m.webhooks w).Embeds ++ [(m.newCopy (m.load p)).2] },
       w) := by
    unfold Machine.AddEmbed
    rw [if_pos ⟨hw, hp⟩]
  rw [hdef]
  obtain ⟨⟨nw, ns1, ns2, ns3⟩, n2, n3, n4⟩ := newCopy_spec m p hinv
  obtain ⟨_, _, _, s3⟩ := hinv
  have hold : ∀ d, d < m.nextCopy → (m.newCopy (m.load p)).1.copyAt d = m.copyAt d :=
    fun d hd => n3 d (by omega)
  refine ⟨⟨nw, ns1, ns2, ?_⟩, ?_, ?_, n4, hold, rfl, rfl, rfl, rfl⟩
  · intro w' d
    show d ∈ (Function.update m.webhooks w
      { m.webhooks w with Embeds := (m.webhooks w).Embeds ++ [m.nextCopy] } w').Embeds →
      d < m.nextCopy + 1
    by_cases hw' : w' = w
    · rw [hw', Function.update_same]
      intro hd
      have hd' : d ∈ (m.webhooks w).Embeds ++ [m.nextCopy] := hd
      rcases List.mem_append.mp hd' with h | h
      · have := s3 w d h
        omega
      · have : d = m.nextCopy := by simpa using h
        omega
    · rw [Function.update_noteq hw']
      intro hd
      have := s3 w' d hd
      omega
  · show (m.newCopy (m.load p)).1.webhookValue (Function.update m.webhooks w
      { m.webhooks w with Embeds := (m.webhooks w).Embeds ++ [m.nextCopy] } w) = _
    rw [Function.update_same]
    have hmap : (m.webhooks w).Embeds.map (m.newCopy (m.load p)).1.copyAt
        = (m.webhooks w).Embeds.map m.copyAt :=
      map_copyAt_congr m _ _ (fun d hd => hold d (s3 w d hd))
    simp only [Machine.webhookValue, Machine.webhookAt, Webhook.AddEmbed, List.map_append,
      List.map_cons, List.map_nil, hmap, n2]
  · intro w' hw'
    show (Function.update m.webhooks w
      { m.webhooks w with Embeds := (m.webhooks w).Embeds ++ [m.nextCopy] } w').Embeds = _
    rw [Function.update_noteq hw']

theorem AddEmbed_invalid (m : Machine) (w : Nat) (p : EmbedPtr)
    (h : ¬ (w < m.nextWebhook ∧ m.allocated p = true)) : m.AddEmbed w p = (m, w) := by
  unfold Machine.AddEmbed
  rw [if_neg h]

theorem init_inv : Machine.init.Inv := by
  refine ⟨⟨?_, ?_⟩, ?_, ?_, ?_⟩
  · intro i
    exact ⟨Nat.le_refl 0, fun h => absurd rfl h⟩
  · intro d
    exact ⟨Nat.le_refl 0, fun h => absurd rfl h⟩
  · intro i j _ h
    exact absurd rfl h
  · intro d i h
    exact absurd rfl h
  · intro w d hd
    exact absurd hd (by simp [Machine.init, WebhookCell.zero])

/-- Every statement keeps the slice headers well formed. -/
theorem step_wf (growth : FieldSlice → Nat) (m : Machine) (op : Op) (hwf : m.WFAll) :
    (m.step growth op).WFAll := by
  cases op with
  | newEmbed =>
    obtain ⟨w1, w2⟩ := hwf
    refine ⟨?_, w2⟩
    intro i
    show (Function.update m.embeds m.nextEmbed EmbedCell.zero i).Fields.WF m
    by_cases hi : i = m.nextEmbed
    · rw [hi, Function.update_same]
      exact ⟨Nat.le_refl 0, fun h => absurd rfl h⟩
    · rw [Function.update_noteq hi]
      exact w1 i
  | newWebhook => exact hwf
  | newField name value inline => exact hwf
  | fieldCall f c =>
    show (m.fieldCall f c).1.WFAll
    unfold Machine.fieldCall
    split
    · exact hwf
    · exact hwf
  | embedCall e c =>
    show (m.embedCall growth e c).1.WFAll
    by_cases he : e < m.nextEmbed
    · exact (embedCall_wf growth m e c hwf he).1
    · rw [embedCall_invalid growth m e c he]
      exact hwf
  | addField e f =>
    show (m.AddField growth e f).1.WFAll
    unfold Machine.AddField
    split
    · by_cases he : e < m.nextEmbed
      · exact (embedCall_wf growth m e _ hwf he).1
      · rw [embedCall_invalid growth m e _ he]
        exact hwf
    · exact hwf
  | webhookCall w c =>
    show (m.webhookCall w c).1.WFAll
    unfold Machine.webhookCall
    split
    · exact hwf
    · exact hwf
  | addEmbed w p =>
    show (m.AddEmbed w p).1.WFAll
    unfold Machine.AddEmbed
    split
    · exact newCopy_wf m _ hwf (load_wf m p hwf)
    · exact hwf
  | copyEmbed p =>
    show (m.copyEmbed p).1.WFAll
    unfold Machine.copyEmbed
    split
    · exact newCopy_wf m _ hwf (load_wf m p hwf)
    · exact hwf
  | copyCall d c =>
    show (m.copyCall growth d c).1.WFAll
    by_cases hd : d < m.nextCopy
    · exact (copyCall_wf growth m d c hwf hd).1
    · rw [copyCall_invalid growth m d c hd]
      exact hwf

theorem run_wf (growth : FieldSlice → Nat) (ops : List Op) :
    ∀ m : Machine, m.WFAll → (m.run growth ops).WFAll := by
  induction ops with
  | nil => intro m h; exact h
  | cons op rest ih =>
    intro m h
    exact ih (m.step growth op) (step_wf growth m op h)

theorem addedField_of_not_appendsToCopy (d : Nat) (c : EmbedCall)
    (h : (Op.copyCall d c).appendsToCopy = false) : addedField c = none := by
  cases c with
  | addField field => exact absurd h (by simp [Op.appendsToCopy])
  | _ => rfl

theorem webhookAt_congr (m m1 : Machine) (w : Nat) (hcell : m1.webhooks w = m.webhooks w)
    (h : ∀ d ∈ (m.webhooks w).Embeds, m1.copyAt d = m.copyAt d) :
    m1.webhookAt w = m.webhookAt w := by
  unfold Machine.webhookAt Machine.webhookValue
  rw [hcell, map_copyAt_congr m m1 _ h]

/-- A statement that does not call `AddField` on a copy keeps the separation; it
changes the list of entries of a message only if it is an `AddEmbed` on that
message, and the value of a copy only if it is a builder call on that copy. -/
theorem step_spec (growth : FieldSlice → Nat) (m : Machine) (op : Op) (hinv : m.Inv)
    (hsafe : op.appendsToCopy = false) :
    (m.step growth op).Inv ∧
    m.nextWebhook ≤ (m.step growth op).nextWebhook ∧
    m.nextCopy ≤ (m.step growth op).nextCopy ∧
    (∀ w, w < m.nextWebhook → (∀ q, op ≠ .addEmbed w q) →
      ((m.step growth op).webhooks w).Embeds = (m.webhooks w).Embeds) ∧
    (∀ d, d < m.nextCopy → (∀ c, op ≠ .copyCall d c) →
      (m.step growth op).copyAt d = m.copyAt d) := by
  have hsame : m.Inv ∧ m.nextWebhook ≤ m.nextWebhook ∧ m.nextCopy ≤ m.nextCopy ∧
      (∀ w, w < m.nextWebhook → (∀ q, op ≠ .addEmbed w q) →
        (m.webhooks w).Embeds = (m.webhooks w).Embeds) ∧
      (∀ d, d < m.nextCopy → (∀ c, op ≠ .copyCall d c) → m.copyAt d = m.copyAt d) :=
    ⟨hinv, Nat.le_refl _, Nat.le_refl _, fun _ _ _ => rfl, fun _ _ _ => rfl⟩
  cases op with
  | newEmbed =>
    obtain ⟨hwf, s1, s2, s3⟩ := hinv
    refine ⟨⟨step_wf growth m .newEmbed hwf, ?_, ?_, s3⟩, Nat.le_refl _, Nat.le_refl _,
      fun _ _ _ => rfl, fun _ _ _ => rfl⟩
    · intro i j hij
      show (Function.update m.embeds m.nextEmbed EmbedCell.zero i).Fields.cap ≠ 0 →
        (Function.update m.embeds m.nextEmbed EmbedCell.zero j).Fields.cap ≠ 0 →
        (Function.update m.embeds m.nextEmbed EmbedCell.zero i).Fields.arr ≠
          (Function.update m.embeds m.nextEmbed EmbedCell.zero j).Fields.arr
      by_cases hi : i = m.nextEmbed
      · rw [hi, Function.update_same]
        intro h
        exact absurd rfl h
      · by_cases hj : j = m.nextEmbed
        · rw [hj, Function.update_same]
          intro _ h
          exact absurd rfl h
        · rw [Function.update_noteq hi, Function.update_noteq hj]
          exact s1 i j hij
    · intro d i
      show (Function.update m.embeds m.nextEmbed EmbedCell.zero i).Fields.cap ≠ 0 →
        (Function.update m.embeds m.nextEmbed EmbedCell.zero i).Fields.arr
          = (m.copies d).Fields.arr →
        (m.copies d).Fields.len
          ≤ (Function.update m.embeds m.nextEmbed EmbedCell.zero i).Fields.len
      by_cases hi : i = m.nextEmbed
      · rw [hi, Function.update_same]
        intro h
        exact absurd rfl h
      · rw [Function.update_noteq hi]
        exact s2 d i
  | newWebhook =>
    obtain ⟨hwf, s1, s2, s3⟩ := hinv
    refine ⟨⟨hwf, s1, s2, ?_⟩, ?_, Nat.le_refl _, ?_, fun _ _ _ => rfl⟩
    · intro w d
      show d ∈ (Function.update m.webhooks m.nextWebhook WebhookCell.zero w).Embeds →
        d < m.nextCopy
      by_cases hw : w = m.nextWebhook
      · rw [hw, Function.update_same]
        intro hd
        exact absurd hd (by simp [WebhookCell.zero])
      · rw [Function.update_noteq hw]
        exact s3 w d
    · show m.nextWebhook ≤ m.nextWebhook + 1
      omega
    · intro w hw _
      show (Function.update m.webhooks m.nextWebhook WebhookCell.zero w).Embeds = _
      rw [Function.update_noteq (by omega)]
  | newField name value inline => exact hsame
  | fieldCall f c =>
    show (m.fieldCall f c).1.Inv ∧ _ ≤ (m.fieldCall f c).1.nextWebhook ∧
      _ ≤ (m.fieldCall f c).1.nextCopy ∧
      (∀ w, w < m.nextWebhook → (∀ q, Op.fieldCall f c ≠ .addEmbed w q) →
        ((m.fieldCall f c).1.webhooks w).Embeds = (m.webhooks w).Embeds) ∧
      (∀ d, d < m.nextCopy → (∀ c', Op.fieldCall f c ≠ .copyCall d c') →
        (m.fieldCall f c).1.copyAt d = m.copyAt d)
    unfold Machine.fieldCall
    split
    · exact hsame
    · exact hsame
  | embedCall e c =>
    show (m.embedCall growth e c).1.Inv ∧ _ ≤ (m.embedCall growth e c).1.nextWebhook ∧
      _ ≤ (m.embedCall growth e c).1.nextCopy ∧
      (∀ w, w < m.nextWebhook → (∀ q, Op.embedCall e c ≠ .addEmbed w q) →
        ((m.embedCall growth e c).1.webhooks w).Embeds = (m.webhooks w).Embeds) ∧
      (∀ d, d < m.nextCopy → (∀ c', Op.embedCall e c ≠ .copyCall d c') →
        (m.embedCall growth e c).1.copyAt d = m.copyAt d)
    by_cases he : e < m.nextEmbed
    · obtain ⟨h1, _, h3⟩ := embedCall_spec growth m e c hinv he
      obtain ⟨_, _, g3, _, _, g6, g7, _, _⟩ := embedCall_wf growth m e c hinv.1 he
      refine ⟨h1, by omega, by omega, ?_, fun d _ _ => h3 d⟩
      intro w _ _
      rw [g3]
    · rw [embedCall_invalid growth m e c he]
      exact hsame
  | addField e f =>
    show (m.AddField growth e f).1.Inv ∧ _ ≤ (m.AddField growth e f).1.nextWebhook ∧
      _ ≤ (m.AddField growth e f).1.nextCopy ∧
      (∀ w, w < m.nextWebhook → (∀ q, Op.addField e f ≠ .addEmbed w q) →
        ((m.AddField growth e f).1.webhooks w).Embeds = (m.webhooks w).Embeds) ∧
      (∀ d, d < m.nextCopy → (∀ c', Op.addField e f ≠ .copyCall d c') →
        (m.AddField growth e f).1.copyAt d = m.copyAt d)
    unfold Machine.AddField
    split
    · by_cases he : e < m.nextEmbed
      · obtain ⟨h1, _, h3⟩ := embedCall_spec growth m e (.addField (m.fields f)) hinv he
        obtain ⟨_, _, g3, _, _, g6, g7, _, _⟩ :=
          embedCall_wf growth m e (.addField (m.fields f)) hinv.1 he
        refine ⟨h1, by omega, by omega, ?_, fun d _ _ => h3 d⟩
        intro w _ _
        rw [g3]
      · rw [embedCall_invalid growth m e _ he]
        exact hsame
    · exact hsame
  | webhookCall w' c =>
    show (m.webhookCall w' c).1.Inv ∧ _ ≤ (m.webhookCall w' c).1.nextWebhook ∧
      _ ≤ (m.webhookCall w' c).1.nextCopy ∧
      (∀ w, w < m.nextWebhook → (∀ q, Op.webhookCall w' c ≠ .addEmbed w q) →
        ((m.webhookCall w' c).1.webhooks w).Embeds = (m.webhooks w).Embeds) ∧
      (∀ d, d < m.nextCopy → (∀ c', Op.webhookCall w' c ≠ .copyCall d c') →
        (m.webhookCall w' c).1.copyAt d = m.copyAt d)
    by_cases hw' : w' < m.nextWebhook
    · obtain ⟨_, _, _, _, h5⟩ := webhookCall_spec m w' c hw'
      have hdef : m.webhookCall w' c = (m.setWebhook w' ((m.webhooks w').call c), w') := by
        unfold Machine.webhookCall
        rw [if_pos hw']
      obtain ⟨hwf, s1, s2, s3⟩ := hinv
      refine ⟨⟨?_, ?_, ?_, ?_⟩, ?_, ?_, fun w _ _ => h5 w, ?_⟩
      · rw [hdef]; exact hwf
      · rw [hdef]; exact s1
      · rw [hdef]; exact s2
      · intro w d hd
        rw [h5 w] at hd
        rw [hdef]
        exact s3 w d hd
      · rw [hdef]; exact Nat.le_refl _
      · rw [hdef]; exact Nat.le_refl _
      · intro d _ _
        rw [hdef]
        rfl
    · have hdef : m.webhookCall w' c = (m, w') := by
        unfold Machine.webhookCall
        rw [if_neg hw']
      rw [hdef]
      exact hsame
  | addEmbed w' p =>
    show (m.AddEmbed w' p).1.Inv ∧ _ ≤ (m.AddEmbed w' p).1.nextWebhook ∧
      _ ≤ (m.AddEmbed w' p).1.nextCopy ∧
      (∀ w, w < m.nextWebhook → (∀ q, Op.addEmbed w' p ≠ .addEmbed w q) →
        ((m.AddEmbed w' p).1.webhooks w).Embeds = (m.webhooks w).Embeds) ∧
      (∀ d, d < m.nextCopy → (∀ c', Op.addEmbed w' p ≠ .copyCall d c') →
        (m.AddEmbed w' p).1.copyAt d = m.copyAt d)
    by_cases hv : w' < m.nextWebhook ∧ m.allocated p = true
    · obtain ⟨h1, _, h3, _, h5, h6, _, h8, _⟩ := AddEmbed_spec m w' p hinv hv.1 hv.2
      refine ⟨h1, by omega, by omega, ?_, fun d hd _ => h5 d hd⟩
      intro w _ hne
      have hww : w ≠ w' := by
        intro h
        exact hne p (by rw [h])
      exact h3 w hww
    · rw [AddEmbed_invalid m w' p hv]
      exact hsame
  | copyEmbed p =>
    show (m.copyEmbed p).1.Inv ∧ _ ≤ (m.copyEmbed p).1.nextWebhook ∧
      _ ≤ (m.copyEmbed p).1.nextCopy ∧
      (∀ w, w < m.nextWebhook → (∀ q, Op.copyEmbed p ≠ .addEmbed w q) →
        ((m.copyEmbed p).1.webhooks w).Embeds = (m.webhooks w).Embeds) ∧
      (∀ d, d < m.nextCopy → (∀ c', Op.copyEmbed p ≠ .copyCall d c') →
        (m.copyEmbed p).1.copyAt d = m.copyAt d)
    unfold Machine.copyEmbed
    split
    · obtain ⟨h1, _, h3, _⟩ := newCopy_spec m p hinv
      refine ⟨h1, Nat.le_refl _, ?_, fun _ _ _ => rfl, fun d hd _ => h3 d (by omega)⟩
      show m.nextCopy ≤ m.nextCopy + 1
      omega
    · exact hsame
  | copyCall d c =>
    show (m.copyCall growth d c).1.Inv ∧ _ ≤ (m.copyCall growth d c).1.nextWebhook ∧
      _ ≤ (m.copyCall growth d c).1.nextCopy ∧
      (∀ w, w < m.nextWebhook → (∀ q, Op.copyCall d c ≠ .addEmbed w q) →
        ((m.copyCall growth d c).1.webhooks w).Embeds = (m.webhooks w).Embeds) ∧
      (∀ d', d' < m.nextCopy → (∀ c', Op.copyCall d c ≠ .copyCall d' c') →
        (m.copyCall growth d c).1.copyAt d' = m.copyAt d')
    by_cases hd : d < m.nextCopy
    · obtain ⟨h1, _, h3⟩ :=
        copyCall_spec growth m d c hinv hd (addedField_of_not_appendsToCopy d c hsafe)
      obtain ⟨_, _, g3, _, _, g6, g7, _, _⟩ := copyCall_wf growth m d c hinv.1 hd
      refine ⟨h1, by omega, by omega, ?_, ?_⟩
      · intro w _ _
        rw [g3]
      · intro d' _ hne
        apply h3 d'
        intro h
        exact hne c (by rw [h])
    · rw [copyCall_invalid growth m d c hd]
      exact hsame

/-- A program that never calls `AddField` on a copy keeps the separation. -/
theorem run_spec (growth : FieldSlice → Nat) (ops : List Op) :
    ∀ m : Machine, m.Inv → (∀ op ∈ ops, op.appendsToCopy = false) →
      (m.run growth ops).Inv ∧ m.nextWebhook ≤ (m.run growth ops).nextWebhook := by
  induction ops with
  | nil => intro m hinv _; exact ⟨hinv, Nat.le_refl _⟩
  | cons op rest ih =>
    intro m hinv hops
    obtain ⟨s1, s2, _, _, _⟩ :=
      step_spec growth m op hinv (hops op (List.mem_cons_self op rest))
    obtain ⟨r1, r2⟩ := ih (m.step growth op) s1
      (fun o ho => hops o (List.mem_cons_of_mem op ho))
    have hrun : m.run growth (op :: rest) = (m.step growth op).run growth rest := rfl
    rw [hrun]
    exact ⟨r1, by omega⟩

/-- The entries of a message keep their addresses and their values through every
sequence of statements that contains no `AddField` on a copy, no `AddEmbed` on that
message and no builder call on one of these entries. -/
theorem run_frame (growth : FieldSlice → Nat) (ops : List Op) :
    ∀ (m : Machine) (w : Nat), m.Inv → w < m.nextWebhook →
      (∀ op ∈ ops, op.appendsToCopy = false ∧ (∀ q, op ≠ .addEmbed w q) ∧
        ∀ d c, op = .copyCall d c → d ∉ (m.webhooks w).Embeds) →
      ((m.run growth ops).webhooks w).Embeds = (m.webhooks w).Embeds ∧
      (∀ d ∈ (m.webhooks w).Embeds, (m.run growth ops).copyAt d = m.copyAt d) ∧
      ((m.run growth ops).webhookAt w).Embeds = (m.webhookAt w).Embeds := by
  induction ops with
  | nil => intro m w _ _ _; exact ⟨rfl, fun _ _ => rfl, rfl⟩
  | cons op rest ih =>
    intro m w hinv hw hops
    obtain ⟨hsafe, hadd, hcall⟩ := hops op (List.mem_cons_self op rest)
    obtain ⟨s1, s2, _, s4, s5⟩ := step_spec growth m op hinv hsafe
    have hlist := s4 w hw hadd
    have hvals : ∀ d ∈ (m.webhooks w).Embeds, (m.step growth op).copyAt d = m.copyAt d := by
      intro d hd
      apply s5 d (hinv.2.2.2 w d hd)
      intro c h
      exact hcall d c h hd
    obtain ⟨r1, r2, r3⟩ := ih (m.step growth op) w s1 (by omega) (by
      intro o ho
      obtain ⟨a, b, c⟩ := hops o (List.mem_cons_of_mem op ho)
      refine ⟨a, b, ?_⟩
      rw [hlist]
      exact c)
    have hrun : m.run growth (op :: rest) = (m.step growth op).run growth rest := rfl
    rw [hrun]
    have hfin : ∀ d ∈ (m.webhooks w).Embeds,
        ((m.step growth op).run growth rest).copyAt d = m.copyAt d := by
      intro d hd
      rw [r2 d (by rw [hlist]; exact hd), hvals d hd]
    refine ⟨by rw [r1, hlist], hfin, ?_⟩
    show (((m.step growth op).run growth rest).webhooks w).Embeds.map
      ((m.step growth op).run growth rest).copyAt = (m.webhooks w).Embeds.map m.copyAt
    rw [r1, hlist]
    exact map_copyAt_congr m _ _ hfin

theorem call_fields (e : Embed) (c : EmbedCall) :
    (e.call c).Fields =
      if c = .clearFields then [] else e.Fields ++ (addedField c).toList := by
  cases c with
  | addField field => simp [Embed.call, Embed.AddField, addedField]
  | clearFields => simp [Embed.call, Embed.ClearFields]
  | setColorInt color =>
    simp only [Embed.call, Embed.SetColorInt, addedField]
    split
    · simp
    · split <;> simp
  | setColorHex hex =>
    simp only [Embed.call, Embed.SetColorHex, addedField]
    cases (hexToColorInt hex).2 <;> simp
  | _ =>
    simp [Embed.call, Embed.SetTitle, Embed.SetDescription, Embed.SetURL,
      Embed.SetColorRGB, Embed.SetFooter, Embed.SetTimestamp, Embed.SetTimestampNow,
      Embed.SetAuthorName, Embed.SetAuthorURL, Embed.SetAuthorIcon, Embed.SetImage,
      Embed.SetThumbnail, addedField]

theorem run_snoc (e : Embed) (cs : List EmbedCall) (c : EmbedCall) :
    e.run (cs ++ [c]) = (e.run cs).call c := by
  simp [Embed.run, List.foldl_append]

theorem afterLastClear_snoc (cs : List EmbedCall) (c : EmbedCall) :
    afterLastClear (cs ++ [c]) = if c = .clearFields then [] else afterLastClear cs ++ [c] := by
  unfold afterLastClear
  by_cases hc : c = .clearFields
  · simp [hc, List.takeWhile]
  · simp [hc, List.takeWhile]

theorem run_fields (calls : List EmbedCall) :
    (NewEmbed.run calls).Fields = (afterLastClear calls).filterMap addedField := by
  induction calls using List.reverseRecOn with
  | nil => rfl
  | append_singleton cs c ih =>
    rw [run_snoc, call_fields, afterLastClear_snoc, ih]
    by_cases hc : c = .clearFields
    · simp [hc]
    · simp only [if_neg hc, List.filterMap_append]
      cases h : addedField c <;> simp [List.filterMap, h]

/-- C15: after any sequence of builder calls on a new embed, `Fields` is the list of
the values passed to the `AddField` calls made after the most recent `ClearFields`,
in call order, duplicates kept; `ClearFields` empties `Fields` and changes nothing
else.  On pointers, `AddField` appends the `Field` as it is at the call, and a later
setter call on that `Field` leaves the embed as it was. -/
theorem fields_keep_insertion_order (calls : List EmbedCall) :
    (NewEmbed.run calls).Fields = (afterLastClear calls).filterMap addedField ∧
    (∀ (e : Embed) (f : Field), (e.AddField f).Fields = e.Fields ++ [f]) ∧
    (∀ f : Field, (NewEmbed.run [.addField f, .addField f]).Fields = [f, f]) ∧
    (∀ e : Embed, e.ClearFields = { e with Fields := [] } ∧ e.ClearFields.Fields = []) ∧
    (∀ (growth : FieldSlice → Nat) (prog : List Op) (e f : Nat) (c : FieldCall),
      e < (Machine.init.run growth prog).nextEmbed →
      f < (Machine.init.run growth prog).nextField →
      (((Machine.init.run growth prog).AddField growth e f).1.embedAt e).Fields
        = ((Machine.init.run growth prog).embedAt e).Fields
            ++ [(Machine.init.run growth prog).fields f] ∧
      ((((Machine.init.run growth prog).AddField growth e f).1.fieldCall f c).1.embedAt e)
        = ((Machine.init.run growth prog).AddField growth e f).1.embedAt e) := by
  refine ⟨run_fields calls, fun _ _ => rfl, fun _ => rfl, fun _ => ⟨rfl, rfl⟩, ?_⟩
  intro growth prog e f c he hf
  have hwf := run_wf growth prog Machine.init init_inv.1
  have hdef : (Machine.init.run growth prog).AddField growth e f =
      (Machine.init.run growth prog).embedCall growth e
        (.addField ((Machine.init.run growth prog).fields f)) := by
    unfold Machine.AddField
    rw [if_pos hf]
  rw [hdef]
  obtain ⟨_, h2, _⟩ := embedCall_wf growth (Machine.init.run growth prog) e
    (.addField ((Machine.init.run growth prog).fields f)) hwf he
  refine ⟨?_, ?_⟩
  · rw [h2]
    rfl
  · unfold Machine.fieldCall
    split <;> rfl

/-- C14 as stated fails, because `AddEmbed` copies the slice header of `Fields` and
not the elements.  Let `e` have the fields a, b, c in a backing array of capacity 4.
After `w.AddEmbed(e)` the entry `w.Embeds[0]` has the fields a, b, c, and after
`w.Embeds[0].AddField(x)` it has a, b, c, x; the later builder call `e.AddField(y)`
writes `y` into the shared array, and the entry has the fields a, b, c, y.  The same
happens when `AddField` was called on a copy held in a variable (`d := *e`) that is
added to the message: `e.AddField(y)` turns the entry a, x into a, y. -/
theorem addField_on_copy_lets_embed_change_entry :
    (Machine.init.run (fun _ => 3)
      [.newEmbed, .newWebhook,
       .embedCall 0 (.addField (NewField (lit "a") (lit "1") false)),
       .embedCall 0 (.addField (NewField (lit "b") (lit "2") false)),
       .embedCall 0 (.addField (NewField (lit "c") (lit "3") false)),
       .addEmbed 0 (.object 0)]).entry 0 0 = some 0 ∧
    ((Machine.init.run (fun _ => 3)
      [.newEmbed, .newWebhook,
       .embedCall 0 (.addField (NewField (lit "a") (lit "1") false)),
       .embedCall 0 (.addField (NewField (lit "b") (lit "2") false)),
       .embedCall 0 (.addField (NewField (lit "c") (lit "3") false)),
       .addEmbed 0 (.object 0)]).webhookAt 0).Embeds
      = [NewEmbed.run [.addField (NewField (lit "a") (lit "1") false),
           .addField (NewField (lit "b") (lit "2") false),
           .addField (NewField (lit "c") (lit "3") false)]] ∧
    ((Machine.init.run (fun _ => 3)
      [.newEmbed, .newWebhook,
       .embedCall 0 (.addField (NewField (lit "a") (lit "1") false)),
       .embedCall 0 (.addField (NewField (lit "b") (lit "2") false)),
       .embedCall 0 (.addField (NewField (lit "c") (lit "3") false)),
       .addEmbed 0 (.object 0),
       .copyCall 0 (.addField (NewField (lit "x") (lit "4") false))]).webhookAt 0).Embeds
      = [NewEmbed.run [.addField (NewField (lit "a") (lit "1") false),
           .addField (NewField (lit "b") (lit "2") false),
           .addField (NewField (lit "c") (lit "3") false),
           .addField (NewField (lit "x") (lit "4") false)]] ∧
    (((Machine.init.run (fun _ => 3)
      [.newEmbed, .newWebhook,
       .embedCall 0 (.addField (NewField (lit "a") (lit "1") false)),
       .embedCall 0 (.addField (NewField (lit "b") (lit "2") false)),
       .embedCall 0 (.addField (NewField (lit "c") (lit "3") false)),
       .addEmbed 0 (.object 0),
       .copyCall 0 (.addField (NewField (lit "x") (lit "4") false))]).embedCall (fun _ => 3) 0
         (.addField (NewField (lit "y") (lit "5") false))).1.webhookAt 0).Embeds
      = [NewEmbed.run [.addField (NewField (lit "a") (lit "1") false),
           .addField (NewField (lit "b") (lit "2") false),
           .addField (NewField (lit "c") (lit "3") false),
           .addField (NewField (lit "y") (lit "5") false)]] ∧
    ((Machine.init.run (fun _ => 3)
      [.newEmbed, .newWebhook,
       .embedCall 0 (.addField (NewField (lit "a") (lit "1") false)),
       .copyEmbed (.object 0),
       .copyCall 0 (.addField (NewField (lit "x") (lit "4") false)),
       .addEmbed 0 (.copy 0),
       .addEmbed 0 (.object 0)]).webhookAt 0).Embeds
      = [NewEmbed.run [.addField (NewField (lit "a") (lit "1") false),
           .addField (NewField (lit "x") (lit "4") false)],
         NewEmbed.run [.addField (NewField (lit "a") (lit "1") false)]] ∧
    (((Machine.init.run (fun _ => 3)
      [.newEmbed, .newWebhook,
       .embedCall 0 (.addField (NewField (lit "a") (lit "1") false)),
       .copyEmbed (.object 0),
       .copyCall 0 (.addField (NewField (lit "x") (lit "4") false)),
       .addEmbed 0 (.copy 0),
       .addEmbed 0 (.object 0)]).embedCall (fun _ => 3) 0
         (.addField (NewField (lit "y") (lit "5") false))).1.webhookAt 0).Embeds
      = [NewEmbed.run [.addField (NewField (lit "a") (lit "1") false),
           .addField (NewField (lit "y") (lit "5") false)],
         NewEmbed.run [.addField (NewField (lit "a") (lit "1") false)]] := by
  decide

/-- C14, amended: in every store reached by a program that never calls `AddField` on
a copy of an embed (an entry of an `Embeds` slice or a variable assigned from an
embed), `w.AddEmbed(p)` makes the value of `w` the previous value with the value of
`*p` appended to `Embeds`, and returns `w`.  Whatever such statements follow, other
than further `AddEmbed` calls on `w` and builder calls on the entries of `w.Embeds`
themselves, the `Embeds` of `w` keep that value; and after any such statements a
builder call on any embed that `NewEmbed` returned (a setter, `AddField`,
`ClearFields`, `SetColorHex`) leaves every message as it is, while it changes the
value of that embed as the builder does. -/
theorem addEmbed_appends_a_copy (growth : FieldSlice → Nat) (prog later : List Op) (w : Nat)
    (p : EmbedPtr)
    (hprog : ∀ op ∈ prog, op.appendsToCopy = false)
    (hw : w < (Machine.init.run growth prog).nextWebhook)
    (hp : (Machine.init.run growth prog).allocated p = true)
    (hlater : ∀ op ∈ later, op.appendsToCopy = false ∧ (∀ q, op ≠ .addEmbed w q) ∧
      ∀ d c, op = .copyCall d c →
        d ∉ (((Machine.init.run growth prog).AddEmbed w p).1.webhooks w).Embeds) :
    ((Machine.init.run growth prog).AddEmbed w p).1.webhookAt w
      = ((Machine.init.run growth prog).webhookAt w).AddEmbed
          ((Machine.init.run growth prog).valueAt p) ∧
    (((Machine.init.run growth prog).AddEmbed w p).1.webhookAt w).Embeds
      = ((Machine.init.run growth prog).webhookAt w).Embeds
          ++ [(Machine.init.run growth prog).valueAt p] ∧
    ((Machine.init.run growth prog).AddEmbed w p).2 = w ∧
    ((((Machine.init.run growth prog).AddEmbed w p).1.run growth later).webhookAt w).Embeds
      = ((Machine.init.run growth prog).webhookAt w).Embeds
          ++ [(Machine.init.run growth prog).valueAt p] ∧
    (∀ rest : List Op, (∀ op ∈ rest, op.appendsToCopy = false) →
      ∀ (e : Nat) (c : EmbedCall),
        (∀ q, (((((Machine.init.run growth prog).AddEmbed w p).1.run growth rest).embedCall
            growth e c).1.webhookAt q)
          = (((Machine.init.run growth prog).AddEmbed w p).1.run growth rest).webhookAt q) ∧
        (e < (((Machine.init.run growth prog).AddEmbed w p).1.run growth rest).nextEmbed →
          (((((Machine.init.run growth prog).AddEmbed w p).1.run growth rest).embedCall
            growth e c).1.embedAt e)
          = ((((Machine.init.run growth prog).AddEmbed w p).1.run growth rest).embedAt e).call
              c)) := by
  obtain ⟨hinv, _⟩ := run_spec growth prog Machine.init init_inv hprog
  obtain ⟨a1, a2, _, _, _, a6, _, _, a9⟩ :=
    AddEmbed_spec (Machine.init.run growth prog) w p hinv hw hp
  obtain ⟨_, _, r3⟩ := run_frame growth later _ w a1 (by omega) hlater
  have hemb : (((Machine.init.run growth prog).AddEmbed w p).1.webhookAt w).Embeds
      = ((Machine.init.run growth prog).webhookAt w).Embeds
          ++ [(Machine.init.run growth prog).valueAt p] := by
    rw [a2]
    rfl
  refine ⟨a2, hemb, a9, ?_, ?_⟩
  · rw [r3, hemb]
  · intro rest hrest e c
    obtain ⟨hinv2, _⟩ := run_spec growth rest _ a1 hrest
    by_cases he : e < (((Machine.init.run growth prog).AddEmbed w p).1.run growth rest).nextEmbed
    · obtain ⟨_, _, h3⟩ := embedCall_spec growth _ e c hinv2 he
      obtain ⟨_, g2, g3, _⟩ := embedCall_wf growth _ e c hinv2.1 he
      refine ⟨?_, fun _ => g2⟩
      intro q
      exact webhookAt_congr _ _ q (by rw [g3]) (fun d _ => h3 d)
    · rw [embedCall_invalid growth _ e c he]
      exact ⟨fun _ => rfl, fun h => absurd h he⟩

/-- C14, amended, at the program that creates an embed and a message and adds the
field (a,1), with `AddField` of (b,2), `SetTitle` and `ClearFields` on the embed and
`SetTitle` on a copy of the embed after the `AddEmbed`. -/
theorem addEmbed_appends_a_copy_witness :
    0 < (Machine.init.run (fun _ => 3)
        [.newEmbed, .newWebhook, .embedCall 0 (.addField (NewField (lit "a") (lit "1") true))]
        ).nextWebhook ∧
    (Machine.init.run (fun _ => 3)
        [.newEmbed, .newWebhook, .embedCall 0 (.addField (NewField (lit "a") (lit "1") true))]
        ).allocated (.object 0) = true ∧
    ((((Machine.init.run (fun _ => 3)
        [.newEmbed, .newWebhook, .embedCall 0 (.addField (NewField (lit "a") (lit "1") true))]
        ).AddEmbed 0 (.object 0)).1.run (fun _ => 3)
        [.embedCall 0 (.addField (NewField (lit "b") (lit "2") true)),
         .embedCall 0 (.setTitle (lit "t")), .embedCall 0 .clearFields,
         .copyEmbed (.object 0), .copyCall 1 (.setTitle (lit "u"))]).webhookAt 0).Embeds
      = (NewWebhook.Embeds
          ++ [NewEmbed.AddField (NewField (lit "a") (lit "1") true)]) :=
  ⟨by decide, by decide,
   (addEmbed_appends_a_copy (fun _ => 3)
    [.newEmbed, .newWebhook, .embedCall 0 (.addField (NewField (lit "a") (lit "1") true))]
    [.embedCall 0 (.addField (NewField (lit "b") (lit "2") true)),
     .embedCall 0 (.setTitle (lit "t")), .embedCall 0 .clearFields,
     .copyEmbed (.object 0), .copyCall 1 (.setTitle (lit "u"))] 0 (.object 0)
    (by decide) (by decide) (by decide)
    (by
      intro op hop
      simp only [List.mem_cons, List.mem_singleton, List.not_mem_nil, or_false] at hop
      rcases hop with h | h | h | h | h <;> subst h <;>
        refine ⟨rfl, fun q hq => (by cases hq), fun d c hdc => ?_⟩
      · cases hdc
      · cases hdc
      · cases hdc
      · cases hdc
      · cases hdc
        decide)).2.2.2.1⟩

/-- C17: each of `SetContent`, `SetUsername`, `SetAvatarURL` and `SetTTS` sets its own
field to the argument and leaves the other three and `Embeds` as they were; called
on a pointer it changes the value of that message as the setter does, leaves every
other message and every embed alone, and returns the same pointer. -/
theorem webhook_setters_assign_one_field (w : Webhook) (x : GoString) (b : Bool) :
    ((w.SetContent x).Content = x ∧ (w.SetContent x).Username = w.Username ∧
      (w.SetContent x).AvatarURL = w.AvatarURL ∧ (w.SetContent x).TTS = w.TTS ∧
      (w.SetContent x).Embeds = w.Embeds) ∧
    ((w.SetUsername x).Username = x ∧ (w.SetUsername x).Content = w.Content ∧
      (w.SetUsername x).AvatarURL = w.AvatarURL ∧ (w.SetUsername x).TTS = w.TTS ∧
      (w.SetUsername x).Embeds = w.Embeds) ∧
    ((w.SetAvatarURL x).AvatarURL = x ∧ (w.SetAvatarURL x).Content = w.Content ∧
      (w.SetAvatarURL x).Username = w.Username ∧ (w.SetAvatarURL x).TTS = w.TTS ∧
      (w.SetAvatarURL x).Embeds = w.Embeds) ∧
    ((w.SetTTS b).TTS = b ∧ (w.SetTTS b).Content = w.Content ∧
      (w.SetTTS b).Username = w.Username ∧ (w.SetTTS b).AvatarURL = w.AvatarURL ∧
      (w.SetTTS b).Embeds = w.Embeds) ∧
    (∀ (growth : FieldSlice → Nat) (prog : List Op) (p : Nat) (c : WebhookCall),
      p < (Machine.init.run growth prog).nextWebhook →
      ((Machine.init.run growth prog).webhookCall p c).2 = p ∧
      ((Machine.init.run growth prog).webhookCall p c).1.webhookAt p
        = ((Machine.init.run growth prog).webhookAt p).call c ∧
      (∀ q, q ≠ p → ((Machine.init.run growth prog).webhookCall p c).1.webhookAt q
        = (Machine.init.run growth prog).webhookAt q) ∧
      (∀ i, ((Machine.init.run growth prog).webhookCall p c).1.embedAt i
        = (Machine.init.run growth prog).embedAt i)) := by
  refine ⟨⟨rfl, rfl, rfl, rfl, rfl⟩, ⟨rfl, rfl, rfl, rfl, rfl⟩, ⟨rfl, rfl, rfl, rfl, rfl⟩,
    ⟨rfl, rfl, rfl, rfl, rfl⟩, ?_⟩
  intro growth prog p c hp
  obtain ⟨h1, h2, h3, h4, _⟩ := webhookCall_spec (Machine.init.run growth prog) p c hp
  exact ⟨h4, h1, h2, h3⟩

/-! ### Timestamps -/

theorem yearOfEra_core (e s f g y4 Y p q : Int) (hs0 : 0 ≤ s) (hs1 : s ≤ 1459) (he0 : 0 ≤ e)
    (hd : 1460 * e + s ≤ 146096)
    (hf0 : 36524 * f ≤ 1460 * e + s) (hf1 : 1460 * e + s ≤ 36524 * f + 36523)
    (hg0 : 146096 * g ≤ 1460 * e + s) (hg1 : 1460 * e + s ≤ 146096 * g + 146095)
    (hy0 : 365 * y4 ≤ s - e + f - g) (hy1 : s - e + f - g ≤ 365 * y4 + 364)
    (hY : Y = 4 * e + y4) (hp0 : 4 * p ≤ Y) (hp1 : Y ≤ 4 * p + 3)
    (hq0 : 100 * q ≤ Y) (hq1 : Y ≤ 100 * q + 99) :
    0 ≤ Y ∧ Y ≤ 399 ∧ 0 ≤ 1460 * e + s - (365 * Y + p - q) ∧
    (1460 * e + s - (365 * Y + p - q) ≤ 364 ∨
      (1460 * e + s - (365 * Y + p - q) = 365 ∧ (Y + 1) % 4 = 0 ∧
        ((Y + 1) % 100 ≠ 0 ∨ (Y + 1) % 400 = 0))) := by
  have hfb : 0 ≤ f ∧ f ≤ 4 := by omega
  have hgb : 0 ≤ g ∧ g ≤ 1 := by omega
  have hyb : -1 ≤ y4 ∧ y4 ≤ 4 := by omega
  obtain ⟨hfa, hfc⟩ := hfb
  obtain ⟨hga, hgc⟩ := hgb
  obtain ⟨hya, hyc⟩ := hyb
  interval_cases f <;> interval_cases g <;> interval_cases y4 <;> omega

theorem yearOfEra_spec (doe : Int) (h0 : 0 ≤ doe) (h1 : doe ≤ 146096) (Y : Int)
    (hY : Y = (doe - doe / 1460 + doe / 36524 - doe / 146096) / 365) :
    0 ≤ Y ∧ Y ≤ 399 ∧ 0 ≤ doe - (365 * Y + Y / 4 - Y / 100) ∧
    (doe - (365 * Y + Y / 4 - Y / 100) ≤ 364 ∨
      (doe - (365 * Y + Y / 4 - Y / 100) = 365 ∧ (Y + 1) % 4 = 0 ∧
        ((Y + 1) % 100 ≠ 0 ∨ (Y + 1) % 400 = 0))) := by
  have hdoe : 1460 * (doe / 1460) + doe % 1460 = doe := Int.ediv_add_emod doe 1460
  have key := yearOfEra_core (doe / 1460) (doe % 1460) (doe / 36524) (doe / 146096)
    (Y - 4 * (doe / 1460)) Y (Y / 4) (Y / 100) (by omega) (by omega) (by omega) (by omega)
    (by omega) (by omega) (by omega) (by omega) (by omega) (by omega) (by omega) (by omega)
    (by omega) (by omega) (by omega)
  rw [hdoe] at key
  exact key

theorem isLeapYear_iff (y : Int) :
    isLeapYear y = true ↔ y % 4 = 0 ∧ (y % 100 ≠ 0 ∨ y % 400 = 0) := by
  simp [isLeapYear]

theorem validDate_iff (y m d : Int) :
    validDate y m d = true ↔ 1 ≤ m ∧ m ≤ 12 ∧ 1 ≤ d ∧ d ≤ daysInMonth y m := by
  simp [validDate]

theorem civil_of_dayOfYear (Y era doy mp dd : Int) (y0 : 0 ≤ Y) (y1 : Y ≤ 399) (d0 : 0 ≤ doy)
    (d1 : doy ≤ 364 ∨ (doy = 365 ∧ (Y + 1) % 4 = 0 ∧ ((Y + 1) % 100 ≠ 0 ∨ (Y + 1) % 400 = 0)))
    (hmp : mp = (5 * doy + 2) / 153) (hdd : dd = (153 * mp + 2) / 5) :
    validDate (Y + era * 400 + (if (if mp < 10 then mp + 3 else mp - 9) ≤ 2 then 1 else 0))
      (if mp < 10 then mp + 3 else mp - 9) (doy - dd + 1) = true ∧
    daysFromCivil (Y + era * 400 + (if (if mp < 10 then mp + 3 else mp - 9) ≤ 2 then 1 else 0))
      (if mp < 10 then mp + 3 else mp - 9) (doy - dd + 1)
      = era * 146097 + (365 * Y + Y / 4 - Y / 100 + doy) - 719468 := by
  have hmpb : 0 ≤ mp ∧ mp ≤ 11 := by omega
  by_cases h10 : mp < 10
  · have hm : (if mp < 10 then mp + 3 else mp - 9) = mp + 3 := if_pos h10
    have hm2 : ¬ (mp + 3 ≤ 2) := by omega
    rw [hm, if_neg hm2]
    constructor
    · rw [validDate_iff]
      refine ⟨by omega, by omega, by omega, ?_⟩
      unfold daysInMonth
      split_ifs with h1 h2 h3
      · omega
      · omega
      · omega
      · omega
    · unfold daysFromCivil
      simp only []
      rw [if_neg hm2, if_pos (by omega : mp + 3 > 2)]
      omega
  · have hm : (if mp < 10 then mp + 3 else mp - 9) = mp - 9 := if_neg h10
    have hm2 : mp - 9 ≤ 2 := by omega
    rw [hm, if_pos hm2]
    constructor
    · rw [validDate_iff]
      refine ⟨by omega, by omega, by omega, ?_⟩
      unfold daysInMonth
      split_ifs with h1 h2 h3
      · omega
      · rw [isLeapYear_iff] at h2
        omega
      · omega
      · omega
    · unfold daysFromCivil
      simp only []
      rw [if_pos hm2, if_neg (by omega : ¬ mp - 9 > 2)]
      omega

theorem civilFromDays_spec (z : Int) :
    validDate (civilFromDays z).1 (civilFromDays z).2.1 (civilFromDays z).2.2 = true ∧
    daysFromCivil (civilFromDays z).1 (civilFromDays z).2.1 (civilFromDays z).2.2 = z := by
  have hyoe := yearOfEra_spec (z + 719468 - (z + 719468) / 146097 * 146097) (by omega) (by omega)
    _ rfl
  obtain ⟨y0, y1, d0, d1⟩ := hyoe
  have key := civil_of_dayOfYear _ ((z + 719468) / 146097) _ _ _ y0 y1 d0 d1 rfl rfl
  obtain ⟨k1, k2⟩ := key
  refine ⟨k1, k2.trans ?_⟩
  ring

theorem toDigitsCore_step (fuel n : Nat) (ds : List Char) :
    Nat.toDigitsCore 10 (fuel + 1) n ds =
      if n / 10 = 0 then Nat.digitChar (n % 10) :: ds
      else Nat.toDigitsCore 10 fuel (n / 10) (Nat.digitChar (n % 10) :: ds) := rfl

theorem toDigitsCore_one (f n : Nat) (ds : List Char) (h : n < 10) :
    Nat.toDigitsCore 10 (f + 1) n ds = Nat.digitChar n :: ds := by
  rw [toDigitsCore_step, if_pos (by omega), Nat.mod_eq_of_lt h]

theorem toDigitsCore_two (f n : Nat) (ds : List Char) (h0 : 10 ≤ n) (h : n < 100) :
    Nat.toDigitsCore 10 (f + 2) n ds = Nat.digitChar (n / 10) :: Nat.digitChar (n % 10) :: ds := by
  rw [toDigitsCore_step, if_neg (by omega), toDigitsCore_one f _ _ (by omega)]

theorem toDigitsCore_three (f n : Nat) (ds : List Char) (h0 : 100 ≤ n) (h : n < 1000) :
    Nat.toDigitsCore 10 (f + 3) n ds =
      Nat.digitChar (n / 100) :: Nat.digitChar (n / 10 % 10) :: Nat.digitChar (n % 10) :: ds := by
  rw [toDigitsCore_step, if_neg (by omega), toDigitsCore_two f _ _ (by omega) (by omega)]
  have : n / 10 / 10 = n / 100 := by omega
  rw [this]

theorem toDigitsCore_four (f n : Nat) (ds : List Char) (h0 : 1000 ≤ n) (h : n < 10000) :
    Nat.toDigitsCore 10 (f + 4) n ds =
      Nat.digitChar (n / 1000) :: Nat.digitChar (n / 100 % 10) :: Nat.digitChar (n / 10 % 10)
        :: Nat.digitChar (n % 10) :: ds := by
  rw [toDigitsCore_step, if_neg (by omega), toDigitsCore_three f _ _ (by omega) (by omega)]
  have h1 : n / 10 / 100 = n / 1000 := by omega
  have h2 : n / 10 / 10 % 10 = n / 100 % 10 := by omega
  rw [h1, h2]

theorem asciiDigit_zero : asciiDigit 0 = 0x30 := by decide

theorem decimalDigits_lt (n : Nat) (h : n < 10000) :
    List.replicate (4 - (decimalDigits n).length) 0x30 ++ decimalDigits n =
      [asciiDigit (n / 1000), asciiDigit (n / 100 % 10), asciiDigit (n / 10 % 10),
        asciiDigit (n % 10)] ∧
    (n < 100 → List.replicate (2 - (decimalDigits n).length) 0x30 ++ decimalDigits n =
      [asciiDigit (n / 10), asciiDigit (n % 10)]) := by
  unfold decimalDigits Nat.toDigits
  by_cases h1 : n < 10
  · rw [toDigitsCore_one n n [] h1]
    have e1 : n / 1000 = 0 := by omega
    have e2 : n / 100 % 10 = 0 := by omega
    have e3 : n / 10 % 10 = 0 := by omega
    have e4 : n % 10 = n := by omega
    have e5 : n / 10 = 0 := by omega
    rw [e1, e2, e3, e4, e5, asciiDigit_zero]
    exact ⟨rfl, fun _ => rfl⟩
  · by_cases h2 : n < 100
    · have hf : n + 1 = (n - 1) + 2 := by omega
      rw [hf, toDigitsCore_two (n - 1) n [] (by omega) h2]
      have e1 : n / 1000 = 0 := by omega
      have e2 : n / 100 % 10 = 0 := by omega
      have e3 : n / 10 % 10 = n / 10 := by omega
      rw [e1, e2, e3, asciiDigit_zero]
      exact ⟨rfl, fun _ => rfl⟩
    · by_cases h3 : n < 1000
      · have hf : n + 1 = (n - 2) + 3 := by omega
        rw [hf, toDigitsCore_three (n - 2) n [] (by omega) h3]
        have e1 : n / 1000 = 0 := by omega
        have e2 : n / 100 % 10 = n / 100 := by omega
        rw [e1, e2, asciiDigit_zero]
        exact ⟨rfl, fun hh => absurd hh h2⟩
      · have hf : n + 1 = (n - 3) + 4 := by omega
        rw [hf, toDigitsCore_four (n - 3) n [] (by omega) h]
        exact ⟨rfl, fun hh => absurd hh h2⟩

theorem appendInt_four (x : Int) (h0 : 0 ≤ x) (h1 : x ≤ 9999) :
    appendInt x 4 = [asciiDigit (x.toNat / 1000), asciiDigit (x.toNat / 100 % 10),
      asciiDigit (x.toNat / 10 % 10), asciiDigit (x.toNat % 10)] := by
  unfold appendInt
  have hn : x.natAbs = x.toNat := by omega
  simp only [hn, if_neg (by omega : ¬ x < 0), List.nil_append]
  exact (decimalDigits_lt x.toNat (by omega)).1

theorem appendInt_two (x : Int) (h0 : 0 ≤ x) (h1 : x ≤ 99) :
    appendInt x 2 = [asciiDigit (x.toNat / 10), asciiDigit (x.toNat % 10)] := by
  unfold appendInt
  have hn : x.natAbs = x.toNat := by omega
  simp only [hn, if_neg (by omega : ¬ x < 0), List.nil_append]
  exact (decimalDigits_lt x.toNat (by omega)).2 (by omega)

theorem decDigitValue_asciiDigit (k : Nat) (h : k < 10) :
    decDigitValue (asciiDigit k) = some k := by
  interval_cases k <;> decide

theorem fixedDigits_two (a b : Nat) (ha : a < 10) (hb : b < 10) :
    fixedDigits 2 [asciiDigit a, asciiDigit b] = some (a * 10 + b) := by
  simp [fixedDigits, decimalNatural, posValue, decDigitValue_asciiDigit a ha,
    decDigitValue_asciiDigit b hb]

theorem fixedDigits_four (a b c d : Nat) (ha : a < 10) (hb : b < 10) (hc : c < 10)
    (hd : d < 10) :
    fixedDigits 4 [asciiDigit a, asciiDigit b, asciiDigit c, asciiDigit d]
      = some (((a * 10 + b) * 10 + c) * 10 + d) := by
  simp [fixedDigits, decimalNatural, posValue, decDigitValue_asciiDigit a ha,
    decDigitValue_asciiDigit b hb, decDigitValue_asciiDigit c hc,
    decDigitValue_asciiDigit d hd]

theorem parseRFC3339_of_digits (a3 a2 a1 a0 b1 b0 c1 c0 d1 d0 e1 e0 f1 f0 : Nat)
    (ha3 : a3 < 10) (ha2 : a2 < 10) (ha1 : a1 < 10) (ha0 : a0 < 10)
    (hb1 : b1 < 10) (hb0 : b0 < 10) (hc1 : c1 < 10) (hc0 : c0 < 10)
    (hd1 : d1 < 10) (hd0 : d0 < 10) (he1 : e1 < 10) (he0 : e0 < 10)
    (hf1 : f1 < 10) (hf0 : f0 < 10)
    (hv : validDate (Int.ofNat (((a3 * 10 + a2) * 10 + a1) * 10 + a0))
      (Int.ofNat (b1 * 10 + b0)) (Int.ofNat (c1 * 10 + c0)) = true)
    (hh : d1 * 10 + d0 ≤ 23) (hm : e1 * 10 + e0 ≤ 59) (hs : f1 * 10 + f0 ≤ 59) :
    parseRFC3339
      [asciiDigit a3, asciiDigit a2, asciiDigit a1, asciiDigit a0, 0x2d,
       asciiDigit b1, asciiDigit b0, 0x2d, asciiDigit c1, asciiDigit c0, 0x54,
       asciiDigit d1, asciiDigit d0, 0x3a, asciiDigit e1, asciiDigit e0, 0x3a,
       asciiDigit f1, asciiDigit f0, 0x5a]
      = some (daysFromCivil (Int.ofNat (((a3 * 10 + a2) * 10 + a1) * 10 + a0))
          (Int.ofNat (b1 * 10 + b0)) (Int.ofNat (c1 * 10 + c0)) * 86400
          + Int.ofNat ((d1 * 10 + d0) * 3600 + (e1 * 10 + e0) * 60 + (f1 * 10 + f0)) - 0, 0) := by
  have hfrac : parseFraction [0x5a] = some (0, [0x5a]) := rfl
  have hoff : parseOffset [0x5a] = some 0 := rfl
  unfold parseRFC3339
  simp only [List.take, List.drop, List.get?, fixedDigits_four a3 a2 a1 a0 ha3 ha2 ha1 ha0,
    fixedDigits_two b1 b0 hb1 hb0, fixedDigits_two c1 c0 hc1 hc0,
    fixedDigits_two d1 d0 hd1 hd0, fixedDigits_two e1 e0 he1 he0,
    fixedDigits_two f1 f0 hf1 hf0, hfrac, hoff]
  rw [if_pos ⟨trivial, trivial, trivial, trivial, trivial, hv, hh, hm, hs⟩]

theorem formatRFC3339_UTC (t : Time) :
    t.UTC.formatRFC3339 =
      appendInt (civilFromDays (t.sec / 86400)).1 4 ++ [0x2d]
        ++ appendInt (civilFromDays (t.sec / 86400)).2.1 2 ++ [0x2d]
        ++ appendInt (civilFromDays (t.sec / 86400)).2.2 2 ++ [0x54]
        ++ appendInt (t.sec % 86400 / 3600) 2 ++ [0x3a]
        ++ appendInt (t.sec % 86400 % 3600 / 60) 2 ++ [0x3a]
        ++ appendInt (t.sec % 86400 % 60) 2 ++ [0x5a] := by
  unfold Time.formatRFC3339 Time.UTC
  simp

theorem parse_format_UTC (t : Time) (h0 : 0 ≤ t.UTC.Year) (h1 : t.UTC.Year ≤ 9999) :
    parseRFC3339 t.UTC.formatRFC3339 = some (t.sec, 0) := by
  have hyear : t.UTC.Year = (civilFromDays (t.sec / 86400)).1 := by
    unfold Time.Year Time.UTC
    simp
  rw [hyear] at h0 h1
  obtain ⟨hvalid, hdays⟩ := civilFromDays_spec (t.sec / 86400)
  rw [formatRFC3339_UTC]
  generalize civilFromDays (t.sec / 86400) = civ at h0 h1 hvalid hdays ⊢
  obtain ⟨y, mo, d⟩ := civ
  simp only at h0 h1 hvalid hdays ⊢
  have hv := (validDate_iff y mo d).mp hvalid
  have hdim : daysInMonth y mo ≤ 31 := by
    unfold daysInMonth
    split_ifs <;> omega
  rw [appendInt_four y h0 h1, appendInt_two mo (by omega) (by omega),
    appendInt_two d (by omega) (by omega),
    appendInt_two (t.sec % 86400 / 3600) (by omega) (by omega),
    appendInt_two (t.sec % 86400 % 3600 / 60) (by omega) (by omega),
    appendInt_two (t.sec % 86400 % 60) (by omega) (by omega)]
  have hY : Int.ofNat (((y.toNat / 1000 * 10 + y.toNat / 100 % 10) * 10 + y.toNat / 10 % 10) * 10
      + y.toNat % 10) = y := by
    show ((((y.toNat / 1000 * 10 + y.toNat / 100 % 10) * 10 + y.toNat / 10 % 10) * 10
      + y.toNat % 10 : Nat) : Int) = y
    omega
  have hM : Int.ofNat (mo.toNat / 10 * 10 + mo.toNat % 10) = mo := by
    show ((mo.toNat / 10 * 10 + mo.toNat % 10 : Nat) : Int) = mo
    omega
  have hD : Int.ofNat (d.toNat / 10 * 10 + d.toNat % 10) = d := by
    show ((d.toNat / 10 * 10 + d.toNat % 10 : Nat) : Int) = d
    omega
  have key := parseRFC3339_of_digits (y.toNat / 1000) (y.toNat / 100 % 10) (y.toNat / 10 % 10)
    (y.toNat % 10) (mo.toNat / 10) (mo.toNat % 10) (d.toNat / 10) (d.toNat % 10)
    ((t.sec % 86400 / 3600).toNat / 10) ((t.sec % 86400 / 3600).toNat % 10)
    ((t.sec % 86400 % 3600 / 60).toNat / 10) ((t.sec % 86400 % 3600 / 60).toNat % 10)
    ((t.sec % 86400 % 60).toNat / 10) ((t.sec % 86400 % 60).toNat % 10)
    (by omega) (by omega) (by omega) (by omega) (by omega) (by omega) (by omega) (by omega)
    (by omega) (by omega) (by omega) (by omega) (by omega) (by omega)
    (by rw [hY, hM, hD]; exact hvalid) (by omega) (by omega) (by omega)
  rw [hY, hM, hD, hdays] at key
  simp only [List.append_assoc, List.cons_append, List.nil_append]
  rw [key]
  congr 2
  show t.sec / 86400 * 86400 + (((((t.sec % 86400 / 3600).toNat / 10 * 10
      + (t.sec % 86400 / 3600).toNat % 10) * 3600
      + ((t.sec % 86400 % 3600 / 60).toNat / 10 * 10
        + (t.sec % 86400 % 3600 / 60).toNat % 10) * 60
      + ((t.sec % 86400 % 60).toNat / 10 * 10 + (t.sec % 86400 % 60).toNat % 10) : Nat)) : Int)
      - 0 = t.sec
  omega

/-- C11 as stated fails in two ways.  The layout `time.RFC3339` has no fraction of a
second: for the instant 0.5 s after the epoch the stored string is
"1970-01-01T00:00:00Z", which denotes the epoch itself.  And a year above 9999 is
printed with five digits: for the first second of the year 10000 the stored string
is "10000-01-01T00:00:00Z", which is not an RFC 3339 string. -/
theorem timestamp_drops_fraction_and_overflows_year :
    (NewEmbed.SetTimestamp ⟨0, 500000000, 0⟩).Timestamp = lit "1970-01-01T00:00:00Z" ∧
    parseRFC3339 (NewEmbed.SetTimestamp ⟨0, 500000000, 0⟩).Timestamp = some (0, 0) ∧
    parseRFC3339 (NewEmbed.SetTimestamp ⟨0, 500000000, 0⟩).Timestamp
      ≠ some (0, 500000000) ∧
    (NewEmbed.SetTimestamp ⟨253402300800, 0, 0⟩).Timestamp = lit "10000-01-01T00:00:00Z" ∧
    parseRFC3339 (NewEmbed.SetTimestamp ⟨253402300800, 0, 0⟩).Timestamp = none := by
  decide

/-- C11, amended: for every `time.Time` whose year in UTC is within 0..9999, whatever
its zone and sub-second part, the string `SetTimestamp` stores ends in `Z` and is an
RFC 3339 `date-time` denoting the instant of `t` cut to the whole second; it denotes
the instant of `t` itself when the sub-second part is zero. -/
theorem setTimestamp_round_trip (e : Embed) (t : Time) (h0 : 0 ≤ t.UTC.Year)
    (h1 : t.UTC.Year ≤ 9999) :
    (e.SetTimestamp t).Timestamp = t.UTC.formatRFC3339 ∧
    (e.SetTimestamp t).Timestamp.getLast? = some 0x5a ∧
    parseRFC3339 (e.SetTimestamp t).Timestamp = some (t.sec, 0) ∧
    (t.nsec = 0 → parseRFC3339 (e.SetTimestamp t).Timestamp = some (t.sec, t.nsec)) := by
  have hst : (e.SetTimestamp t).Timestamp = t.UTC.formatRFC3339 := rfl
  have hp := parse_format_UTC t h0 h1
  refine ⟨hst, ?_, ?_, ?_⟩
  · rw [hst, formatRFC3339_UTC]
    exact List.getLast?_concat _
  · rw [hst]
    exact hp
  · intro hn
    rw [hst, hn]
    exact hp

/-- C11, amended, at 2024-01-02T04:04:05.000000005+01:00. -/
theorem setTimestamp_round_trip_witness :
    0 ≤ (Time.UTC ⟨1704164645, 5, 3600⟩).Year ∧ (Time.UTC ⟨1704164645, 5, 3600⟩).Year ≤ 9999 ∧
    parseRFC3339 (NewEmbed.SetTimestamp ⟨1704164645, 5, 3600⟩).Timestamp
      = some (1704164645, 0) :=
  ⟨by decide, by decide,
   (setTimestamp_round_trip NewEmbed ⟨1704164645, 5, 3600⟩ (by decide) (by decide)).2.2.1⟩

end WebhookerGo
